import Mathlib

set_option maxRecDepth 8000

/-!
Verification of the chess rules engine in src/core of the cli-chess
repository (moves.py, board.py, evaluations.py, game.py).

Shallow embedding conventions:
- The source encodes pieces, moves and evaluations as packed character
  strings; each string is injective in its fields, so here they are records
  and inductives carrying exactly those fields (see the docstrings of
  Piece and Move in the source).
- Python dict objects mapping squares to pieces are modelled as association
  lists kept sorted by key.  Python dicts are keyed maps whose iteration
  order (insertion order) only influences the order in which members of
  result sets are produced, never the sets themselves, so a canonically
  ordered representation is observationally equivalent.
- Python set objects are modelled as lists: sets of squares are built with
  cons and consumed only through membership tests, so duplicates are
  harmless; sets of moves are built with a duplicate-avoiding insert since
  their cardinality is observable (perft).
- Python assert statements (all unreachable on well-formed boards, which is
  proved below for reachable states) are modelled by matches whose failure
  branch returns an unchanged value.
- Methods that mutate the board (get_moves clears en-passant flags) are
  modelled by returning the new board alongside the result.
-/

namespace CliChess

/-- The six piece kinds; the source represents a kind as its letter. -/
inductive PName where
  | P | R | N | B | Q | K
deriving DecidableEq, Repr

/-- A piece, as in board.py: the string [N, C, M, E] packing name, color,
has-moved flag and en-passant flag. -/
structure Piece where
  name : PName
  white : Bool
  moved : Bool
  ep : Bool
deriving DecidableEq, Repr

/-- board.py make_piece. -/
def make_piece (name : PName) (is_white : Bool) (has_moved : Bool) (can_ep : Bool) : Piece :=
  { name := name, white := is_white, moved := has_moved, ep := can_ep }

/-- board.py get_name. -/
def get_name (p : Piece) : PName := p.name

/-- board.py is_white. -/
def is_white (p : Piece) : Bool := p.white

/-- board.py has_moved. -/
def has_moved (p : Piece) : Bool := p.moved

/-- board.py can_ep. -/
def can_ep (p : Piece) : Bool := p.ep

/-- A square (rank, file); the source uses Python int pairs. -/
abbrev Pos := Int × Int

/-- A move, as in moves.py: the string [N, rf(1), c, rf(2), E, P] for normal
moves plus the special castle strings 0-0C and 0-0-0C. -/
inductive Move where
  | castleK (white : Bool)
  | castleQ (white : Bool)
  | normal (name : PName) (ini : Pos) (fin : Pos) (captured : Option PName)
      (ep : Bool) (promo : Option PName)
deriving DecidableEq, Repr

/-- moves.py make_move (the construction asserts hold at every call site in
the engine: the constructors below carry the same fields). -/
def make_move (piece_name : PName) (initial_position : Pos) (final_position : Pos)
    (en_passant : Bool) (capture_name : Option PName := none)
    (promotion : Option PName := none) : Move :=
  Move.normal piece_name initial_position final_position capture_name en_passant promotion

/-- moves.py get_piece. -/
def get_piece : Move → PName
  | Move.castleK _ => PName.K
  | Move.castleQ _ => PName.K
  | Move.normal n _ _ _ _ _ => n

/-- moves.py get_initial_position. -/
def get_initial_position : Move → Pos
  | Move.castleK w => (if w then 0 else 7, 4)
  | Move.castleQ w => (if w then 0 else 7, 4)
  | Move.normal _ ini _ _ _ _ => ini

/-- moves.py get_captured_piece. -/
def get_captured_piece : Move → Option PName
  | Move.castleK _ => none
  | Move.castleQ _ => none
  | Move.normal _ _ _ c _ _ => c

/-- moves.py get_final_position. -/
def get_final_position : Move → Pos
  | Move.castleK w => (if w then 0 else 7, 6)
  | Move.castleQ w => (if w then 0 else 7, 2)
  | Move.normal _ _ fin _ _ _ => fin

/-- moves.py is_en_passant. -/
def is_en_passant : Move → Bool
  | Move.castleK _ => false
  | Move.castleQ _ => false
  | Move.normal _ _ _ _ e _ => e

/-- moves.py get_promotion. -/
def get_promotion : Move → Option PName
  | Move.castleK _ => none
  | Move.castleQ _ => none
  | Move.normal _ _ _ _ _ pr => pr

/-- Boolean equality of piece kinds. -/
def pnameEq : PName → PName → Bool
  | PName.P, PName.P => true
  | PName.R, PName.R => true
  | PName.N, PName.N => true
  | PName.B, PName.B => true
  | PName.Q, PName.Q => true
  | PName.K, PName.K => true
  | _, _ => false

/-- Boolean equality of optional piece kinds. -/
def optNameEq : Option PName → Option PName → Bool
  | none, none => true
  | some a, some b => pnameEq a b
  | _, _ => false

def QUEEN_DELTAS : List Pos :=
  [(1, 0), (1, 1), (0, 1), (-1, 1), (-1, 0), (-1, -1), (0, -1), (1, -1)]

def BISHOP_DELTAS : List Pos :=
  [(1, 1), (-1, -1), (-1, 1), (1, -1)]

def ROOK_DELTAS : List Pos :=
  [(0, 1), (1, 0), (-1, 0), (0, -1)]

def KING_DELTAS : List Pos :=
  [(1, 1), (1, 0), (1, -1), (0, 1), (0, -1), (-1, 1), (-1, 0), (-1, -1)]

def KNIGHT_DELTAS : List Pos :=
  [(2, 1), (2, -1), (-2, 1), (-2, -1), (1, 2), (-1, 2), (1, -2), (-1, -2)]

/-- Boolean equality of integers (an ofNat value is nonnegative, a negSucc
value is negative; Nat.beq is the kernel-accelerated comparison). -/
def intEq : Int → Int → Bool
  | Int.ofNat a, Int.ofNat b => Nat.beq a b
  | Int.negSucc a, Int.negSucc b => Nat.beq a b
  | _, _ => false

/-- Boolean strict order on integers. -/
def intLt : Int → Int → Bool
  | Int.ofNat a, Int.ofNat b => Nat.blt a b
  | Int.negSucc a, Int.negSucc b => Nat.blt b a
  | Int.negSucc _, Int.ofNat _ => true
  | Int.ofNat _, Int.negSucc _ => false

/-- Boolean equality of squares. -/
def posEq (a b : Pos) : Bool := intEq a.1 b.1 && intEq a.2 b.2

/-- Membership of a square in a square collection (Python in on a set). -/
def posMem (p : Pos) : List Pos → Bool
  | [] => false
  | q :: rest => posEq p q || posMem p rest

/-- Strict ordering of squares, used to keep the piece maps canonically
sorted (see the module comment on dict modelling). -/
def posLt (a b : Pos) : Bool := intLt a.1 b.1 || (intEq a.1 b.1 && intLt a.2 b.2)

/-- Boolean equality of moves: two move strings are equal iff all their
fields agree.  Registered as the BEq instance so that set membership tests
use it. -/
def moveEq : Move → Move → Bool
  | Move.castleK w1, Move.castleK w2 => w1 == w2
  | Move.castleQ w1, Move.castleQ w2 => w1 == w2
  | Move.normal n1 i1 f1 c1 e1 p1, Move.normal n2 i2 f2 c2 e2 p2 =>
    pnameEq n1 n2 && posEq i1 i2 && posEq f1 f2 && optNameEq c1 c2 &&
      (e1 == e2) && optNameEq p1 p2
  | _, _ => false

instance : BEq Move := ⟨moveEq⟩

/-- The per-color piece map: Python dict square to piece, as a sorted
association list. -/
abbrev PieceMap := List (Pos × Piece)

/-- Python d[key] = val on a piece map. -/
def dictInsert (key : Pos) (val : Piece) : PieceMap → PieceMap
  | [] => [(key, val)]
  | e :: rest =>
    if posLt key e.1 then (key, val) :: e :: rest
    else if posEq key e.1 then (key, val) :: rest
    else e :: dictInsert key val rest

/-- Python d.pop(key) / d.pop(key, None) on a piece map (the engine only
pops keys it knows to be present when using the raising form). -/
def dictPop (key : Pos) : PieceMap → PieceMap
  | [] => []
  | e :: rest => if posEq key e.1 then rest else e :: dictPop key rest

/-- Python d.get(key) on a piece map. -/
def dictGet (key : Pos) : PieceMap → Option Piece
  | [] => none
  | e :: rest => if posEq key e.1 then some e.2 else dictGet key rest

/-- List lookup (Python indexing into the 8-element row lists). -/
def listGet {α : Type} : List α → Nat → Option α
  | [], _ => none
  | a :: _, 0 => some a
  | _ :: as, n + 1 => listGet as n

/-- List update at an index. -/
def listSet {α : Type} : List α → Nat → α → List α
  | [], _, _ => []
  | _ :: as, 0, v => v :: as
  | a :: as, n + 1, v => a :: listSet as n v

/-- The 8x8 grid, indexed by rank then file. -/
abbrev Grid := List (List (Option Piece))

/-- Reading self.board[r][f].  Every read in the engine is guarded by a
bounds check (Python negative indexing is never exercised), so out-of-range
reads may return anything; none is used. -/
def gridGet (g : Grid) (p : Pos) : Option Piece :=
  match listGet g p.1.toNat with
  | none => none
  | some row =>
    match listGet row p.2.toNat with
    | none => none
    | some v => v

/-- Writing self.board[r][f] = v (all writes are in bounds). -/
def gridSet (g : Grid) (p : Pos) (v : Option Piece) : Grid :=
  match listGet g p.1.toNat with
  | none => g
  | some row => listSet g p.1.toNat (listSet row p.2.toNat v)

/-- board.py Board: the grid, the two cached king squares and the two
per-color piece maps. -/
structure Board where
  board : Grid
  white_king : Pos
  black_king : Pos
  white_pieces : PieceMap
  black_pieces : PieceMap
deriving DecidableEq, Repr

/-- board.py _is_in_bounds: both coordinates between 0 and 7.  An ofNat
coordinate is exactly a nonnegative one, so the 0 bound is the match. -/
def _is_in_bounds (position : Pos) : Bool :=
  match position with
  | (Int.ofNat r, Int.ofNat f) => Nat.ble r 7 && Nat.ble f 7
  | _ => false

/-- board.py Board._add_piece. -/
def Board._add_piece (b : Board) (piece : Piece) (position : Pos) : Board :=
  let b := { b with board := gridSet b.board position (some piece) }
  let b :=
    if is_white piece then { b with white_pieces := dictInsert position piece b.white_pieces }
    else { b with black_pieces := dictInsert position piece b.black_pieces }
  if get_name piece == PName.K then
    if is_white piece then { b with white_king := position }
    else { b with black_king := position }
  else b

/-- The placements performed by Board.__init__, in source order. -/
def initialPlacements : List (Piece × Pos) :=
  ((List.range 8).map fun i => (make_piece PName.P true false false, ((1 : Int), (i : Int)))) ++
  [(make_piece PName.R true false false, (0, 0)), (make_piece PName.R true false false, (0, 7)),
   (make_piece PName.N true false false, (0, 1)), (make_piece PName.N true false false, (0, 6)),
   (make_piece PName.B true false false, (0, 2)), (make_piece PName.B true false false, (0, 5)),
   (make_piece PName.Q true false false, (0, 3)),
   (make_piece PName.K true false false, (0, 4))] ++
  ((List.range 8).map fun i => (make_piece PName.P false false false, ((6 : Int), (i : Int)))) ++
  [(make_piece PName.R false false false, (7, 0)), (make_piece PName.R false false false, (7, 7)),
   (make_piece PName.N false false false, (7, 1)), (make_piece PName.N false false false, (7, 6)),
   (make_piece PName.B false false false, (7, 2)), (make_piece PName.B false false false, (7, 5)),
   (make_piece PName.Q false false false, (7, 3)),
   (make_piece PName.K false false false, (7, 4))]

/-- board.py Board.__init__: the standard starting position.  The king
fields are assigned by the king placements; before that they hold a dummy
value, as in the source where they are declared but unassigned. -/
def Board.initial : Board :=
  initialPlacements.foldl (fun b pp => b._add_piece pp.1 pp.2)
    { board := List.replicate 8 (List.replicate 8 none),
      white_king := (0, 0), black_king := (0, 0),
      white_pieces := [], black_pieces := [] }

/-- board.py Board._get_knight_squares (a method that reads no state). -/
def _get_knight_squares (initial : Pos) : List Pos :=
  KNIGHT_DELTAS.foldl
    (fun positions d =>
      let position := (initial.1 + d.1, initial.2 + d.2)
      if _is_in_bounds position then position :: positions else positions) []

/-- board.py Board._get_king_squares (a method that reads no state). -/
def _get_king_squares (initial : Pos) : List Pos :=
  KING_DELTAS.foldl
    (fun positions d =>
      let position := (initial.1 + d.1, initial.2 + d.2)
      if _is_in_bounds position then position :: positions else positions) []

/-- The while loop of board.py Board._get_slide_squares; a ray visits at
most 7 squares, so fuel 8 never runs out. -/
def slideWalk (b : Board) (delta : Pos) : Nat → Pos → List Pos → List Pos
  | 0, _, positions => positions
  | fuel + 1, position, positions =>
    if _is_in_bounds position then
      let positions := position :: positions
      match gridGet b.board position with
      | some _ => positions
      | none => slideWalk b delta fuel (position.1 + delta.1, position.2 + delta.2) positions
    else positions

/-- board.py Board._get_slide_squares. -/
def Board._get_slide_squares (b : Board) (initial : Pos) (delta : Pos) : List Pos :=
  slideWalk b delta 8 (initial.1 + delta.1, initial.2 + delta.2) []

/-- board.py Board._get_rook_squares. -/
def Board._get_rook_squares (b : Board) (position : Pos) : List Pos :=
  ROOK_DELTAS.foldl (fun positions d => b._get_slide_squares position d ++ positions) []

/-- board.py Board._get_bishop_squares. -/
def Board._get_bishop_squares (b : Board) (position : Pos) : List Pos :=
  BISHOP_DELTAS.foldl (fun positions d => b._get_slide_squares position d ++ positions) []

/-- board.py Board._get_queen_squares. -/
def Board._get_queen_squares (b : Board) (position : Pos) : List Pos :=
  QUEEN_DELTAS.foldl (fun positions d => b._get_slide_squares position d ++ positions) []

/-- board.py Board._get_squares_attacked_by. -/
def Board._get_squares_attacked_by (b : Board) (white : Bool) : List Pos :=
  let pieces := if white then b.white_pieces else b.black_pieces
  pieces.foldl
    (fun positions pp =>
      match get_name pp.2 with
      | PName.K => _get_king_squares pp.1 ++ positions
      | PName.Q => b._get_queen_squares pp.1 ++ positions
      | PName.B => b._get_bishop_squares pp.1 ++ positions
      | PName.N => _get_knight_squares pp.1 ++ positions
      | PName.R => b._get_rook_squares pp.1 ++ positions
      | PName.P =>
        let wm : Int := if white then 1 else -1
        let p1 : Pos := (pp.1.1 + 1 * wm, pp.1.2 + 1)
        let p2 : Pos := (pp.1.1 + 1 * wm, pp.1.2 - 1)
        let positions := if _is_in_bounds p1 then p1 :: positions else positions
        if _is_in_bounds p2 then p2 :: positions else positions) []

/-- board.py Board.is_checked. -/
def Board.is_checked (b : Board) (check_white : Bool) : Bool :=
  let king_pos := if check_white then b.white_king else b.black_king
  posMem king_pos (b._get_squares_attacked_by (!check_white))

/-- board.py Board._make_move. -/
def Board._make_move (b : Board) (updated_piece : Piece) (initial : Pos) (fin : Pos) : Board :=
  let b := { b with board := gridSet (gridSet b.board initial none) fin (some updated_piece) }
  if is_white updated_piece then
    let b := { b with white_pieces := dictInsert fin updated_piece (dictPop initial b.white_pieces),
                      black_pieces := dictPop fin b.black_pieces }
    if get_name updated_piece == PName.K then { b with white_king := fin } else b
  else
    let b := { b with black_pieces := dictInsert fin updated_piece (dictPop initial b.black_pieces),
                      white_pieces := dictPop fin b.white_pieces }
    if get_name updated_piece == PName.K then { b with black_king := fin } else b

/-- board.py Board._undo_move. -/
def Board._undo_move (b : Board) (original_piece : Piece) (initial : Pos) (fin : Pos)
    (captured_piece : Option Piece := none) : Board :=
  let b := { b with board := gridSet (gridSet b.board initial (some original_piece)) fin captured_piece }
  if is_white original_piece then
    let b := { b with white_pieces := dictInsert initial original_piece (dictPop fin b.white_pieces) }
    let b := match captured_piece with
      | some cp => { b with black_pieces := dictInsert fin cp b.black_pieces }
      | none => b
    if get_name original_piece == PName.K then { b with white_king := initial } else b
  else
    let b := { b with black_pieces := dictInsert initial original_piece (dictPop fin b.black_pieces) }
    let b := match captured_piece with
      | some cp => { b with white_pieces := dictInsert fin cp b.white_pieces }
      | none => b
    if get_name original_piece == PName.K then { b with black_king := initial } else b

/-- board.py Board.get_move_command.  The source returns a pair of closures
over values read from the board at command-creation time; here the board is
an explicit argument and the closures are Board functions.  The assert
failures (moving or capturing a nonexistent piece), unreachable for moves
produced by the generator, yield the identity command. -/
def Board.get_move_command (b : Board) (move : Move) : (Board → Board) × (Board → Board) :=
  match move with
  | Move.castleK white =>
    let rank : Int := if white then 0 else 7
    let king := gridGet b.board (rank, 4)
    let rook := gridGet b.board (rank, 7)
    let updated_king := make_piece PName.K white true false
    let updated_rook := make_piece PName.R white true false
    match king, rook with
    | some king, some rook =>
      (fun s => (s._make_move updated_king (rank, 4) (rank, 6))._make_move updated_rook (rank, 7) (rank, 5),
       fun s => (s._undo_move king (rank, 4) (rank, 6))._undo_move rook (rank, 7) (rank, 5))
    | _, _ => (id, id)
  | Move.castleQ white =>
    let rank : Int := if white then 0 else 7
    let king := gridGet b.board (rank, 4)
    let rook := gridGet b.board (rank, 0)
    let updated_king := make_piece PName.K white true false
    let updated_rook := make_piece PName.R white true false
    match king, rook with
    | some king, some rook =>
      (fun s => (s._make_move updated_king (rank, 4) (rank, 2))._make_move updated_rook (rank, 0) (rank, 3),
       fun s => (s._undo_move king (rank, 4) (rank, 2))._undo_move rook (rank, 0) (rank, 3))
    | _, _ => (id, id)
  | Move.normal _ _ _ _ true _ =>
    let initial_position := get_initial_position move
    let final_position := get_final_position move
    let initial_pawn := gridGet b.board initial_position
    let captured_pawn := gridGet b.board (initial_position.1, final_position.2)
    match initial_pawn, captured_pawn with
    | some initial_pawn, some captured_pawn =>
      let updated_pawn := make_piece (get_name initial_pawn) (is_white initial_pawn) true false
      (fun s =>
        let s := s._make_move updated_pawn initial_position final_position
        let s := { s with board := gridSet s.board (initial_position.1, final_position.2) none }
        if is_white initial_pawn then
          { s with black_pieces := dictPop (initial_position.1, final_position.2) s.black_pieces }
        else
          { s with white_pieces := dictPop (initial_position.1, final_position.2) s.white_pieces },
       fun s =>
        let s := s._undo_move initial_pawn initial_position final_position
        let s := { s with board := gridSet s.board (initial_position.1, final_position.2) (some captured_pawn) }
        if is_white initial_pawn then
          { s with black_pieces := dictInsert (initial_position.1, final_position.2) captured_pawn s.black_pieces }
        else
          { s with white_pieces := dictInsert (initial_position.1, final_position.2) captured_pawn s.white_pieces })
    | _, _ => (id, id)
  | Move.normal _ _ _ _ false _ =>
    let initial_position := get_initial_position move
    let final_position := get_final_position move
    let initial_piece := gridGet b.board initial_position
    let captured_piece := gridGet b.board final_position
    match initial_piece with
    | some initial_piece =>
      let name := (get_promotion move).getD (get_name initial_piece)
      let white := is_white initial_piece
      let moved := has_moved initial_piece
      let ep := name == PName.P && !moved && (final_position.1 - initial_position.1).natAbs == 2
      let updated_piece := make_piece name white true ep
      (fun s => s._make_move updated_piece initial_position final_position,
       fun s => s._undo_move initial_piece initial_position final_position captured_piece)
    | none => (id, id)

/-- board.py _move_or_capture_or_halt. -/
def _move_or_capture_or_halt (piece : Piece) (square : Option Piece)
    (initial : Pos) (fin : Pos) : Option Move :=
  match square with
  | none => some (make_move (get_name piece) initial fin false)
  | some sq =>
    if is_white sq != is_white piece then
      some (make_move (get_name piece) initial fin false (some (get_name sq)))
    else none

/-- Python set.add on a move set. -/
def addMove (moves : List Move) (m : Move) : List Move :=
  if moves.contains m then moves else m :: moves

/-- Python set.update on a move set. -/
def addMoves (moves : List Move) (new : List Move) : List Move :=
  new.foldl addMove moves

/-- Python set.discard / set.remove on a move set. -/
def removeMove (moves : List Move) (m : Move) : List Move :=
  moves.filter (fun x => !(x == m))

/-- board.py Board._get_pawn_moves. -/
def Board._get_pawn_moves (b : Board) (pawn : Piece) (position : Pos) : List Move :=
  let rank := position.1
  let file := position.2
  let wm : Int := if is_white pawn then 1 else -1
  let final_positions : List Pos := []
  let final_positions :=
    if _is_in_bounds (rank + 1 * wm, file) && (gridGet b.board (rank + 1 * wm, file)).isNone then
      final_positions ++ [(rank + 1 * wm, file)]
    else final_positions
  let final_positions :=
    if _is_in_bounds (rank + 2 * wm, file) && (gridGet b.board (rank + 1 * wm, file)).isNone &&
        !(has_moved pawn) && (gridGet b.board (rank + 2 * wm, file)).isNone then
      final_positions ++ [(rank + 2 * wm, file)]
    else final_positions
  let final_positions :=
    if _is_in_bounds (rank + 1 * wm, file - 1) then
      match gridGet b.board (rank + 1 * wm, file - 1) with
      | some square =>
        if is_white square != is_white pawn then
          final_positions ++ [(rank + 1 * wm, file - 1)]
        else final_positions
      | none => final_positions
    else final_positions
  let final_positions :=
    if _is_in_bounds (rank + 1 * wm, file + 1) then
      match gridGet b.board (rank + 1 * wm, file + 1) with
      | some square =>
        if is_white square != is_white pawn then
          final_positions ++ [(rank + 1 * wm, file + 1)]
        else final_positions
      | none => final_positions
    else final_positions
  final_positions.foldl
    (fun moves final_pos =>
      let square := gridGet b.board final_pos
      let captured := square.map get_name
      if final_pos.1 == 7 || final_pos.1 == 0 then
        addMoves moves
          ([PName.Q, PName.B, PName.N, PName.R].map
            (fun promotion => make_move (get_name pawn) position final_pos false captured (some promotion)))
      else addMove moves (make_move (get_name pawn) position final_pos false captured)) []

/-- board.py Board._get_knight_moves. -/
def Board._get_knight_moves (b : Board) (knight : Piece) (position : Pos) : List Move :=
  (_get_knight_squares position).foldl
    (fun moves p =>
      match _move_or_capture_or_halt knight (gridGet b.board p) position p with
      | some m => addMove moves m
      | none => moves) []

/-- board.py Board._get_king_moves. -/
def Board._get_king_moves (b : Board) (king : Piece) (position : Pos) : List Move :=
  (_get_king_squares position).foldl
    (fun moves p =>
      match _move_or_capture_or_halt king (gridGet b.board p) position p with
      | some m => addMove moves m
      | none => moves) []

/-- board.py Board._get_rook_moves. -/
def Board._get_rook_moves (b : Board) (rook : Piece) (position : Pos) : List Move :=
  (b._get_rook_squares position).foldl
    (fun moves p =>
      match _move_or_capture_or_halt rook (gridGet b.board p) position p with
      | some m => addMove moves m
      | none => moves) []

/-- board.py Board._get_bishop_moves. -/
def Board._get_bishop_moves (b : Board) (bishop : Piece) (position : Pos) : List Move :=
  (b._get_bishop_squares position).foldl
    (fun moves p =>
      match _move_or_capture_or_halt bishop (gridGet b.board p) position p with
      | some m => addMove moves m
      | none => moves) []

/-- board.py Board._get_queen_moves. -/
def Board._get_queen_moves (b : Board) (queen : Piece) (position : Pos) : List Move :=
  (b._get_queen_squares position).foldl
    (fun moves p =>
      match _move_or_capture_or_halt queen (gridGet b.board p) position p with
      | some m => addMove moves m
      | none => moves) []

/-- Python list comprehension selecting the positions of pieces satisfying
a predicate, in map order. -/
def selectPositions (d : PieceMap) (f : Piece → Bool) : List Pos :=
  d.foldr (fun pp acc => if f pp.2 then pp.1 :: acc else acc) []

/-- board.py Board._get_psuedo_moves. -/
def Board._get_psuedo_moves (b : Board) (get_white : Bool) : List Move :=
  let positions := if get_white then b.white_pieces else b.black_pieces
  let moves := positions.foldl
    (fun moves pp =>
      match gridGet b.board pp.1 with
      | none => moves
      | some piece =>
        match get_name piece with
        | PName.K => addMoves moves (b._get_king_moves piece pp.1)
        | PName.Q => addMoves moves (b._get_queen_moves piece pp.1)
        | PName.B => addMoves moves (b._get_bishop_moves piece pp.1)
        | PName.N => addMoves moves (b._get_knight_moves piece pp.1)
        | PName.R => addMoves moves (b._get_rook_moves piece pp.1)
        | PName.P => addMoves moves (b._get_pawn_moves piece pp.1)) []
  let rank : Int := if get_white then 0 else 7
  let king := gridGet b.board (rank, 4)
  let q_rook := gridGet b.board (rank, 0)
  let k_rook := gridGet b.board (rank, 7)
  let q_squares := [gridGet b.board (rank, 1), gridGet b.board (rank, 2), gridGet b.board (rank, 3)]
  let k_squares := [gridGet b.board (rank, 5), gridGet b.board (rank, 6)]
  let moves :=
    match king with
    | some kg =>
      if get_name kg == PName.K && !(has_moved kg) && (is_white kg == get_white) then
        let moves :=
          match q_rook with
          | some r =>
            if get_name r == PName.R && !(has_moved r) && (is_white r == get_white) &&
                q_squares.all (fun s => s.isNone) then
              addMove moves (Move.castleQ get_white)
            else moves
          | none => moves
        match k_rook with
        | some r =>
          if get_name r == PName.R && !(has_moved r) && (is_white r == get_white) &&
              k_squares.all (fun s => s.isNone) then
            addMove moves (Move.castleK get_white)
          else moves
        | none => moves
      else moves
    | none => moves
  let ep_positions :=
    selectPositions (if get_white then b.black_pieces else b.white_pieces) can_ep
  let pawn_positions :=
    selectPositions (if get_white then b.white_pieces else b.black_pieces)
      (fun pce => get_name pce == PName.P)
  let wm : Int := if get_white then 1 else -1
  pawn_positions.foldl
    (fun moves p =>
      let moves :=
        if posMem (p.1, p.2 - 1) ep_positions && _is_in_bounds (p.1 + 1 * wm, p.2 - 1) &&
            (gridGet b.board (p.1 + 1 * wm, p.2 - 1)).isNone then
          match gridGet b.board p with
          | some pawn =>
            addMove moves (make_move (get_name pawn) p (p.1 + 1 * wm, p.2 - 1) true (some PName.P))
          | none => moves
        else moves
      if posMem (p.1, p.2 + 1) ep_positions && _is_in_bounds (p.1 + 1 * wm, p.2 + 1) &&
          (gridGet b.board (p.1 + 1 * wm, p.2 + 1)).isNone then
        match gridGet b.board p with
        | some pawn =>
          addMove moves (make_move (get_name pawn) p (p.1 + 1 * wm, p.2 + 1) true (some PName.P))
        | none => moves
      else moves) moves

/-- The en-passant-flag clearing that opens board.py Board.get_moves: every
pawn of the moving color is replaced by one whose flag is false, in the
grid and in that colors map. -/
def Board.clearEp (b : Board) (get_white : Bool) : Board :=
  let pawn_positions :=
    selectPositions (if get_white then b.white_pieces else b.black_pieces)
      (fun pwn => get_name pwn == PName.P)
  pawn_positions.foldl
    (fun b pos =>
      match gridGet b.board pos with
      | none => b
      | some pawn =>
        let new_pawn := make_piece PName.P (is_white pawn) (has_moved pawn) false
        let b := { b with board := gridSet b.board pos (some new_pawn) }
        if get_white then { b with white_pieces := dictInsert pos new_pawn b.white_pieces }
        else { b with black_pieces := dictInsert pos new_pawn b.black_pieces }) b

/-- The make-test-undo legality filter closing board.py Board.get_moves:
threads the board through apply, is_checked, undo for each candidate and
collects the invalid moves. -/
def Board.checkFilter (b : Board) (get_white : Bool) (moves : List Move) : List Move × Board :=
  moves.foldl
    (fun st move =>
      let command := st.2.get_move_command move
      let s := command.1 st.2
      let invalid := if s.is_checked get_white then move :: st.1 else st.1
      (invalid, command.2 s)) ([], b)

/-- board.py Board.get_moves.  Mutation of self is modelled by returning
the final board alongside the move set. -/
def Board.get_moves (b : Board) (get_white : Bool) : List Move × Board :=
  let b := b.clearEp get_white
  let moves := b._get_psuedo_moves get_white
  let rank : Int := if get_white then 0 else 7
  let k_castle_squares : List Pos := [(rank, 4), (rank, 5), (rank, 6)]
  let q_castle_squares : List Pos := [(rank, 4), (rank, 3), (rank, 2)]
  let attacked_squares := b._get_squares_attacked_by (!get_white)
  let moves :=
    if k_castle_squares.any (fun s => posMem s attacked_squares) then
      removeMove moves (Move.castleK get_white)
    else moves
  let moves :=
    if q_castle_squares.any (fun s => posMem s attacked_squares) then
      removeMove moves (Move.castleQ get_white)
    else moves
  let st := b.checkFilter get_white moves
  (moves.filter (fun m => !(st.1.contains m)), st.2)

/-- evaluations.py Evaluation: the string [C, M, D, O] of the four flags
(the optional annotation suffix is never produced by the engine). -/
structure Evaluation where
  check : Bool
  checkmate : Bool
  draw : Bool
  draw_offer : Bool
deriving DecidableEq, Repr

/-- evaluations.py make_evaluation. -/
def make_evaluation (check : Bool) (checkmate : Bool) (draw : Bool)
    (draw_offer : Bool) : Evaluation :=
  { check := check, checkmate := checkmate, draw := draw, draw_offer := draw_offer }

/-- evaluations.py is_check. -/
def Evaluation.is_check (e : Evaluation) : Bool := e.check

/-- evaluations.py is_checkmate. -/
def Evaluation.is_checkmate (e : Evaluation) : Bool := e.checkmate

/-- evaluations.py is_draw. -/
def Evaluation.is_draw (e : Evaluation) : Bool := e.draw

/-- evaluations.py is_draw_offer. -/
def is_draw_offer (e : Evaluation) : Bool := e.draw_offer

/-- The character a piece contributes to the position hash.  In game.py the
hash applies get_piece from moves.py to the piece string; a piece string
never matches the castle prefix 0-0, so get_piece returns its first
character, the piece kind letter. -/
def pieceChar : PName → Char
  | PName.P => 'P'
  | PName.R => 'R'
  | PName.N => 'N'
  | PName.B => 'B'
  | PName.Q => 'Q'
  | PName.K => 'K'

/-- game.py Game.  The commands_list attribute (a parallel stack of apply
and undo closures, consumed only by undo_halfmove, which no claim touches)
is omitted; every other attribute is carried. -/
structure Game where
  board : Board
  moves_list : List (Move × Evaluation)
  encountered_positions : List (String × Nat)
  is_white_turn : Bool
  outcome : String
deriving Repr

/-- The body of the inner loop of game.py Game._get_position_hash: append
a dot for an empty square, the piece kind letter otherwise. -/
def hashPiece (hash : String) (p : Option Piece) : String :=
  match p with
  | none => hash.push '.'
  | some p => hash.push (pieceChar (get_name p))

/-- game.py Game._get_position_hash: one character per square, rank by
rank. -/
def _get_position_hash (b : Board) : String :=
  b.board.foldl (fun hash r => r.foldl hashPiece hash) ""

/-- Python d.get(key) on the encountered-positions dict. -/
def encGet (key : String) : List (String × Nat) → Option Nat
  | [] => none
  | e :: rest => if key == e.1 then some e.2 else encGet key rest

/-- Python d[key] = val on the encountered-positions dict (update in place
or append; only lookups observe this dict, so order is irrelevant). -/
def encSet (key : String) (val : Nat) : List (String × Nat) → List (String × Nat)
  | [] => [(key, val)]
  | e :: rest => if key == e.1 then (key, val) :: rest else e :: encSet key val rest

/-- game.py Game.__init__. -/
def Game.init : Game :=
  let board := Board.initial
  { board := board
    moves_list := []
    encountered_positions := [(_get_position_hash board, 1)]
    is_white_turn := true
    outcome := "" }

/-- game.py Game._get_num_stale_moves. -/
def _get_num_stale_moves (moves_list : List (Move × Evaluation)) : Nat :=
  moves_list.foldl
    (fun stale_moves me =>
      if pnameEq (get_piece me.1) PName.P then 0
      else if (get_captured_piece me.1).isSome then 0
      else stale_moves + 1) 0

/-- game.py Game.get_moves (mutates the board through Board.get_moves). -/
def Game.get_moves (g : Game) : List Move × Game :=
  let st := g.board.get_moves g.is_white_turn
  (st.1, { g with board := st.2 })

/-- game.py Game.make_move.  The two raise statements become the two error
values.  Every board.get_moves call the source makes (the legality check,
the checkmate test when in check, and the stalemate test reached when
neither the stale counter nor the repetition count fired) mutates
self.board; the board is threaded through them in source order.  The
Python and is short-circuiting, so the checkmate and stalemate tests only
call get_moves when their left operands allow. -/
def Game.make_move (g : Game) (move : Move) (draw_offered : Bool) : Except String Game :=
  if g.outcome != "" then Except.error "GAME_CONCLUDED"
  else
    let st0 := g.get_moves
    if !(st0.1.contains move) then Except.error "ILLEGAL_MOVE"
    else
      let g := st0.2
      let commands := g.board.get_move_command move
      let board := commands.1 g.board
      let position := _get_position_hash board
      let encountered_positions :=
        match encGet position g.encountered_positions with
        | some n => encSet position (n + 1) g.encountered_positions
        | none => encSet position 1 g.encountered_positions
      let is_white_turn := !g.is_white_turn
      let check := board.is_checked is_white_turn
      let st1 := if check then board.get_moves is_white_turn else ([], board)
      let checkmate := check && st1.1.isEmpty
      let board := st1.2
      let staleDraw := decide (100 ≤ _get_num_stale_moves g.moves_list)
      let repDraw := decide (3 ≤ ((encGet position encountered_positions).getD 0))
      let st2 :=
        if !staleDraw && !repDraw then board.get_moves is_white_turn else ([], board)
      let board := if !staleDraw && !repDraw then st2.2 else board
      let draw :=
        if staleDraw then true
        else if repDraw then true
        else st2.1.isEmpty && !(board.is_checked is_white_turn)
      let evaluation := make_evaluation check checkmate draw draw_offered
      let moves_list := g.moves_list ++ [(move, evaluation)]
      let outcome := if draw then "1/2-1/2" else g.outcome
      let outcome :=
        if checkmate then (if !is_white_turn then "1-0" else "0-1") else outcome
      Except.ok
        { board := board
          moves_list := moves_list
          encountered_positions := encountered_positions
          is_white_turn := is_white_turn
          outcome := outcome }

/-- game.py Game.accept_draw: moves_list[-1] on an empty history raises a
Python IndexError (modelled as the INDEX_ERROR value), before the
NO_DRAW_OFFER test is ever reached. -/
def Game.accept_draw (g : Game) : Except String Game :=
  match g.moves_list.getLast? with
  | none => Except.error "INDEX_ERROR"
  | some me =>
    if !(is_draw_offer me.2) then Except.error "NO_DRAW_OFFER"
    else Except.ok { g with outcome := "1/2-1/2" }

/-- Driver replaying a list of moves (no draw offers) through
Game.make_move, stopping at the first error. -/
def play : Game → List Move → Except String Game
  | g, [] => Except.ok g
  | g, m :: ms =>
    match g.make_move m false with
    | Except.error e => Except.error e
    | Except.ok g2 => play g2 ms

/-- Runs a boolean observation on the final state of a replay, false if the
replay failed. -/
def onOk (r : Except String Game) (f : Game → Bool) : Bool :=
  match r with
  | Except.ok g => f g
  | Except.error _ => false

/-- The perft driver of board_test.py, translated functionally: the source
applies each command and undoes it after the recursive call; since undo
restores the pre-apply board (proved below), the translation recurses on
the applied board and continues from the board returned by get_moves. -/
def perft : Nat → Board → Bool → Nat
  | 0, _, _ => 0
  | 1, b, is_white_turn => (b.get_moves is_white_turn).1.length
  | d + 2, b, is_white_turn =>
    let st := b.get_moves is_white_turn
    st.1.foldl
      (fun count move =>
        let commands := st.2.get_move_command move
        count + perft (d + 1) (commands.1 st.2) (!is_white_turn)) 0

/-!
Concrete states used by counterexamples and witnesses.
-/

/-- The knight move Nb1c3: legal in the starting position, neither a pawn
move nor a capture, so it is a stale half-move. -/
def staleKnightMove : Move := make_move PName.N (0, 1) (2, 2) false

/-- The evaluation the engine records for a quiet move. -/
def quietEval : Evaluation := make_evaluation false false false false

/-- A history of n recorded stale half-moves. -/
def staleHistory (n : Nat) : List (Move × Evaluation) :=
  List.replicate n (staleKnightMove, quietEval)

/-- A game whose recorded history holds 99 consecutive stale half-moves,
about to receive the 100th. -/
def c1Game : Game := { Game.init with moves_list := staleHistory 99 }

/-- A game whose recorded history holds 100 consecutive stale half-moves. -/
def c1wGame : Game := { Game.init with moves_list := staleHistory 100 }

/-- A board with the same kinds on every square as the initial board but a
different color and different flags on square a1. -/
def recoloredBoard : Board :=
  { Board.initial with
    board := gridSet Board.initial.board (0, 0) (some (make_piece PName.R false true true)) }

/-- A one-move history whose evaluation does not offer a draw. -/
def noOfferGame : Game := { Game.init with moves_list := [(staleKnightMove, quietEval)] }

/-- A one-move history whose evaluation offers a draw. -/
def offerGame : Game :=
  { Game.init with
    moves_list := [(staleKnightMove, make_evaluation false false false true)] }

/-- The opening f3, e5, g4 of the fools mate. -/
def foolPrefix : List Move := [
  make_move PName.P (1, 5) (2, 5) false,
  make_move PName.P (6, 4) (4, 4) false,
  make_move PName.P (1, 6) (3, 6) false]

/-- The board after f3, e5, g4, written directly with the updated pieces
the engine produces (proved below to equal the replayed board). -/
def c2Board : Board :=
  ((Board.initial._make_move (make_piece PName.P true true false) (1, 5) (2, 5)
    )._make_move (make_piece PName.P false true false) (6, 4) (4, 4)
    )._make_move (make_piece PName.P true true true) (1, 6) (3, 6)

/-- A game state on the fools mate board, black to move, whose recorded
history holds 100 consecutive stale half-moves. -/
def c2Game : Game :=
  { board := c2Board, moves_list := staleHistory 100,
    encountered_positions := [], is_white_turn := false, outcome := "" }

/-- The mating queen move Qd8h4 of the fools mate. -/
def mateMove : Move := make_move PName.Q (7, 3) (3, 7) false

/-!
Facts about the hash (claim C9).
-/

/-- The piece kind (or emptiness) of every square of the grid: the only
data the position hash reads. -/
def kindGrid (b : Board) : List (List (Option PName)) :=
  b.board.map (fun r => r.map (fun p => p.map get_name))

/-!
Derived state abstractions and invariant machinery.
-/

/-- Adjacent strict ordering of the keys of a piece map. -/
def chainLt : PieceMap → Bool
  | [] => true
  | [_] => true
  | a :: b :: rest => posLt a.1 b.1 && chainLt (b :: rest)

/-- The board grid is 8 rows of 8 squares. -/
def gridShape (g : Grid) : Bool :=
  (g.length == 8) && g.all (fun r => r.length == 8)

/-- Every piece-map entry is an in-bounds square carrying a piece of the
right color that the grid agrees with. -/
def mapAligned (white : Bool) (g : Grid) (l : PieceMap) : Bool :=
  l.all (fun pp =>
    _is_in_bounds pp.1 && (gridGet g pp.1 == some pp.2) && (is_white pp.2 == white))

/-- Every occupied square of the grid is indexed by the matching color map. -/
def gridCovered (b : Board) : Bool :=
  (List.range 8).all (fun r =>
    (List.range 8).all (fun f =>
      match gridGet b.board ((r : Int), (f : Int)) with
      | none => true
      | some p =>
        (if is_white p then dictGet ((r : Int), (f : Int)) b.white_pieces
         else dictGet ((r : Int), (f : Int)) b.black_pieces) == some p))

/-- Every king entry of a piece map sits on the cached king square. -/
def kingsOk (b : Board) : Bool :=
  b.white_pieces.all
      (fun pp => !(pnameEq (get_name pp.2) PName.K) || posEq pp.1 b.white_king) &&
    b.black_pieces.all
      (fun pp => !(pnameEq (get_name pp.2) PName.K) || posEq pp.1 b.black_king)

/-- Well-formedness of a board: the 8x8 shape, sorted piece maps, mutual
alignment of grid and maps, and correct king caches.  It holds for the
initial board and is preserved by every engine operation on it. -/
def wf (b : Board) : Bool :=
  gridShape b.board && chainLt b.white_pieces && chainLt b.black_pieces &&
    mapAligned true b.board b.white_pieces && mapAligned false b.board b.black_pieces &&
    gridCovered b && kingsOk b

/-- The home rank of a color. -/
def rankOf (c : Bool) : Int := if c then 0 else 7

/-- The promotion kinds offered by the pawn generator. -/
def promoKinds : List (Option PName) :=
  [some PName.Q, some PName.B, some PName.N, some PName.R]

/-- The facts that hold of every pseudo-move the generator emits for color c
on board b, read off the generating code: the occupancy and piece data of
the squares the move touches. -/
def MoveOK (b : Board) (c : Bool) : Move → Prop
  | Move.castleK w =>
    w = c ∧
    (∃ kg, gridGet b.board (rankOf c, 4) = some kg ∧ get_name kg = PName.K ∧
      is_white kg = c ∧ has_moved kg = false) ∧
    (∃ rk, gridGet b.board (rankOf c, 7) = some rk ∧ get_name rk = PName.R ∧
      is_white rk = c ∧ has_moved rk = false) ∧
    gridGet b.board (rankOf c, 5) = none ∧ gridGet b.board (rankOf c, 6) = none
  | Move.castleQ w =>
    w = c ∧
    (∃ kg, gridGet b.board (rankOf c, 4) = some kg ∧ get_name kg = PName.K ∧
      is_white kg = c ∧ has_moved kg = false) ∧
    (∃ rk, gridGet b.board (rankOf c, 0) = some rk ∧ get_name rk = PName.R ∧
      is_white rk = c ∧ has_moved rk = false) ∧
    gridGet b.board (rankOf c, 1) = none ∧ gridGet b.board (rankOf c, 2) = none ∧
    gridGet b.board (rankOf c, 3) = none
  | Move.normal name ini fin _ true promo =>
    ∃ pwn cp, gridGet b.board ini = some pwn ∧ get_name pwn = PName.P ∧
      is_white pwn = c ∧ name = PName.P ∧ promo = none ∧
      gridGet b.board fin = none ∧
      gridGet b.board (ini.1, fin.2) = some cp ∧ is_white cp = !c ∧
      can_ep cp = true ∧
      _is_in_bounds ini = true ∧ _is_in_bounds fin = true ∧
      _is_in_bounds (ini.1, fin.2) = true
  | Move.normal name ini fin _ false promo =>
    ∃ pce, gridGet b.board ini = some pce ∧ is_white pce = c ∧
      name = get_name pce ∧
      _is_in_bounds ini = true ∧ _is_in_bounds fin = true ∧
      (∀ sq, gridGet b.board fin = some sq → is_white sq = !c) ∧
      (promo = none ∨ (get_name pce = PName.P ∧ promo ∈ promoKinds))

/-- The piece a simple move writes on its target square. -/
def updatedPiece (pce : Piece) (ini fin : Pos) (promo : Option PName) : Piece :=
  make_piece (promo.getD (get_name pce)) (is_white pce) true
    ((promo.getD (get_name pce) == PName.P) && !has_moved pce &&
      ((fin.1 - ini.1).natAbs == 2))

/-- The pawn an en-passant command writes on the target square. -/
def epUp (pwn : Piece) : Piece := make_piece (get_name pwn) (is_white pwn) true false

/-- The apply closure of an en-passant command (board.py get_move_command,
en-passant branch), with the values it captured made explicit. -/
def epApplyF (pwn : Piece) (ini fin : Pos) (s : Board) : Board :=
  let s := s._make_move (make_piece (get_name pwn) (is_white pwn) true false) ini fin
  let s := { s with board := gridSet s.board (ini.1, fin.2) none }
  if is_white pwn then
    { s with black_pieces := dictPop (ini.1, fin.2) s.black_pieces }
  else
    { s with white_pieces := dictPop (ini.1, fin.2) s.white_pieces }

/-- The undo closure of an en-passant command. -/
def epUndoF (pwn cp : Piece) (ini fin : Pos) (s : Board) : Board :=
  let s := s._undo_move pwn ini fin
  let s := { s with board := gridSet s.board (ini.1, fin.2) (some cp) }
  if is_white pwn then
    { s with black_pieces := dictInsert (ini.1, fin.2) cp s.black_pieces }
  else
    { s with white_pieces := dictInsert (ini.1, fin.2) cp s.white_pieces }

/-- The apply closure of a kingside-castle command. -/
def castleKApplyF (w : Bool) (s : Board) : Board :=
  (s._make_move (make_piece PName.K w true false) (rankOf w, 4) (rankOf w, 6))._make_move
    (make_piece PName.R w true false) (rankOf w, 7) (rankOf w, 5)

/-- The undo closure of a kingside-castle command. -/
def castleKUndoF (kg rk : Piece) (w : Bool) (s : Board) : Board :=
  (s._undo_move kg (rankOf w, 4) (rankOf w, 6))._undo_move rk (rankOf w, 7) (rankOf w, 5)

/-- The apply closure of a queenside-castle command. -/
def castleQApplyF (w : Bool) (s : Board) : Board :=
  (s._make_move (make_piece PName.K w true false) (rankOf w, 4) (rankOf w, 2))._make_move
    (make_piece PName.R w true false) (rankOf w, 0) (rankOf w, 3)

/-- The undo closure of a queenside-castle command. -/
def castleQUndoF (kg rk : Piece) (w : Bool) (s : Board) : Board :=
  (s._undo_move kg (rankOf w, 4) (rankOf w, 2))._undo_move rk (rankOf w, 0) (rankOf w, 3)

/-- A move produced by a step or slide generator. -/
def isNormalMove : Move → Bool
  | Move.normal _ _ _ _ _ _ => true
  | _ => false

/-- The single-step candidate of the pawn generator. -/
def pawnL1 (b : Board) (pawn : Piece) (position : Pos) : List Pos :=
  let rank := position.1
  let file := position.2
  let wm : Int := if is_white pawn then 1 else -1
  if _is_in_bounds (rank + 1 * wm, file) && (gridGet b.board (rank + 1 * wm, file)).isNone then
    ([] : List Pos) ++ [(rank + 1 * wm, file)]
  else []

/-- Single and double step candidates. -/
def pawnL2 (b : Board) (pawn : Piece) (position : Pos) : List Pos :=
  let rank := position.1
  let file := position.2
  let wm : Int := if is_white pawn then 1 else -1
  if _is_in_bounds (rank + 2 * wm, file) && (gridGet b.board (rank + 1 * wm, file)).isNone &&
      !(has_moved pawn) && (gridGet b.board (rank + 2 * wm, file)).isNone then
    pawnL1 b pawn position ++ [(rank + 2 * wm, file)]
  else pawnL1 b pawn position

/-- Steps plus the file - 1 diagonal capture candidate. -/
def pawnL3 (b : Board) (pawn : Piece) (position : Pos) : List Pos :=
  let rank := position.1
  let file := position.2
  let wm : Int := if is_white pawn then 1 else -1
  if _is_in_bounds (rank + 1 * wm, file - 1) then
    match gridGet b.board (rank + 1 * wm, file - 1) with
    | some square =>
      if is_white square != is_white pawn then
        pawnL2 b pawn position ++ [(rank + 1 * wm, file - 1)]
      else pawnL2 b pawn position
    | none => pawnL2 b pawn position
  else pawnL2 b pawn position

/-- The candidate target squares of the pawn generator. -/
def pawnTargets (b : Board) (pawn : Piece) (position : Pos) : List Pos :=
  let rank := position.1
  let file := position.2
  let wm : Int := if is_white pawn then 1 else -1
  if _is_in_bounds (rank + 1 * wm, file + 1) then
    match gridGet b.board (rank + 1 * wm, file + 1) with
    | some square =>
      if is_white square != is_white pawn then
        pawnL3 b pawn position ++ [(rank + 1 * wm, file + 1)]
      else pawnL3 b pawn position
    | none => pawnL3 b pawn position
  else pawnL3 b pawn position

/-- The move-emitting step of the pawn generator. -/
def pawnStep (b : Board) (pawn : Piece) (position : Pos) (moves : List Move)
    (final_pos : Pos) : List Move :=
  let square := gridGet b.board final_pos
  let captured := square.map get_name
  if final_pos.1 == 7 || final_pos.1 == 0 then
    addMoves moves
      ([PName.Q, PName.B, PName.N, PName.R].map
        (fun promotion => make_move (get_name pawn) position final_pos false captured
          (some promotion)))
  else addMove moves (make_move (get_name pawn) position final_pos false captured)

/-- The common target property: in bounds, and any occupant is an enemy. -/
def PawnTgt (b : Board) (pawn : Piece) (p : Pos) : Prop :=
  _is_in_bounds p = true ∧
    ∀ sq, gridGet b.board p = some sq → is_white sq = !is_white pawn

/-- The per-piece fold of _get_psuedo_moves. -/
def pseudoMain (b : Board) (get_white : Bool) : List Move :=
  (if get_white then b.white_pieces else b.black_pieces).foldl
    (fun moves pp =>
      match gridGet b.board pp.1 with
      | none => moves
      | some piece =>
        match get_name piece with
        | PName.K => addMoves moves (b._get_king_moves piece pp.1)
        | PName.Q => addMoves moves (b._get_queen_moves piece pp.1)
        | PName.B => addMoves moves (b._get_bishop_moves piece pp.1)
        | PName.N => addMoves moves (b._get_knight_moves piece pp.1)
        | PName.R => addMoves moves (b._get_rook_moves piece pp.1)
        | PName.P => addMoves moves (b._get_pawn_moves piece pp.1)) []

/-- The castle section of _get_psuedo_moves. -/
def pseudoCastle (b : Board) (get_white : Bool) (moves : List Move) : List Move :=
  let rank : Int := if get_white then 0 else 7
  let king := gridGet b.board (rank, 4)
  let q_rook := gridGet b.board (rank, 0)
  let k_rook := gridGet b.board (rank, 7)
  let q_squares := [gridGet b.board (rank, 1), gridGet b.board (rank, 2), gridGet b.board (rank, 3)]
  let k_squares := [gridGet b.board (rank, 5), gridGet b.board (rank, 6)]
  match king with
  | some kg =>
    if get_name kg == PName.K && !(has_moved kg) && (is_white kg == get_white) then
      let moves :=
        match q_rook with
        | some r =>
          if get_name r == PName.R && !(has_moved r) && (is_white r == get_white) &&
              q_squares.all (fun s => s.isNone) then
            addMove moves (Move.castleQ get_white)
          else moves
        | none => moves
      match k_rook with
      | some r =>
        if get_name r == PName.R && !(has_moved r) && (is_white r == get_white) &&
            k_squares.all (fun s => s.isNone) then
          addMove moves (Move.castleK get_white)
        else moves
      | none => moves
    else moves
  | none => moves

/-- One step of the en-passant fold of _get_psuedo_moves. -/
def epStep (b : Board) (get_white : Bool) (ep_positions : List Pos)
    (moves : List Move) (p : Pos) : List Move :=
  let wm : Int := if get_white then 1 else -1
  let moves :=
    if posMem (p.1, p.2 - 1) ep_positions && _is_in_bounds (p.1 + 1 * wm, p.2 - 1) &&
        (gridGet b.board (p.1 + 1 * wm, p.2 - 1)).isNone then
      match gridGet b.board p with
      | some pawn =>
        addMove moves (make_move (get_name pawn) p (p.1 + 1 * wm, p.2 - 1) true (some PName.P))
      | none => moves
    else moves
  if posMem (p.1, p.2 + 1) ep_positions && _is_in_bounds (p.1 + 1 * wm, p.2 + 1) &&
      (gridGet b.board (p.1 + 1 * wm, p.2 + 1)).isNone then
    match gridGet b.board p with
    | some pawn =>
      addMove moves (make_move (get_name pawn) p (p.1 + 1 * wm, p.2 + 1) true (some PName.P))
    | none => moves
  else moves

/-- The flag-clearing map on pieces described by the frame-effect claim: a
pawn of the moving color whose en-passant flag is set is replaced by the
identical pawn with the flag cleared; everything else is untouched. -/
def pieceFix (c : Bool) (q : Piece) : Piece :=
  if get_name q == PName.P && (is_white q == c) && can_ep q then
    make_piece PName.P (is_white q) (has_moved q) false
  else q

/-- The board the claim says get_moves leaves behind, built from the spec
words: the flag-clearing map applied to the grid and to the moving colors
index, everything else identical. -/
def epCleared (b : Board) (c : Bool) : Board :=
  { board := b.board.map (fun row => row.map (Option.map (pieceFix c))),
    white_king := b.white_king,
    black_king := b.black_king,
    white_pieces :=
      if c then b.white_pieces.map (fun pp => (pp.1, pieceFix c pp.2))
      else b.white_pieces,
    black_pieces :=
      if c then b.black_pieces
      else b.black_pieces.map (fun pp => (pp.1, pieceFix c pp.2)) }

/-- One step of the clearing fold of Board.clearEp. -/
def clearStep (get_white : Bool) (b : Board) (pos : Pos) : Board :=
  match gridGet b.board pos with
  | none => b
  | some pawn =>
    let new_pawn := make_piece PName.P (is_white pawn) (has_moved pawn) false
    let b := { b with board := gridSet b.board pos (some new_pawn) }
    if get_white then { b with white_pieces := dictInsert pos new_pawn b.white_pieces }
    else { b with black_pieces := dictInsert pos new_pawn b.black_pieces }

/-- The mover maps of a board, by color. -/
def cmap (c : Bool) (b : Board) : PieceMap :=
  if c then b.white_pieces else b.black_pieces

/-- The opponent maps of a board, by color. -/
def omap (c : Bool) (b : Board) : PieceMap :=
  if c then b.black_pieces else b.white_pieces

/-- The cached king square of a color. -/
def kcache (c : Bool) (b : Board) : Pos := if c then b.white_king else b.black_king

/-- The pseudo-move set after the attacked-castle-square pruning of
Board.get_moves, before the legality filter. -/
def castlePruned (b : Board) (get_white : Bool) : List Move :=
  let moves := b._get_psuedo_moves get_white
  let rank : Int := if get_white then 0 else 7
  let k_castle_squares : List Pos := [(rank, 4), (rank, 5), (rank, 6)]
  let q_castle_squares : List Pos := [(rank, 4), (rank, 3), (rank, 2)]
  let attacked_squares := b._get_squares_attacked_by (!get_white)
  let moves :=
    if k_castle_squares.any (fun s => posMem s attacked_squares) then
      removeMove moves (Move.castleK get_white)
    else moves
  if q_castle_squares.any (fun s => posMem s attacked_squares) then
    removeMove moves (Move.castleQ get_white)
  else moves

/-- The game make_move builds in its success branch. -/
def mmNext (g : Game) (move : Move) (draw_offered : Bool) : Game :=
  let g := (g.get_moves).2
  let commands := g.board.get_move_command move
  let board := commands.1 g.board
  let position := _get_position_hash board
  let encountered_positions :=
    match encGet position g.encountered_positions with
    | some n => encSet position (n + 1) g.encountered_positions
    | none => encSet position 1 g.encountered_positions
  let is_white_turn := !g.is_white_turn
  let check := board.is_checked is_white_turn
  let st1 := if check then board.get_moves is_white_turn else ([], board)
  let checkmate := check && st1.1.isEmpty
  let board := st1.2
  let staleDraw := decide (100 ≤ _get_num_stale_moves g.moves_list)
  let repDraw := decide (3 ≤ ((encGet position encountered_positions).getD 0))
  let st2 :=
    if !staleDraw && !repDraw then board.get_moves is_white_turn else ([], board)
  let board := if !staleDraw && !repDraw then st2.2 else board
  let draw :=
    if staleDraw then true
    else if repDraw then true
    else st2.1.isEmpty && !(board.is_checked is_white_turn)
  let evaluation := make_evaluation check checkmate draw draw_offered
  let moves_list := g.moves_list ++ [(move, evaluation)]
  let outcome := if draw then "1/2-1/2" else g.outcome
  let outcome :=
    if checkmate then (if !is_white_turn then "1-0" else "0-1") else outcome
  { board := board
    moves_list := moves_list
    encountered_positions := encountered_positions
    is_white_turn := is_white_turn
    outcome := outcome }

/-- The boards make_move threads through, named. -/
def mmBoard1 (g : Game) (move : Move) : Board :=
  ((g.board.get_moves g.is_white_turn).2.get_move_command move).1
    (g.board.get_moves g.is_white_turn).2

/-- The game states reachable from the initial position through the public
game operations. -/
inductive Reachable : Game → Prop
  | init : Reachable Game.init
  | step {g : Game} {m : Move} {d : Bool} {g2 : Game} : Reachable g →
      g.make_move m d = Except.ok g2 → Reachable g2
  | draw {g g2 : Game} : Reachable g → g.accept_draw = Except.ok g2 → Reachable g2

/-- Every flag-carrying piece on the board is a pawn. -/
def EpPawn (b : Board) : Prop :=
  ∀ q v, _is_in_bounds q = true → gridGet b.board q = some v → can_ep v = true →
    get_name v = PName.P

/-- The j-th square of the ray from ini along delta. -/
def rayPoint (ini delta : Pos) (j : Nat) : Pos :=
  (ini.1 + (j : Int) * delta.1, ini.2 + (j : Int) * delta.2)

/-- The attack squares one piece entry contributes. -/
def attackSquares (b : Board) (white : Bool) (pp : Pos × Piece) : List Pos :=
  match get_name pp.2 with
  | PName.K => _get_king_squares pp.1
  | PName.Q => b._get_queen_squares pp.1
  | PName.B => b._get_bishop_squares pp.1
  | PName.N => _get_knight_squares pp.1
  | PName.R => b._get_rook_squares pp.1
  | PName.P =>
    let wm : Int := if white then 1 else -1
    let p1 : Pos := (pp.1.1 + 1 * wm, pp.1.2 + 1)
    let p2 : Pos := (pp.1.1 + 1 * wm, pp.1.2 - 1)
    (if _is_in_bounds p2 then [p2] else []) ++ (if _is_in_bounds p1 then [p1] else [])

/-- The double-step opening game used to exercise an en-passant offer. -/
def wE4 : Move := make_move PName.P (1, 4) (3, 4) false

def bA6 : Move := make_move PName.P (6, 0) (5, 0) false

def wE5 : Move := make_move PName.P (3, 4) (4, 4) false

def bD5 : Move := make_move PName.P (6, 3) (4, 3) false

def epX : Move := make_move PName.P (4, 4) (5, 3) true (some PName.P)

def gEp1 : Game := mmNext Game.init wE4 false

def gEp2 : Game := mmNext gEp1 bA6 false

def gEp3 : Game := mmNext gEp2 wE5 false

def gEp4 : Game := mmNext gEp3 bD5 false

/-- Spec wording: the kingside castle is legal iff the king and the h-rook
sit unmoved on their home squares, the two squares between them are
empty, and none of the king origin, intermediate and destination squares
is attacked by the opponent. -/
def CastleCondK (b : Board) (c : Bool) : Prop :=
  (∃ kg, gridGet b.board (rankOf c, 4) = some kg ∧ get_name kg = PName.K ∧
    is_white kg = c ∧ has_moved kg = false) ∧
  (∃ rk, gridGet b.board (rankOf c, 7) = some rk ∧ get_name rk = PName.R ∧
    is_white rk = c ∧ has_moved rk = false) ∧
  gridGet b.board (rankOf c, 5) = none ∧ gridGet b.board (rankOf c, 6) = none ∧
  posMem (rankOf c, 4) (b._get_squares_attacked_by (!c)) = false ∧
  posMem (rankOf c, 5) (b._get_squares_attacked_by (!c)) = false ∧
  posMem (rankOf c, 6) (b._get_squares_attacked_by (!c)) = false

/-- Spec wording for the queenside castle. -/
def CastleCondQ (b : Board) (c : Bool) : Prop :=
  (∃ kg, gridGet b.board (rankOf c, 4) = some kg ∧ get_name kg = PName.K ∧
    is_white kg = c ∧ has_moved kg = false) ∧
  (∃ rk, gridGet b.board (rankOf c, 0) = some rk ∧ get_name rk = PName.R ∧
    is_white rk = c ∧ has_moved rk = false) ∧
  gridGet b.board (rankOf c, 1) = none ∧ gridGet b.board (rankOf c, 2) = none ∧
  gridGet b.board (rankOf c, 3) = none ∧
  posMem (rankOf c, 4) (b._get_squares_attacked_by (!c)) = false ∧
  posMem (rankOf c, 3) (b._get_squares_attacked_by (!c)) = false ∧
  posMem (rankOf c, 2) (b._get_squares_attacked_by (!c)) = false

/-- The hash contribution of one square depends only on its kind. -/
theorem hashPiece_kind (s : String) (a b : Option Piece)
    (h : a.map get_name = b.map get_name) : hashPiece s a = hashPiece s b := by
  cases a <;> cases b <;> simp only [Option.map, Option.map_none, Option.map_some] at h <;>
    simp_all [hashPiece]

/-- The inner fold of the hash over one rank depends only on the kinds. -/
theorem hashRow_eq :
    ∀ (r1 r2 : List (Option Piece)) (s : String),
      r1.map (fun p => p.map get_name) = r2.map (fun p => p.map get_name) →
      r1.foldl hashPiece s = r2.foldl hashPiece s := by
  intro r1
  induction r1 with
  | nil =>
    intro r2 s h
    cases r2 with
    | nil => rfl
    | cons b bs => simp at h
  | cons a as ih =>
    intro r2 s h
    cases r2 with
    | nil => simp at h
    | cons b bs =>
      simp only [List.map_cons, List.cons.injEq] at h
      simp only [List.foldl_cons]
      rw [hashPiece_kind s a b h.1]
      exact ih bs (hashPiece s b) h.2

/-- The outer fold of the hash depends only on the kinds. -/
theorem hashRows_eq :
    ∀ (l1 l2 : List (List (Option Piece))) (s : String),
      l1.map (fun r => r.map (fun p => p.map get_name)) =
        l2.map (fun r => r.map (fun p => p.map get_name)) →
      l1.foldl (fun hash r => r.foldl hashPiece hash) s =
        l2.foldl (fun hash r => r.foldl hashPiece hash) s := by
  intro l1
  induction l1 with
  | nil =>
    intro l2 s h
    cases l2 with
    | nil => rfl
    | cons b bs => simp at h
  | cons a as ih =>
    intro l2 s h
    cases l2 with
    | nil => simp at h
    | cons b bs =>
      simp only [List.map_cons, List.cons.injEq] at h
      simp only [List.foldl_cons]
      rw [hashRow_eq a b s h.1]
      exact ih bs (b.foldl hashPiece s) h.2

/-- C9 (confirmed): the position hash used for threefold-repetition
detection depends only on the piece kind occupying each square; any two
boards agreeing on the kind per square (whatever the colors, hasMoved or
enPassantEligible flags; the hash takes no side-to-move, castling-rights or
en-passant-rights input at all) hash identically. -/
theorem position_hash_kind_only (b1 b2 : Board) (h : kindGrid b1 = kindGrid b2) :
    _get_position_hash b1 = _get_position_hash b2 := by
  unfold _get_position_hash
  exact hashRows_eq b1.board b2.board "" h

/-- Witness for C9: the initial board and the board with square a1 held by
a black, moved, en-passant-flagged piece of the same kind agree on kinds
and hash identically. -/
theorem position_hash_kind_only_witness :
    kindGrid Board.initial = kindGrid recoloredBoard ∧
      _get_position_hash Board.initial = _get_position_hash recoloredBoard :=
  ⟨by decide!, position_hash_kind_only Board.initial recoloredBoard (by decide!)⟩

/-- C8 counterexample: on a game with no move made yet, accept_draw raises
the Python IndexError from moves_list[-1], not NO_DRAW_OFFER, so it is not
true that every failure of accept_draw is NoDrawOffer. -/
theorem accept_draw_empty_counterexample :
    Game.init.moves_list = [] ∧
      Game.init.accept_draw = Except.error "INDEX_ERROR" ∧
      Game.init.accept_draw ≠ Except.error "NO_DRAW_OFFER" := by
  refine ⟨rfl, rfl, ?_⟩
  intro h
  simp [Game.accept_draw, Game.init] at h

/-- C8 (corrected): on a game with at least one recorded move, accept_draw
fails with NoDrawOffer iff the last recorded evaluation did not carry a
draw offer, and otherwise sets the outcome to the draw string; on an empty
history it instead fails with the IndexError of moves_list[-1]. -/
theorem accept_draw_spec (g : Game) (me : Move × Evaluation)
    (h : g.moves_list.getLast? = some me) :
    (g.accept_draw = Except.error "NO_DRAW_OFFER" ↔ is_draw_offer me.2 = false) ∧
      (is_draw_offer me.2 = true →
        g.accept_draw = Except.ok { g with outcome := "1/2-1/2" }) := by
  unfold Game.accept_draw
  rw [h]
  cases hq : is_draw_offer me.2 <;> simp [hq]

/-- Witness for C8: without an offer accept_draw fails with NO_DRAW_OFFER;
with an offer it succeeds and sets the draw outcome. -/
theorem accept_draw_spec_witness :
    noOfferGame.accept_draw = Except.error "NO_DRAW_OFFER" ∧
      offerGame.accept_draw = Except.ok { offerGame with outcome := "1/2-1/2" } :=
  ⟨(accept_draw_spec noOfferGame (staleKnightMove, quietEval) rfl).1.mpr rfl,
   (accept_draw_spec offerGame (staleKnightMove, make_evaluation false false false true)
      rfl).2 rfl⟩

/-!
Claims C1 and C2: the draw bookkeeping of Game.make_move.
-/

/-- C1 counterexample: a game state whose recorded history holds 99
consecutive stale half-moves (the stale counter consults only this
recorded history); the make_move completing the 100th consecutive stale
half-move leaves outcome empty instead of setting it to the draw string,
because make_move counts the stale moves before appending the current
move. -/
theorem stale_100th_no_draw_counterexample :
    _get_num_stale_moves c1Game.moves_list = 99 ∧
      pnameEq (get_piece staleKnightMove) PName.P = false ∧
      (get_captured_piece staleKnightMove).isSome = false ∧
      c1Game.outcome = "" ∧
      onOk (c1Game.make_move staleKnightMove false)
        (fun g => (_get_num_stale_moves g.moves_list == 100) && (g.outcome == "")) = true := by
  refine ⟨by decide, by decide, by decide, by decide, by decide!⟩

/-- C1 (corrected): the draw fires one half-move later than claimed: any
make_move that succeeds from a history already holding at least 100 stale
half-moves records a draw evaluation and, unless that move itself is a
checkmate (which overrides the draw, see C2), sets outcome to the draw
string. -/
theorem stale_draw_after_100 (g : Game) (m : Move) (d : Bool) (g2 : Game)
    (h : g.make_move m d = Except.ok g2)
    (hs : 100 ≤ _get_num_stale_moves g.moves_list) :
    ∀ me, g2.moves_list.getLast? = some me →
      me.2.is_draw = true ∧
        (me.2.is_checkmate = false → g2.outcome = "1/2-1/2") := by
  dsimp only [Game.make_move] at h
  split at h
  · exact absurd h (by simp)
  · split at h
    · exact absurd h (by simp)
    · rw [Except.ok.injEq] at h
      subst h
      intro me hme
      simp only [List.getLast?_concat, Option.some.injEq] at hme
      subst hme
      have hgm : _get_num_stale_moves g.get_moves.2.moves_list
          = _get_num_stale_moves g.moves_list := rfl
      have hsd : decide (100 ≤ _get_num_stale_moves g.get_moves.2.moves_list) = true := by
        rw [hgm]; exact decide_eq_true hs
      constructor
      · simp only [make_evaluation, Evaluation.is_draw, hsd]
        rfl
      · intro hcm
        simp only [make_evaluation, Evaluation.is_checkmate] at hcm
        simp only [make_evaluation, hcm, hsd]
        rfl

/-- Witness for C1: from a history of exactly 100 stale half-moves, the
next make_move succeeds, records a draw evaluation, and sets the draw
outcome. -/
theorem stale_draw_after_100_witness :
    ∃ g2 me, c1wGame.make_move staleKnightMove false = Except.ok g2 ∧
      g2.moves_list.getLast? = some me ∧ me.2.is_draw = true ∧
      (me.2.is_checkmate = false → g2.outcome = "1/2-1/2") := by
  cases hE : c1wGame.make_move staleKnightMove false with
  | error e =>
    have hok : onOk (c1wGame.make_move staleKnightMove false) (fun _ => true) = true := by
      decide!
    rw [hE] at hok
    exact absurd hok (by simp [onOk])
  | ok g2 =>
    have hsome : onOk (c1wGame.make_move staleKnightMove false)
        (fun g => g.moves_list.getLast?.isSome) = true := by decide!
    rw [hE] at hsome
    simp only [onOk, Option.isSome_iff_exists] at hsome
    obtain ⟨me, hme⟩ := hsome
    obtain ⟨h1, h2⟩ :=
      stale_draw_after_100 c1wGame staleKnightMove false g2 hE (by decide!) me hme
    exact ⟨g2, me, rfl, hme, h1, h2⟩

/-- C2 counterexample: on the fools mate board (reachable, as the first
conjunct shows, by replaying f3, e5, g4) with a recorded history of 100
stale half-moves, the mating move Qh4 yields an evaluation in which draw
and checkmate BOTH hold, and the outcome is the black win, not the draw:
the final checkmate assignment overwrites the draw assignment. -/
theorem draw_checkmate_precedence_counterexample :
    onOk (play Game.init foolPrefix)
      (fun g => decide (g.board = c2Board) && (g.is_white_turn == false)) = true ∧
      onOk (c2Game.make_move mateMove false)
        (fun g =>
          (match g.moves_list.getLast? with
           | some me => me.2.is_draw && me.2.is_checkmate
           | none => false) && (g.outcome == "0-1")) = true := by
  refine ⟨by decide!, by decide!⟩

/-- C2 (corrected): when the evaluation of an applied move carries both
draw and checkmate, the outcome is the movers win (checkmate takes
precedence over draw), never the draw string. -/
theorem checkmate_overrides_draw (g : Game) (m : Move) (d : Bool) (g2 : Game)
    (h : g.make_move m d = Except.ok g2) (me : Move × Evaluation)
    (hl : g2.moves_list.getLast? = some me)
    (hcm : me.2.is_checkmate = true) (hdr : me.2.is_draw = true) :
    g2.outcome = (if g2.is_white_turn then "0-1" else "1-0") ∧
      g2.outcome ≠ "1/2-1/2" := by
  dsimp only [Game.make_move] at h
  split at h
  · exact absurd h (by simp)
  · split at h
    · exact absurd h (by simp)
    · rw [Except.ok.injEq] at h
      subst h
      simp only [List.getLast?_concat, Option.some.injEq] at hl
      subst hl
      simp only [make_evaluation, Evaluation.is_checkmate] at hcm
      simp only [make_evaluation, hcm]
      cases hw : g.get_moves.2.is_white_turn <;> simp [hw]

/-- Witness for C2: the mating move from the crafted stale history yields a
state whose last evaluation has both flags, and the theorem gives the black
win and rules out the draw string. -/
theorem checkmate_overrides_draw_witness :
    ∃ g2 me, c2Game.make_move mateMove false = Except.ok g2 ∧
      g2.moves_list.getLast? = some me ∧
      me.2.is_checkmate = true ∧ me.2.is_draw = true ∧
      g2.outcome = (if g2.is_white_turn then "0-1" else "1-0") ∧
      g2.outcome ≠ "1/2-1/2" := by
  cases hE : c2Game.make_move mateMove false with
  | error e =>
    have hok : onOk (c2Game.make_move mateMove false) (fun _ => true) = true := by decide!
    rw [hE] at hok
    exact absurd hok (by simp [onOk])
  | ok g2 =>
    have hflags : onOk (c2Game.make_move mateMove false)
        (fun g =>
          (match g.moves_list.getLast? with
           | some me => me.2.is_checkmate && me.2.is_draw
           | none => false)) = true := by decide!
    rw [hE] at hflags
    simp only [onOk] at hflags
    cases hme : g2.moves_list.getLast? with
    | none => rw [hme] at hflags; exact absurd hflags (by simp)
    | some me =>
      rw [hme] at hflags
      rw [Bool.and_eq_true] at hflags
      obtain ⟨hcm, hdr⟩ := hflags
      obtain ⟨h1, h2⟩ := checkmate_overrides_draw c2Game mateMove false g2 hE me hme hcm hdr
      exact ⟨g2, me, rfl, hme, hcm, hdr, h1, h2⟩


theorem intEq_iff {a b : Int} : intEq a b = true ↔ a = b := by
  cases a <;> cases b <;> simp [intEq, Nat.beq_eq_true_eq]

theorem posEq_iff {a b : Pos} : posEq a b = true ↔ a = b := by
  cases a; cases b
  simp [posEq, intEq_iff, Prod.ext_iff]

theorem posEq_refl (a : Pos) : posEq a a = true := posEq_iff.mpr rfl

theorem intLt_iff {a b : Int} : intLt a b = true ↔ a < b := by
  cases a with
  | ofNat a =>
    cases b with
    | ofNat b => rw [show intLt (Int.ofNat a) (Int.ofNat b) = Nat.blt a b from rfl, Nat.blt_eq]; exact Int.ofNat_lt.symm
    | negSucc b =>
      simp only [intLt, Bool.false_eq_true, false_iff]
      intro h
      exact absurd (lt_trans h (Int.negSucc_lt_zero b)) (not_lt.mpr (Int.ofNat_nonneg a))
  | negSucc a =>
    cases b with
    | ofNat b =>
      simp only [intLt, true_iff]
      exact lt_of_lt_of_le (Int.negSucc_lt_zero a) (Int.ofNat_nonneg b)
    | negSucc b =>
      rw [show intLt (Int.negSucc a) (Int.negSucc b) = Nat.blt b a from rfl, Nat.blt_eq]
      simp only [Int.negSucc_eq]
      omega

theorem posLt_iff {a b : Pos} :
    posLt a b = true ↔ a.1 < b.1 ∨ (a.1 = b.1 ∧ a.2 < b.2) := by
  simp [posLt, Bool.or_eq_true, Bool.and_eq_true, intLt_iff, intEq_iff]

theorem posLt_irrefl (a : Pos) : posLt a a = false := by
  cases h : posLt a a
  · rfl
  · rw [posLt_iff] at h
    rcases h with h | ⟨_, h⟩ <;> exact absurd h (lt_irrefl _)

theorem posLt_trans {a b c : Pos} (h1 : posLt a b = true) (h2 : posLt b c = true) :
    posLt a c = true := by
  rw [posLt_iff] at h1 h2 ⊢
  rcases h1 with h1 | ⟨e1, h1⟩ <;> rcases h2 with h2 | ⟨e2, h2⟩
  · exact Or.inl (lt_trans h1 h2)
  · exact Or.inl (e2 ▸ h1)
  · exact Or.inl (e1 ▸ h2)
  · exact Or.inr ⟨e1.trans e2, lt_trans h1 h2⟩

theorem posLt_ne {a b : Pos} (h : posLt a b = true) : a ≠ b := by
  intro e
  subst e
  rw [posLt_irrefl] at h
  exact Bool.false_ne_true h

theorem bandE {a b : Bool} (h : (a && b) = true) : a = true ∧ b = true := by
  cases a <;> cases b <;> simp_all

theorem chainLt_tail {e : Pos × Piece} {l : PieceMap} (h : chainLt (e :: l) = true) :
    chainLt l = true := by
  cases l with
  | nil => rfl
  | cons b rest => exact (bandE h).2

theorem chainLt_head_lt {e : Pos × Piece} {l : PieceMap} (h : chainLt (e :: l) = true) :
    ∀ x ∈ l, posLt e.1 x.1 = true := by
  induction l generalizing e with
  | nil => intro x hx; cases hx
  | cons b rest ih =>
    intro x hx
    obtain ⟨h1, h2⟩ := bandE (h : (posLt e.1 b.1 && chainLt (b :: rest)) = true)
    cases hx with
    | head => exact h1
    | tail _ hx => exact posLt_trans h1 (ih h2 x hx)

theorem dictGet_mem {k : Pos} {v : Piece} {l : PieceMap} (h : dictGet k l = some v) :
    (k, v) ∈ l := by
  induction l with
  | nil => cases h
  | cons e rest ih =>
    by_cases he : posEq k e.1 = true
    · rw [dictGet, if_pos he] at h
      rw [posEq_iff] at he
      cases h
      subst he
      exact List.mem_cons_self _ _
    · rw [dictGet, if_neg he] at h
      exact List.mem_cons_of_mem _ (ih h)

theorem mem_dictGet {k : Pos} {v : Piece} {l : PieceMap} (hs : chainLt l = true)
    (h : (k, v) ∈ l) : dictGet k l = some v := by
  induction l with
  | nil => cases h
  | cons e rest ih =>
    cases h with
    | head => rw [dictGet, if_pos (posEq_refl _)]
    | tail _ h =>
      have hk : posLt e.1 k = true := chainLt_head_lt hs (k, v) h
      have hne : posEq k e.1 = false := by
        cases hq : posEq k e.1
        · rfl
        · rw [posEq_iff] at hq
          subst hq
          rw [posLt_irrefl] at hk
          cases hk
      rw [dictGet, if_neg (by simp [hne])]
      exact ih (chainLt_tail hs) h

theorem dictGet_insert_self (k : Pos) (v : Piece) (l : PieceMap) :
    dictGet k (dictInsert k v l) = some v := by
  induction l with
  | nil => simp [dictInsert, dictGet, posEq_refl]
  | cons e rest ih =>
    rw [dictInsert]
    by_cases h1 : posLt k e.1 = true
    · rw [if_pos h1, dictGet, if_pos (posEq_refl _)]
    · rw [if_neg h1]
      by_cases h2 : posEq k e.1 = true
      · rw [if_pos h2, dictGet, if_pos (posEq_refl _)]
      · rw [if_neg h2, dictGet, if_neg h2]
        exact ih

theorem dictGet_insert_other {k k2 : Pos} (hne : k ≠ k2) (v : Piece) (l : PieceMap) :
    dictGet k (dictInsert k2 v l) = dictGet k l := by
  have hne2 : posEq k k2 = false := by
    cases hq : posEq k k2
    · rfl
    · exact absurd (posEq_iff.mp hq) hne
  induction l with
  | nil => simp [dictInsert, dictGet, hne2]
  | cons e rest ih =>
    rw [dictInsert]
    by_cases h1 : posLt k2 e.1 = true
    · rw [if_pos h1, dictGet, if_neg (by simp [hne2])]
    · rw [if_neg h1]
      by_cases h2 : posEq k2 e.1 = true
      · rw [if_pos h2]
        rw [posEq_iff] at h2
        subst h2
        rw [dictGet, if_neg (by simp [hne2]), dictGet, if_neg (by simp [hne2])]
      · rw [if_neg h2, dictGet, dictGet]
        by_cases h3 : posEq k e.1 = true
        · rw [if_pos h3, if_pos h3]
        · rw [if_neg h3, if_neg h3]
          exact ih

theorem dictGet_pop_other {k k2 : Pos} (hne : k ≠ k2) (l : PieceMap) :
    dictGet k (dictPop k2 l) = dictGet k l := by
  induction l with
  | nil => rfl
  | cons e rest ih =>
    rw [dictPop]
    by_cases h1 : posEq k2 e.1 = true
    · rw [if_pos h1, dictGet]
      rw [posEq_iff] at h1
      subst h1
      have : posEq k e.1 = false := by
        cases hq : posEq k e.1
        · rfl
        · exact absurd (posEq_iff.mp hq) hne
      rw [if_neg (by simp [this])]
    · rw [if_neg h1, dictGet, dictGet]
      by_cases h3 : posEq k e.1 = true
      · rw [if_pos h3, if_pos h3]
      · rw [if_neg h3, if_neg h3]
        exact ih

theorem dictPop_absent {k : Pos} {l : PieceMap} (h : dictGet k l = none) :
    dictPop k l = l := by
  induction l with
  | nil => rfl
  | cons e rest ih =>
    rw [dictGet] at h
    by_cases h1 : posEq k e.1 = true
    · rw [if_pos h1] at h
      cases h
    · rw [if_neg h1] at h
      rw [dictPop, if_neg h1, ih h]

theorem dictGet_pop_none {k k2 : Pos} {l : PieceMap} (h : dictGet k l = none) :
    dictGet k (dictPop k2 l) = none := by
  by_cases he : k = k2
  · subst he
    induction l with
    | nil => rfl
    | cons e rest ih =>
      rw [dictGet] at h
      by_cases h1 : posEq k e.1 = true
      · rw [if_pos h1] at h
        cases h
      · rw [if_neg h1] at h
        rw [dictPop, if_neg h1, dictGet, if_neg h1]
        exact ih h
  · rw [dictGet_pop_other he]
    exact h

theorem dictPop_insert_cancel {k : Pos} {l : PieceMap} (h : dictGet k l = none)
    (v : Piece) : dictPop k (dictInsert k v l) = l := by
  induction l with
  | nil => simp [dictInsert, dictPop, posEq_refl]
  | cons e rest ih =>
    rw [dictGet] at h
    by_cases h1 : posEq k e.1 = true
    · rw [if_pos h1] at h
      cases h
    · rw [if_neg h1] at h
      rw [dictInsert]
      by_cases h2 : posLt k e.1 = true
      · rw [if_pos h2, dictPop, if_pos (posEq_refl _)]
      · rw [if_neg h2, if_neg h1, dictPop, if_neg h1, ih h]

theorem dictInsert_pop_cancel {k : Pos} {v : Piece} {l : PieceMap}
    (hs : chainLt l = true) (h : dictGet k l = some v) :
    dictInsert k v (dictPop k l) = l := by
  induction l with
  | nil => cases h
  | cons e rest ih =>
    rw [dictGet] at h
    by_cases h1 : posEq k e.1 = true
    · rw [if_pos h1] at h
      injection h with h
      rw [posEq_iff] at h1
      rw [dictPop, if_pos (posEq_iff.mpr h1)]
      cases rest with
      | nil =>
        subst h1 h
        rfl
      | cons b rest2 =>
        have hlt : posLt e.1 b.1 = true := (bandE hs).1
        rw [dictInsert, if_pos (h1 ▸ hlt)]
        subst h1 h
        rfl
    · rw [if_neg h1] at h
      have hmem := dictGet_mem h
      have hlt : posLt e.1 k = true :=
        chainLt_head_lt hs (k, v) hmem
      rw [dictPop, if_neg h1, dictInsert]
      have hnlt : posLt k e.1 = false := by
        cases hq : posLt k e.1
        · rfl
        · have := posLt_trans hq hlt
          rw [posLt_irrefl] at this
          cases this
      rw [if_neg (by simp [hnlt]), if_neg h1, ih (chainLt_tail hs) h]

theorem posLt_total {a b : Pos} (hne : posEq a b = false) (hnl : posLt a b = false) :
    posLt b a = true := by
  have h1 : ¬(a.1 < b.1 ∨ (a.1 = b.1 ∧ a.2 < b.2)) := by
    intro hc
    rw [← posLt_iff] at hc
    rw [hc] at hnl
    cases hnl
  have h2 : a ≠ b := by
    intro hc
    rw [← posEq_iff] at hc
    rw [hc] at hne
    cases hne
  push_neg at h1
  rw [posLt_iff]
  rcases lt_trichotomy a.1 b.1 with hc | hc | hc
  · exact absurd hc (not_lt.mpr h1.1)
  · rcases lt_trichotomy a.2 b.2 with hd | hd | hd
    · exact absurd hd (not_lt.mpr (h1.2 hc))
    · exact absurd (Prod.ext hc hd) h2
    · exact Or.inr ⟨hc.symm, hd⟩
  · exact Or.inl hc

theorem mem_dictInsert_weak {x : Pos × Piece} {k : Pos} {v : Piece} {l : PieceMap}
    (h : x ∈ dictInsert k v l) : x = (k, v) ∨ x ∈ l := by
  induction l with
  | nil =>
    cases h with
    | head => exact Or.inl rfl
    | tail _ h => cases h
  | cons e rest ih =>
    rw [dictInsert] at h
    by_cases h1 : posLt k e.1 = true
    · rw [if_pos h1] at h
      cases h with
      | head => exact Or.inl rfl
      | tail _ h => exact Or.inr h
    · rw [if_neg h1] at h
      by_cases h2 : posEq k e.1 = true
      · rw [if_pos h2] at h
        cases h with
        | head => exact Or.inl rfl
        | tail _ h => exact Or.inr (List.mem_cons_of_mem _ h)
      · rw [if_neg h2] at h
        cases h with
        | head => exact Or.inr (List.mem_cons_self _ _)
        | tail _ h =>
          rcases ih h with h | h
          · exact Or.inl h
          · exact Or.inr (List.mem_cons_of_mem _ h)

theorem mem_dictPop_weak {x : Pos × Piece} {k : Pos} {l : PieceMap}
    (h : x ∈ dictPop k l) : x ∈ l := by
  induction l with
  | nil => cases h
  | cons e rest ih =>
    rw [dictPop] at h
    by_cases h1 : posEq k e.1 = true
    · rw [if_pos h1] at h
      exact List.mem_cons_of_mem _ h
    · rw [if_neg h1] at h
      cases h with
      | head => exact List.mem_cons_self _ _
      | tail _ h => exact List.mem_cons_of_mem _ (ih h)

theorem mem_dictPop_ne {x : Pos × Piece} {k : Pos} {l : PieceMap}
    (hs : chainLt l = true) (h : x ∈ dictPop k l) : x ∈ l ∧ x.1 ≠ k := by
  induction l with
  | nil => cases h
  | cons e rest ih =>
    rw [dictPop] at h
    by_cases h1 : posEq k e.1 = true
    · rw [if_pos h1] at h
      rw [posEq_iff] at h1
      subst h1
      refine ⟨List.mem_cons_of_mem _ h, ?_⟩
      have := chainLt_head_lt hs x h
      exact fun hc => absurd (hc ▸ this) (by rw [posLt_irrefl]; simp)
    · rw [if_neg h1] at h
      cases h with
      | head =>
        refine ⟨List.mem_cons_self _ _, ?_⟩
        intro hc
        rw [hc] at h1
        exact h1 (posEq_refl _)
      | tail _ h =>
        obtain ⟨hm, hn⟩ := ih (chainLt_tail hs) h
        exact ⟨List.mem_cons_of_mem _ hm, hn⟩

theorem chainLt_dictPop {k : Pos} {l : PieceMap} (hs : chainLt l = true) :
    chainLt (dictPop k l) = true := by
  induction l with
  | nil => rfl
  | cons e rest ih =>
    rw [dictPop]
    by_cases h1 : posEq k e.1 = true
    · rw [if_pos h1]
      exact chainLt_tail hs
    · rw [if_neg h1]
      have ih2 := ih (chainLt_tail hs)
      cases hI : dictPop k rest with
      | nil => rfl
      | cons b bs =>
        have hb : b ∈ dictPop k rest := by rw [hI]; exact List.mem_cons_self _ _
        have hlt : posLt e.1 b.1 = true :=
          chainLt_head_lt hs b (mem_dictPop_weak hb)
        rw [hI] at ih2
        show (posLt e.1 b.1 && chainLt (b :: bs)) = true
        rw [hlt, ih2]
        rfl

theorem chainLt_dictInsert {k : Pos} {v : Piece} {l : PieceMap} (hs : chainLt l = true) :
    chainLt (dictInsert k v l) = true := by
  induction l with
  | nil => rfl
  | cons e rest ih =>
    rw [dictInsert]
    by_cases h1 : posLt k e.1 = true
    · rw [if_pos h1]
      show (posLt k e.1 && chainLt (e :: rest)) = true
      rw [h1, hs]
      rfl
    · rw [if_neg h1]
      by_cases h2 : posEq k e.1 = true
      · rw [if_pos h2]
        rw [posEq_iff] at h2
        cases rest with
        | nil => rfl
        | cons b bs =>
          have hlt : posLt e.1 b.1 = true := (bandE hs).1
          show (posLt k b.1 && chainLt (b :: bs)) = true
          rw [h2, hlt, chainLt_tail hs]
          rfl
      · rw [if_neg h2]
        have hek : posLt e.1 k = true := by
          refine posLt_total ?_ ?_
          · cases hq : posEq k e.1
            · rfl
            · exact absurd hq h2
          · cases hq : posLt k e.1
            · rfl
            · exact absurd hq h1
        cases hI : dictInsert k v rest with
        | nil => rfl
        | cons b bs =>
          have hb : b ∈ dictInsert k v rest := by
            rw [hI]
            exact List.mem_cons_self _ _
          have hlt : posLt e.1 b.1 = true := by
            rcases mem_dictInsert_weak hb with h | h
            · rw [h]
              exact hek
            · exact chainLt_head_lt hs b h
          have ih2 := ih (chainLt_tail hs)
          rw [hI] at ih2
          show (posLt e.1 b.1 && chainLt (b :: bs)) = true
          rw [hlt, ih2]
          rfl

theorem listGet_of_lt {α : Type} {l : List α} {n : Nat} (h : n < l.length) :
    ∃ a, listGet l n = some a := by
  induction l generalizing n with
  | nil => simp at h
  | cons a l ih =>
    cases n with
    | zero => exact ⟨a, rfl⟩
    | succ n => exact ih (Nat.lt_of_succ_lt_succ h)

theorem listGet_mem {α : Type} {l : List α} {n : Nat} {a : α}
    (h : listGet l n = some a) : a ∈ l := by
  induction l generalizing n with
  | nil => cases h
  | cons b l ih =>
    cases n with
    | zero => cases h; exact List.mem_cons_self _ _
    | succ n => exact List.mem_cons_of_mem _ (ih h)

theorem listGet_set_self {α : Type} {l : List α} {n : Nat} (h : n < l.length) (v : α) :
    listGet (listSet l n v) n = some v := by
  induction l generalizing n with
  | nil => simp at h
  | cons a l ih =>
    cases n with
    | zero => rfl
    | succ n => exact ih (Nat.lt_of_succ_lt_succ h) 

theorem listGet_set_other {α : Type} (l : List α) {n m : Nat} (h : n ≠ m) (v : α) :
    listGet (listSet l n v) m = listGet l m := by
  induction l generalizing n m with
  | nil => rfl
  | cons a l ih =>
    cases n with
    | zero =>
      cases m with
      | zero => exact absurd rfl h
      | succ m => rfl
    | succ n =>
      cases m with
      | zero => rfl
      | succ m => exact ih (fun hc => h (by rw [hc]))

theorem listSet_get_cancel {α : Type} {l : List α} {n : Nat} {v : α}
    (h : listGet l n = some v) : listSet l n v = l := by
  induction l generalizing n with
  | nil => cases h
  | cons a l ih =>
    cases n with
    | zero => cases h; rfl
    | succ n =>
      show a :: listSet l n v = a :: l
      rw [ih h]

theorem listSet_set_self {α : Type} (l : List α) (n : Nat) (v w : α) :
    listSet (listSet l n v) n w = listSet l n w := by
  induction l generalizing n with
  | nil => rfl
  | cons a l ih =>
    cases n with
    | zero => rfl
    | succ n =>
      show a :: listSet (listSet l n v) n w = a :: listSet l n w
      rw [ih]

theorem listSet_comm {α : Type} (l : List α) {n m : Nat} (h : n ≠ m) (v w : α) :
    listSet (listSet l n v) m w = listSet (listSet l m w) n v := by
  induction l generalizing n m with
  | nil => rfl
  | cons a l ih =>
    cases n with
    | zero =>
      cases m with
      | zero => exact absurd rfl h
      | succ m => rfl
    | succ n =>
      cases m with
      | zero => rfl
      | succ m =>
        show a :: listSet (listSet l n v) m w = a :: listSet (listSet l m w) n v
        rw [ih (fun hc => h (by rw [hc]))]

theorem listSet_length {α : Type} (l : List α) (n : Nat) (v : α) :
    (listSet l n v).length = l.length := by
  induction l generalizing n with
  | nil => rfl
  | cons a l ih =>
    cases n with
    | zero => rfl
    | succ n =>
      show (listSet l n v).length + 1 = l.length + 1
      rw [ih]

theorem listSet_mem {α : Type} {l : List α} {n : Nat} {v x : α}
    (hm : x ∈ listSet l n v) : x ∈ l ∨ x = v := by
  induction l generalizing n with
  | nil => cases hm
  | cons a l ih =>
    cases n with
    | zero =>
      cases hm with
      | head => exact Or.inr rfl
      | tail _ h => exact Or.inl (List.mem_cons_of_mem _ h)
    | succ n =>
      cases hm with
      | head => exact Or.inl (List.mem_cons_self _ _)
      | tail _ h =>
        rcases ih h with h | h
        · exact Or.inl (List.mem_cons_of_mem _ h)
        · exact Or.inr h

theorem gridShape_spec {g : Grid} (h : gridShape g = true) :
    g.length = 8 ∧ ∀ r ∈ g, r.length = 8 := by
  obtain ⟨h1, h2⟩ := bandE h
  refine ⟨by simpa using h1, ?_⟩
  intro r hr
  have := List.all_eq_true.mp h2 r hr
  simpa using this

theorem inb_coords {p : Pos} (h : _is_in_bounds p = true) :
    p.1.toNat < 8 ∧ p.2.toNat < 8 ∧
      p.1 = Int.ofNat p.1.toNat ∧ p.2 = Int.ofNat p.2.toNat := by
  obtain ⟨p1, p2⟩ := p
  cases p1 with
  | negSucc a =>
    cases p2 <;> simp [_is_in_bounds] at h
  | ofNat a =>
    cases p2 with
    | negSucc b => simp [_is_in_bounds] at h
    | ofNat b =>
      obtain ⟨h1, h2⟩ := bandE (h : (Nat.ble a 7 && Nat.ble b 7) = true)
      rw [Nat.ble_eq] at h1 h2
      refine ⟨?_, ?_, rfl, rfl⟩ <;> simp <;> omega

theorem inb_eq_of_toNat {p q : Pos} (hp : _is_in_bounds p = true)
    (hq : _is_in_bounds q = true) (h1 : p.1.toNat = q.1.toNat)
    (h2 : p.2.toNat = q.2.toNat) : p = q := by
  obtain ⟨_, _, hp1, hp2⟩ := inb_coords hp
  obtain ⟨_, _, hq1, hq2⟩ := inb_coords hq
  have e1 : p.1 = q.1 := by rw [hp1, hq1, h1]
  have e2 : p.2 = q.2 := by rw [hp2, hq2, h2]
  exact Prod.ext e1 e2

theorem grid_row {g : Grid} {p : Pos} (hs : gridShape g = true)
    (hp : _is_in_bounds p = true) :
    ∃ row, listGet g p.1.toNat = some row ∧ row.length = 8 := by
  obtain ⟨hlen, hrows⟩ := gridShape_spec hs
  obtain ⟨h1, _, _, _⟩ := inb_coords hp
  obtain ⟨row, hrow⟩ := listGet_of_lt (l := g) (by rw [hlen]; exact h1)
  exact ⟨row, hrow, hrows row (listGet_mem hrow)⟩

theorem gridGet_set_self {g : Grid} {p : Pos} (hs : gridShape g = true)
    (hp : _is_in_bounds p = true) (v : Option Piece) :
    gridGet (gridSet g p v) p = v := by
  obtain ⟨row, hrow, hrl⟩ := grid_row hs hp
  obtain ⟨h1, h2, _, _⟩ := inb_coords hp
  have e1 : listGet (listSet g p.1.toNat (listSet row p.2.toNat v)) p.1.toNat
      = some (listSet row p.2.toNat v) :=
    listGet_set_self (by rw [(gridShape_spec hs).1]; exact h1) _
  have e2 : listGet (listSet row p.2.toNat v) p.2.toNat = some v :=
    listGet_set_self (by rw [hrl]; exact h2) _
  simp only [gridSet, gridGet, hrow, e1, e2]

theorem gridGet_set_other {g : Grid} {p q : Pos} (hs : gridShape g = true)
    (hp : _is_in_bounds p = true) (hq : _is_in_bounds q = true) (hne : p ≠ q)
    (v : Option Piece) : gridGet (gridSet g p v) q = gridGet g q := by
  obtain ⟨row, hrow, hrl⟩ := grid_row hs hp
  by_cases hr : p.1.toNat = q.1.toNat
  · have hf : p.2.toNat ≠ q.2.toNat := fun hc => hne (inb_eq_of_toNat hp hq hr hc)
    have e1 : listGet (listSet g p.1.toNat (listSet row p.2.toNat v)) q.1.toNat
        = some (listSet row p.2.toNat v) := by
      rw [← hr]
      exact listGet_set_self (by rw [(gridShape_spec hs).1]; exact (inb_coords hp).1) _
    have e2 : listGet (listSet row p.2.toNat v) q.2.toNat = listGet row q.2.toNat :=
      listGet_set_other row hf v
    have e3 : listGet g q.1.toNat = some row := by rw [← hr]; exact hrow
    simp only [gridSet, gridGet, hrow, e1, e2, e3]
  · have e1 : listGet (listSet g p.1.toNat (listSet row p.2.toNat v)) q.1.toNat
        = listGet g q.1.toNat := listGet_set_other g hr _
    simp only [gridSet, gridGet, hrow, e1]

theorem gridSet_get_cancel {g : Grid} {p : Pos} (hs : gridShape g = true)
    (hp : _is_in_bounds p = true) : gridSet g p (gridGet g p) = g := by
  obtain ⟨row, hrow, hrl⟩ := grid_row hs hp
  obtain ⟨h1, h2, _, _⟩ := inb_coords hp
  obtain ⟨cell, hcell⟩ := listGet_of_lt (l := row) (by rw [hrl]; exact h2)
  simp only [gridGet, gridSet, hrow, hcell, listSet_get_cancel hcell,
    listSet_get_cancel hrow]

theorem gridSet_set_cancel {g : Grid} {p : Pos} (hs : gridShape g = true)
    (hp : _is_in_bounds p = true) (v w : Option Piece) :
    gridSet (gridSet g p v) p w = gridSet g p w := by
  obtain ⟨row, hrow, hrl⟩ := grid_row hs hp
  obtain ⟨h1, h2, _, _⟩ := inb_coords hp
  have e1 : listGet (listSet g p.1.toNat (listSet row p.2.toNat v)) p.1.toNat
      = some (listSet row p.2.toNat v) :=
    listGet_set_self (by rw [(gridShape_spec hs).1]; exact h1) _
  simp only [gridSet, hrow, e1, listSet_set_self]

theorem gridShape_set {g : Grid} (hs : gridShape g = true) (p : Pos) (v : Option Piece) :
    gridShape (gridSet g p v) = true := by
  obtain ⟨hlen, hrows⟩ := gridShape_spec hs
  rw [gridSet]
  cases hrow : listGet g p.1.toNat with
  | none => exact hs
  | some row =>
    have hr8 : row.length = 8 := hrows row (listGet_mem hrow)
    rw [gridShape]
    have hb : ∀ a b : Bool, a = true → b = true → (a && b) = true := by simp
    refine hb _ _ ?_ ?_
    · simp [listSet_length, hlen]
    · rw [List.all_eq_true]
      intro r hr
      rcases listSet_mem hr with h | h
      · simpa using hrows r h
      · subst h
        simp [listSet_length, hr8]

theorem gridSet_comm {g : Grid} {p q : Pos} (hs : gridShape g = true)
    (hp : _is_in_bounds p = true) (hq : _is_in_bounds q = true) (hne : p ≠ q)
    (v w : Option Piece) :
    gridSet (gridSet g p v) q w = gridSet (gridSet g q w) p v := by
  obtain ⟨rowp, hrowp, hrlp⟩ := grid_row hs hp
  obtain ⟨rowq, hrowq, hrlq⟩ := grid_row hs hq
  by_cases hr : p.1.toNat = q.1.toNat
  · have hf : p.2.toNat ≠ q.2.toNat := fun hc => hne (inb_eq_of_toNat hp hq hr hc)
    have hrq : rowq = rowp := by
      rw [← hr, hrowp] at hrowq
      cases hrowq
      rfl
    subst hrq
    have e1 : listGet (listSet g p.1.toNat (listSet rowq p.2.toNat v)) p.1.toNat
        = some (listSet rowq p.2.toNat v) :=
      listGet_set_self (by rw [(gridShape_spec hs).1]; exact (inb_coords hp).1) _
    have e2 : listGet (listSet g p.1.toNat (listSet rowq q.2.toNat w)) p.1.toNat
        = some (listSet rowq q.2.toNat w) :=
      listGet_set_self (by rw [(gridShape_spec hs).1]; exact (inb_coords hp).1) _
    simp only [gridSet, ← hr, hrowp, e1, e2, listSet_set_self]
    rw [listSet_comm rowq hf]
  · have e1 : listGet (listSet g p.1.toNat (listSet rowp p.2.toNat v)) q.1.toNat
        = listGet g q.1.toNat := listGet_set_other g hr _
    have e2 : listGet (listSet g q.1.toNat (listSet rowq q.2.toNat w)) p.1.toNat
        = listGet g p.1.toNat := listGet_set_other g (fun hc => hr hc.symm) _
    simp only [gridSet, hrowp, hrowq, e1, e2]
    rw [listSet_comm g hr]

theorem wf_parts {b : Board} (h : wf b = true) :
    gridShape b.board = true ∧ chainLt b.white_pieces = true ∧
      chainLt b.black_pieces = true ∧ mapAligned true b.board b.white_pieces = true ∧
      mapAligned false b.board b.black_pieces = true ∧ gridCovered b = true ∧
      kingsOk b = true := by
  rw [wf] at h
  obtain ⟨h, h7⟩ := bandE h
  obtain ⟨h, h6⟩ := bandE h
  obtain ⟨h, h5⟩ := bandE h
  obtain ⟨h, h4⟩ := bandE h
  obtain ⟨h, h3⟩ := bandE h
  obtain ⟨h1, h2⟩ := bandE h
  exact ⟨h1, h2, h3, h4, h5, h6, h7⟩

theorem mapAligned_spec {white : Bool} {g : Grid} {l : PieceMap}
    (h : mapAligned white g l = true) {pp : Pos × Piece} (hm : pp ∈ l) :
    _is_in_bounds pp.1 = true ∧ gridGet g pp.1 = some pp.2 ∧ is_white pp.2 = white := by
  have := List.all_eq_true.mp h pp hm
  obtain ⟨ha, hc⟩ := bandE this
  obtain ⟨h1, h2⟩ := bandE ha
  refine ⟨h1, ?_, ?_⟩
  · exact eq_of_beq h2
  · exact eq_of_beq hc

theorem gridCovered_spec {b : Board} (h : gridCovered b = true) {p : Pos} {pce : Piece}
    (hp : _is_in_bounds p = true) (hg : gridGet b.board p = some pce) :
    (if is_white pce then dictGet p b.white_pieces else dictGet p b.black_pieces)
      = some pce := by
  obtain ⟨h1, h2, hp1, hp2⟩ := inb_coords hp
  have hr : p.1.toNat ∈ List.range 8 := List.mem_range.mpr h1
  have hf : p.2.toNat ∈ List.range 8 := List.mem_range.mpr h2
  have hrow := List.all_eq_true.mp h p.1.toNat hr
  have hcell := List.all_eq_true.mp hrow p.2.toNat hf
  have hpe : ((p.1.toNat : Int), (p.2.toNat : Int)) = p := by
    refine Prod.ext ?_ ?_
    · exact hp1.symm
    · exact hp2.symm
  rw [hpe, hg] at hcell
  exact eq_of_beq hcell

theorem kingsOk_spec {b : Board} (h : kingsOk b = true) :
    (∀ pp ∈ b.white_pieces, get_name pp.2 = PName.K → pp.1 = b.white_king) ∧
      (∀ pp ∈ b.black_pieces, get_name pp.2 = PName.K → pp.1 = b.black_king) := by
  obtain ⟨h1, h2⟩ := bandE h
  constructor
  · intro pp hm hk
    have := List.all_eq_true.mp h1 pp hm
    rw [hk] at this
    simp only [pnameEq, Bool.not_true, Bool.false_or] at this
    exact posEq_iff.mp this
  · intro pp hm hk
    have := List.all_eq_true.mp h2 pp hm
    rw [hk] at this
    simp only [pnameEq, Bool.not_true, Bool.false_or] at this
    exact posEq_iff.mp this

theorem mem_addMove {s : List Move} {m m2 : Move} (h : m ∈ addMove s m2) :
    m = m2 ∨ m ∈ s := by
  rw [addMove] at h
  by_cases hc : s.contains m2 = true
  · rw [if_pos hc] at h
    exact Or.inr h
  · rw [if_neg hc] at h
    cases h with
    | head => exact Or.inl rfl
    | tail _ h => exact Or.inr h

theorem mem_addMove_of_mem {s : List Move} {m : Move} (m2 : Move) (h : m ∈ s) :
    m ∈ addMove s m2 := by
  rw [addMove]
  by_cases hc : s.contains m2 = true
  · rw [if_pos hc]
    exact h
  · rw [if_neg hc]
    exact List.mem_cons_of_mem _ h

theorem mem_addMoves {s new : List Move} {m : Move} (h : m ∈ addMoves s new) :
    m ∈ new ∨ m ∈ s := by
  induction new generalizing s with
  | nil => exact Or.inr h
  | cons a rest ih =>
    rcases ih h with h | h
    · exact Or.inl (List.mem_cons_of_mem _ h)
    · rcases mem_addMove h with h | h
      · exact Or.inl (h ▸ List.mem_cons_self _ _)
      · exact Or.inr h

theorem wf_initial : wf Board.initial = true := by decide!

theorem pnameEq_iff {a b : PName} : pnameEq a b = true ↔ a = b := by
  cases a <;> cases b <;> simp [pnameEq]

theorem optNameEq_iff {a b : Option PName} : optNameEq a b = true ↔ a = b := by
  cases a <;> cases b <;> simp [optNameEq, pnameEq_iff]

theorem moveEq_iff {a b : Move} : moveEq a b = true ↔ a = b := by
  cases a <;> cases b <;>
    simp [moveEq, pnameEq_iff, optNameEq_iff, posEq_iff, Bool.and_eq_true]
  · constructor
    · rintro ⟨⟨⟨⟨⟨h1, h2⟩, h3⟩, h4⟩, h5⟩, h6⟩
      exact ⟨h1, h2, h3, h4, h5, h6⟩
    · rintro ⟨h1, h2, h3, h4, h5, h6⟩
      exact ⟨⟨⟨⟨⟨h1, h2⟩, h3⟩, h4⟩, h5⟩, h6⟩

instance : LawfulBEq Move where
  eq_of_beq h := moveEq_iff.mp h
  rfl := moveEq_iff.mpr rfl

theorem move_contains_iff {l : List Move} {m : Move} : l.contains m = true ↔ m ∈ l := by
  induction l with
  | nil => simp
  | cons a rest ih =>
    show (m == a || rest.contains m) = true ↔ m ∈ a :: rest
    rw [Bool.or_eq_true, ih]
    constructor
    · rintro (h | h)
      · exact (eq_of_beq h) ▸ List.mem_cons_self _ _
      · exact List.mem_cons_of_mem _ h
    · intro h
      cases h with
      | head => exact Or.inl (moveEq_iffₓ)
      | tail _ h => exact Or.inr h
where
  moveEq_iffₓ : (m == m) = true := moveEq_iff.mpr rfl

theorem mem_removeMove {l : List Move} {m x : Move} (h : x ∈ removeMove l m) :
    x ∈ l ∧ x ≠ m := by
  rw [removeMove] at h
  have := List.mem_filter.mp h
  refine ⟨this.1, ?_⟩
  intro hc
  subst hc
  have h2 := this.2
  rw [show (x == x) = true from moveEq_iff.mpr rfl] at h2
  cases h2

theorem mem_removeMove_of_ne {l : List Move} {m x : Move} (hm : x ∈ l) (hne : x ≠ m) :
    x ∈ removeMove l m := by
  rw [removeMove]
  refine List.mem_filter.mpr ⟨hm, ?_⟩
  cases hq : (x == m)
  · rfl
  · exact absurd (eq_of_beq hq) hne

theorem dictGet_none_of_forall_lt {k : Pos} {l : PieceMap}
    (h : ∀ x ∈ l, posLt k x.1 = true) : dictGet k l = none := by
  cases hq : dictGet k l with
  | none => rfl
  | some v =>
    have hm := dictGet_mem hq
    have := h _ hm
    rw [posLt_irrefl] at this
    cases this

theorem dictGet_pop_self {k : Pos} {l : PieceMap} (hs : chainLt l = true) :
    dictGet k (dictPop k l) = none := by
  induction l with
  | nil => rfl
  | cons e rest ih =>
    rw [dictPop]
    by_cases h1 : posEq k e.1 = true
    · rw [if_pos h1]
      rw [posEq_iff] at h1
      subst h1
      exact dictGet_none_of_forall_lt (chainLt_head_lt hs)
    · rw [if_neg h1, dictGet, if_neg h1]
      exact ih (chainLt_tail hs)

theorem dict_ext {d1 d2 : PieceMap} (h1 : chainLt d1 = true) (h2 : chainLt d2 = true)
    (h : ∀ p, dictGet p d1 = dictGet p d2) : d1 = d2 := by
  induction d1 generalizing d2 with
  | nil =>
    cases d2 with
    | nil => rfl
    | cons b r2 =>
      have hb : dictGet b.1 (b :: r2) = some b.2 := by
        rw [dictGet, if_pos (posEq_refl _)]
      rw [← h b.1] at hb
      cases hb
  | cons a r1 ih =>
    cases d2 with
    | nil =>
      have ha : dictGet a.1 (a :: r1) = some a.2 := by
        rw [dictGet, if_pos (posEq_refl _)]
      rw [h a.1] at ha
      cases ha
    | cons b r2 =>
      have hka : dictGet a.1 (a :: r1) = some a.2 := by
        rw [dictGet, if_pos (posEq_refl _)]
      have hkb : dictGet b.1 (b :: r2) = some b.2 := by
        rw [dictGet, if_pos (posEq_refl _)]
      have hab : a.1 = b.1 := by
        by_contra hne
        rcases hq : posEq a.1 b.1 with _ | _
        · rcases hl : posLt a.1 b.1 with _ | _
          · have hlt : posLt b.1 a.1 = true := posLt_total hq hl
            have : dictGet b.1 (a :: r1) = some b.2 := by rw [h]; exact hkb
            have hmem := dictGet_mem this
            cases hmem with
            | head => exact hne rfl
            | tail _ hmem =>
              have := chainLt_head_lt h1 _ hmem
              have := posLt_trans hlt this
              rw [posLt_irrefl] at this
              cases this
          · have : dictGet a.1 (b :: r2) = some a.2 := by rw [← h]; exact hka
            have hmem := dictGet_mem this
            cases hmem with
            | head => exact hne (congrArg Prod.fst rfl)
            | tail _ hmem =>
              have := chainLt_head_lt h2 _ hmem
              have := posLt_trans hl this
              rw [posLt_irrefl] at this
              cases this
        · exact hne (posEq_iff.mp hq)
      have hval : a.2 = b.2 := by
        have : dictGet a.1 (b :: r2) = some a.2 := by rw [← h]; exact hka
        rw [dictGet, if_pos (by rw [hab] at *; exact posEq_refl _)] at this
        injection this with this
        exact this.symm
      have hae : a = b := Prod.ext hab hval
      subst hae
      have htails : ∀ p, dictGet p r1 = dictGet p r2 := by
        intro p
        by_cases hp : posEq p a.1 = true
        · rw [posEq_iff] at hp
          subst hp
          rw [dictGet_none_of_forall_lt (chainLt_head_lt h1),
            dictGet_none_of_forall_lt (chainLt_head_lt h2)]
        · have := h p
          rw [dictGet, if_neg hp, dictGet, if_neg hp] at this
          exact this
      rw [ih (chainLt_tail h1) (chainLt_tail h2) htails]

theorem listGet_eq_getElem? {α : Type} (l : List α) (n : Nat) : listGet l n = l[n]? := by
  induction l generalizing n with
  | nil => cases n <;> rfl
  | cons a l ih =>
    cases n with
    | zero => simp [listGet]
    | succ n =>
      rw [List.getElem?_cons_succ]
      exact ih n

theorem grid_ext {g1 g2 : Grid} (h1 : gridShape g1 = true) (h2 : gridShape g2 = true)
    (h : ∀ r f : Nat, r < 8 → f < 8 →
      gridGet g1 ((r : Int), (f : Int)) = gridGet g2 ((r : Int), (f : Int))) :
    g1 = g2 := by
  obtain ⟨hl1, hr1⟩ := gridShape_spec h1
  obtain ⟨hl2, hr2⟩ := gridShape_spec h2
  refine List.ext_getElem? ?_
  intro r
  by_cases hr : r < 8
  · obtain ⟨row1, hrow1⟩ := listGet_of_lt (l := g1) (by rw [hl1]; exact hr)
    obtain ⟨row2, hrow2⟩ := listGet_of_lt (l := g2) (by rw [hl2]; exact hr)
    have e1 : g1[r]? = some row1 := by rw [← listGet_eq_getElem?]; exact hrow1
    have e2 : g2[r]? = some row2 := by rw [← listGet_eq_getElem?]; exact hrow2
    rw [e1, e2]
    have hrl1 : row1.length = 8 := hr1 row1 (listGet_mem hrow1)
    have hrl2 : row2.length = 8 := hr2 row2 (listGet_mem hrow2)
    have hrows : row1 = row2 := by
      refine List.ext_getElem? ?_
      intro f
      by_cases hf : f < 8
      · obtain ⟨c1, hc1⟩ := listGet_of_lt (l := row1) (by rw [hrl1]; exact hf)
        obtain ⟨c2, hc2⟩ := listGet_of_lt (l := row2) (by rw [hrl2]; exact hf)
        have hcell := h r f hr hf
        have ht1 : ((r : Int)).toNat = r := rfl
        have ht2 : ((f : Int)).toNat = f := rfl
        rw [gridGet, gridGet] at hcell
        rw [ht1, ht2, hrow1, hrow2] at hcell
        dsimp only at hcell
        rw [hc1, hc2] at hcell
        subst hcell
        rw [← listGet_eq_getElem?, ← listGet_eq_getElem?, hc1, hc2]
      · have o1 : row1[f]? = none := by
          rw [List.getElem?_eq_none_iff, hrl1]
          omega
        have o2 : row2[f]? = none := by
          rw [List.getElem?_eq_none_iff, hrl2]
          omega
        rw [o1, o2]
    rw [hrows]
  · have o1 : g1[r]? = none := by
      rw [List.getElem?_eq_none_iff, hl1]
      omega
    have o2 : g2[r]? = none := by
      rw [List.getElem?_eq_none_iff, hl2]
      omega
    rw [o1, o2]

theorem listGet_map {α β : Type} (f : α → β) (l : List α) (n : Nat) :
    listGet (l.map f) n = (listGet l n).map f := by
  induction l generalizing n with
  | nil => cases n <;> rfl
  | cons a l ih =>
    cases n with
    | zero => rfl
    | succ n => simpa using ih n

theorem gridGet_mapGrid (f : Piece → Piece) (g : Grid) (p : Pos) :
    gridGet (g.map (fun row => row.map (Option.map f))) p = (gridGet g p).map f := by
  rw [gridGet, gridGet, listGet_map]
  cases hrow : listGet g p.1.toNat with
  | none => rfl
  | some row =>
    dsimp only [Option.map]
    rw [listGet_map]
    cases hc : listGet row p.2.toNat with
    | none => rfl
    | some v =>
      dsimp only [Option.map]

theorem posMem_iff {p : Pos} {l : List Pos} : posMem p l = true ↔ p ∈ l := by
  induction l with
  | nil => simp [posMem]
  | cons a rest ih =>
    rw [posMem, Bool.or_eq_true, posEq_iff, ih]
    constructor
    · rintro (h | h)
      · exact h ▸ List.mem_cons_self _ _
      · exact List.mem_cons_of_mem _ h
    · intro h
      cases h with
      | head => exact Or.inl rfl
      | tail _ h => exact Or.inr h

theorem mem_selectPositions {d : PieceMap} {f : Piece → Bool} {p : Pos} :
    p ∈ selectPositions d f ↔ ∃ pc, (p, pc) ∈ d ∧ f pc = true := by
  induction d with
  | nil =>
    simp [selectPositions]
  | cons e rest ih =>
    rw [selectPositions, List.foldr_cons]
    show p ∈ (if f e.2 then e.1 :: selectPositions rest f else selectPositions rest f) ↔ _
    by_cases hf : f e.2 = true
    · rw [if_pos hf]
      constructor
      · intro h
        cases h with
        | head => exact ⟨e.2, List.mem_cons_self _ _, hf⟩
        | tail _ h =>
          obtain ⟨pc, hm, hfc⟩ := ih.mp h
          exact ⟨pc, List.mem_cons_of_mem _ hm, hfc⟩
      · rintro ⟨pc, hm, hfc⟩
        cases hm with
        | head => exact List.mem_cons_self _ _
        | tail _ hm => exact List.mem_cons_of_mem _ (ih.mpr ⟨pc, hm, hfc⟩)
    · rw [if_neg hf]
      rw [ih]
      constructor
      · rintro ⟨pc, hm, hfc⟩
        exact ⟨pc, List.mem_cons_of_mem _ hm, hfc⟩
      · rintro ⟨pc, hm, hfc⟩
        cases hm with
        | head => exact absurd hfc hf
        | tail _ hm => exact ⟨pc, hm, hfc⟩

theorem inb_ofNat {r f : Nat} (hr : r < 8) (hf : f < 8) :
    _is_in_bounds ((r : Int), (f : Int)) = true := by
  show (Nat.ble r 7 && Nat.ble f 7) = true
  rw [Bool.and_eq_true, Nat.ble_eq, Nat.ble_eq]
  omega

theorem board_ext {b1 b2 : Board} (h1 : b1.board = b2.board)
    (h2 : b1.white_king = b2.white_king) (h3 : b1.black_king = b2.black_king)
    (h4 : b1.white_pieces = b2.white_pieces) (h5 : b1.black_pieces = b2.black_pieces) :
    b1 = b2 := by
  cases b1
  cases b2
  simp_all

theorem bool_not_ne (c : Bool) : (!c) ≠ c := by
  cases c <;> simp

/-- wf 6 component lookups: the grid determines the maps. -/
theorem wf_white_get {b : Board} (hwf : wf b = true) {p : Pos} {pce : Piece}
    (hp : _is_in_bounds p = true) (hg : gridGet b.board p = some pce)
    (hw : is_white pce = true) : dictGet p b.white_pieces = some pce := by
  have := gridCovered_spec (wf_parts hwf).2.2.2.2.2.1 hp hg
  rw [hw] at this
  simpa using this

theorem wf_black_get {b : Board} (hwf : wf b = true) {p : Pos} {pce : Piece}
    (hp : _is_in_bounds p = true) (hg : gridGet b.board p = some pce)
    (hw : is_white pce = false) : dictGet p b.black_pieces = some pce := by
  have := gridCovered_spec (wf_parts hwf).2.2.2.2.2.1 hp hg
  rw [hw] at this
  simpa using this

/-- The maps determine the grid. -/
theorem wf_white_grid {b : Board} (hwf : wf b = true) {p : Pos} {pce : Piece}
    (hd : dictGet p b.white_pieces = some pce) :
    _is_in_bounds p = true ∧ gridGet b.board p = some pce ∧ is_white pce = true :=
  mapAligned_spec (wf_parts hwf).2.2.2.1 (dictGet_mem hd)

theorem wf_black_grid {b : Board} (hwf : wf b = true) {p : Pos} {pce : Piece}
    (hd : dictGet p b.black_pieces = some pce) :
    _is_in_bounds p = true ∧ gridGet b.board p = some pce ∧ is_white pce = false :=
  mapAligned_spec (wf_parts hwf).2.2.2.2.1 (dictGet_mem hd)

theorem dictGet_white_none {b : Board} (hwf : wf b = true) {p : Pos}
    (h : ∀ v, gridGet b.board p = some v → is_white v = false) :
    dictGet p b.white_pieces = none := by
  cases hq : dictGet p b.white_pieces with
  | none => rfl
  | some v =>
    obtain ⟨_, hg, hw⟩ := wf_white_grid hwf hq
    rw [h v hg] at hw
    cases hw

theorem dictGet_black_none {b : Board} (hwf : wf b = true) {p : Pos}
    (h : ∀ v, gridGet b.board p = some v → is_white v = true) :
    dictGet p b.black_pieces = none := by
  cases hq : dictGet p b.black_pieces with
  | none => rfl
  | some v =>
    obtain ⟨_, hg, hw⟩ := wf_black_grid hwf hq
    rw [h v hg] at hw
    cases hw

/-- Field values of Board._make_move. -/
theorem mm_board (b : Board) (up : Piece) (ini fin : Pos) :
    (b._make_move up ini fin).board = gridSet (gridSet b.board ini none) fin (some up) := by
  rcases hw : is_white up <;> rcases hk : (get_name up == PName.K) <;>
    simp [Board._make_move, hw, hk]

theorem mm_wp (b : Board) (up : Piece) (ini fin : Pos) :
    (b._make_move up ini fin).white_pieces =
      if is_white up then dictInsert fin up (dictPop ini b.white_pieces)
      else dictPop fin b.white_pieces := by
  rcases hw : is_white up <;> rcases hk : (get_name up == PName.K) <;>
    simp [Board._make_move, hw, hk]

theorem mm_bp (b : Board) (up : Piece) (ini fin : Pos) :
    (b._make_move up ini fin).black_pieces =
      if is_white up then dictPop fin b.black_pieces
      else dictInsert fin up (dictPop ini b.black_pieces) := by
  rcases hw : is_white up <;> rcases hk : (get_name up == PName.K) <;>
    simp [Board._make_move, hw, hk]

theorem mm_wk (b : Board) (up : Piece) (ini fin : Pos) :
    (b._make_move up ini fin).white_king =
      if is_white up && (get_name up == PName.K) then fin else b.white_king := by
  rcases hw : is_white up <;> rcases hk : (get_name up == PName.K) <;>
    simp [Board._make_move, hw, hk]

theorem mm_bk (b : Board) (up : Piece) (ini fin : Pos) :
    (b._make_move up ini fin).black_king =
      if !is_white up && (get_name up == PName.K) then fin else b.black_king := by
  rcases hw : is_white up <;> rcases hk : (get_name up == PName.K) <;>
    simp [Board._make_move, hw, hk]

/-- Field values of Board._undo_move. -/
theorem um_board (b : Board) (orig : Piece) (ini fin : Pos) (cap : Option Piece) :
    (b._undo_move orig ini fin cap).board =
      gridSet (gridSet b.board ini (some orig)) fin cap := by
  rcases hw : is_white orig <;> rcases hk : (get_name orig == PName.K) <;>
    cases cap <;> simp [Board._undo_move, hw, hk]

theorem um_wp (b : Board) (orig : Piece) (ini fin : Pos) (cap : Option Piece) :
    (b._undo_move orig ini fin cap).white_pieces =
      if is_white orig then dictInsert ini orig (dictPop fin b.white_pieces)
      else match cap with
        | some cp => dictInsert fin cp b.white_pieces
        | none => b.white_pieces := by
  rcases hw : is_white orig <;> rcases hk : (get_name orig == PName.K) <;>
    cases cap <;> simp [Board._undo_move, hw, hk]

theorem um_bp (b : Board) (orig : Piece) (ini fin : Pos) (cap : Option Piece) :
    (b._undo_move orig ini fin cap).black_pieces =
      if is_white orig then
        match cap with
        | some cp => dictInsert fin cp b.black_pieces
        | none => b.black_pieces
      else dictInsert ini orig (dictPop fin b.black_pieces) := by
  rcases hw : is_white orig <;> rcases hk : (get_name orig == PName.K) <;>
    cases cap <;> simp [Board._undo_move, hw, hk]

theorem um_wk (b : Board) (orig : Piece) (ini fin : Pos) (cap : Option Piece) :
    (b._undo_move orig ini fin cap).white_king =
      if is_white orig && (get_name orig == PName.K) then ini else b.white_king := by
  rcases hw : is_white orig <;> rcases hk : (get_name orig == PName.K) <;>
    cases cap <;> simp [Board._undo_move, hw, hk]

theorem um_bk (b : Board) (orig : Piece) (ini fin : Pos) (cap : Option Piece) :
    (b._undo_move orig ini fin cap).black_king =
      if !is_white orig && (get_name orig == PName.K) then ini else b.black_king := by
  rcases hw : is_white orig <;> rcases hk : (get_name orig == PName.K) <;>
    cases cap <;> simp [Board._undo_move, hw, hk]

/-- The grid round trip of a simple move: clear the source, write the moved
piece, then put the original back and restore the target. -/
theorem grid_roundtrip {g : Grid} {ini fin : Pos} {pce : Piece} (hs : gridShape g = true)
    (hi : _is_in_bounds ini = true) (hf : _is_in_bounds fin = true) (hne : ini ≠ fin)
    (hgi : gridGet g ini = some pce) (up : Piece) :
    gridSet (gridSet (gridSet (gridSet g ini none) fin (some up)) ini (some pce)) fin
      (gridGet g fin) = g := by
  have sA : gridShape (gridSet g ini none) = true := gridShape_set hs ini none
  have e1 : gridSet (gridSet (gridSet g ini none) fin (some up)) ini (some pce)
      = gridSet (gridSet (gridSet g ini none) ini (some pce)) fin (some up) :=
    (gridSet_comm sA hi hf hne (some pce) (some up)).symm
  have e2 : gridSet (gridSet g ini none) ini (some pce) = gridSet g ini (some pce) :=
    gridSet_set_cancel hs hi none (some pce)
  have e3 : gridSet g ini (some pce) = g := by
    rw [← hgi]
    exact gridSet_get_cancel hs hi
  have sB : gridShape (gridSet g fin (some up)) = true := gridShape_set hs fin (some up)
  rw [e1, e2, e3, gridSet_set_cancel hs hf (some up) (gridGet g fin),
    gridSet_get_cancel hs hf]

/-- The mover-map round trip of a simple move. -/
theorem dict_roundtrip {d : PieceMap} {ini fin : Pos} {pce : Piece}
    (hs : chainLt d = true) (hget : dictGet ini d = some pce)
    (hfin : dictGet fin d = none) (up : Piece) :
    dictInsert ini pce (dictPop fin (dictInsert fin up (dictPop ini d))) = d := by
  have hne : ini ≠ fin := by
    intro hc
    rw [hc, hfin] at hget
    cases hget
  have h1 : dictGet fin (dictPop ini d) = none := by
    rw [dictGet_pop_other (fun hc => hne hc.symm), hfin]
  rw [dictPop_insert_cancel h1 up, dictInsert_pop_cancel hs hget]

theorem command_simple_apply {b : Board} {n : PName} {ini fin : Pos}
    {cap : Option PName} {promo : Option PName} {pce : Piece}
    (hgi : gridGet b.board ini = some pce) (s : Board) :
    (b.get_move_command (Move.normal n ini fin cap false promo)).1 s =
      s._make_move (updatedPiece pce ini fin promo) ini fin := by
  dsimp only [Board.get_move_command, get_initial_position, get_final_position,
    get_promotion, updatedPiece]
  rw [hgi]

theorem command_simple_undo {b : Board} {n : PName} {ini fin : Pos}
    {cap : Option PName} {promo : Option PName} {pce : Piece}
    (hgi : gridGet b.board ini = some pce) (s : Board) :
    (b.get_move_command (Move.normal n ini fin cap false promo)).2 s =
      s._undo_move pce ini fin (gridGet b.board fin) := by
  dsimp only [Board.get_move_command, get_initial_position, get_final_position,
    get_promotion]
  rw [hgi]

/-- Round trip of a simple move at the board level: applying the updated
piece and undoing with the original restores every field. -/
theorem apply_undo_simple {b : Board} {c : Bool} {pce up : Piece} {ini fin : Pos}
    (hwf : wf b = true)
    (hi : _is_in_bounds ini = true) (hf : _is_in_bounds fin = true)
    (hgi : gridGet b.board ini = some pce) (hw : is_white pce = c)
    (hfin : ∀ sq, gridGet b.board fin = some sq → is_white sq = !c)
    (hupw : is_white up = c)
    (hupk : get_name up = PName.K → get_name pce = PName.K) :
    (b._make_move up ini fin)._undo_move pce ini fin (gridGet b.board fin) = b := by
  obtain ⟨hs, hcw, hcb, _, _, _, hkk⟩ := wf_parts hwf
  have hne : ini ≠ fin := by
    intro hc
    have := hfin pce (hc ▸ hgi)
    rw [hw] at this
    exact bool_not_ne c this.symm
  refine board_ext ?_ ?_ ?_ ?_ ?_
  · rw [um_board, mm_board]
    exact grid_roundtrip hs hi hf hne hgi up
  · -- white king cache
    rw [um_wk, mm_wk, hupw, hw]
    cases c with
    | false => rfl
    | true =>
      rcases hk1 : (get_name pce == PName.K) with _ | _
      · have hk2 : (get_name up == PName.K) = false := by
          rcases hq : (get_name up == PName.K) with _ | _
          · rfl
          · have := hupk (beq_iff_eq.mp hq)
            rw [← beq_iff_eq (a := get_name pce) (b := PName.K)] at this
            rw [this] at hk1
            cases hk1
        simp [hk2]
      · have hini : ini = b.white_king := by
          have hmem := dictGet_mem (wf_white_get hwf hi hgi hw)
          exact (kingsOk_spec hkk).1 _ hmem (beq_iff_eq.mp hk1)
        rcases hk2 : (get_name up == PName.K) with _ | _ <;> simp [hini]
  · -- black king cache
    rw [um_bk, mm_bk, hupw, hw]
    cases c with
    | true => rfl
    | false =>
      rcases hk1 : (get_name pce == PName.K) with _ | _
      · have hk2 : (get_name up == PName.K) = false := by
          rcases hq : (get_name up == PName.K) with _ | _
          · rfl
          · have := hupk (beq_iff_eq.mp hq)
            rw [← beq_iff_eq (a := get_name pce) (b := PName.K)] at this
            rw [this] at hk1
            cases hk1
        simp [hk2]
      · have hini : ini = b.black_king := by
          have hmem := dictGet_mem (wf_black_get hwf hi hgi hw)
          exact (kingsOk_spec hkk).2 _ hmem (beq_iff_eq.mp hk1)
        rcases hk2 : (get_name up == PName.K) with _ | _ <;> simp [hini]
  · -- white pieces
    rw [um_wp, mm_wp, hupw, hw]
    cases c with
    | true =>
      rw [if_pos rfl]
      exact dict_roundtrip hcw (wf_white_get hwf hi hgi hw)
        (dictGet_white_none hwf (fun v hv => by rw [hfin v hv]; rfl)) up
    | false =>
      rw [if_neg Bool.false_ne_true]
      cases hcap : gridGet b.board fin with
      | none =>
        exact dictPop_absent (dictGet_white_none hwf (fun v hv => by
          rw [hcap] at hv
          cases hv))
      | some cp =>
        have hcpw : is_white cp = true := by
          have := hfin cp hcap
          rw [this]
          rfl
        exact dictInsert_pop_cancel hcw (wf_white_get hwf hf hcap hcpw)
  · -- black pieces
    rw [um_bp, mm_bp, hupw, hw]
    cases c with
    | false =>
      rw [if_neg Bool.false_ne_true]
      exact dict_roundtrip hcb (wf_black_get hwf hi hgi hw)
        (dictGet_black_none hwf (fun v hv => by rw [hfin v hv]; rfl)) up
    | true =>
      rw [if_pos rfl]
      cases hcap : gridGet b.board fin with
      | none =>
        exact dictPop_absent (dictGet_black_none hwf (fun v hv => by
          rw [hcap] at hv
          cases hv))
      | some cp =>
        have hcpw : is_white cp = false := by
          have := hfin cp hcap
          rw [this]
          rfl
        exact dictInsert_pop_cancel hcb (wf_black_get hwf hf hcap hcpw)

theorem gridGet_set_eq {g : Grid} {p q : Pos} (hs : gridShape g = true)
    (hp : _is_in_bounds p = true) (hq : _is_in_bounds q = true) (v : Option Piece) :
    gridGet (gridSet g p v) q = if q = p then v else gridGet g q := by
  by_cases h : q = p
  · subst h
    rw [if_pos rfl]
    exact gridGet_set_self hs hp v
  · rw [if_neg h]
    exact gridGet_set_other hs hp hq (fun hc => h hc.symm) v

theorem dictGet_insert_eq (k k2 : Pos) (v : Piece) (l : PieceMap) :
    dictGet k (dictInsert k2 v l) = if k = k2 then some v else dictGet k l := by
  by_cases h : k = k2
  · subst h
    rw [if_pos rfl]
    exact dictGet_insert_self k v l
  · rw [if_neg h]
    exact dictGet_insert_other h v l

theorem dictGet_pop_eq {l : PieceMap} (hs : chainLt l = true) (k k2 : Pos) :
    dictGet k (dictPop k2 l) = if k = k2 then none else dictGet k l := by
  by_cases h : k = k2
  · subst h
    rw [if_pos rfl]
    exact dictGet_pop_self hs
  · rw [if_neg h]
    exact dictGet_pop_other h l

theorem is_white_make (n : PName) (w m e : Bool) : is_white (make_piece n w m e) = w := rfl

theorem get_name_make (n : PName) (w m e : Bool) : get_name (make_piece n w m e) = n := rfl

theorem has_moved_make (n : PName) (w m e : Bool) : has_moved (make_piece n w m e) = m := rfl

theorem can_ep_make (n : PName) (w m e : Bool) : can_ep (make_piece n w m e) = e := rfl

theorem command_ep_apply {b : Board} {n : PName} {ini fin : Pos}
    {cap : Option PName} {promo : Option PName} {pwn cp : Piece}
    (hgi : gridGet b.board ini = some pwn)
    (hgc : gridGet b.board (ini.1, fin.2) = some cp) (s : Board) :
    (b.get_move_command (Move.normal n ini fin cap true promo)).1 s =
      epApplyF pwn ini fin s := by
  dsimp only [Board.get_move_command, get_initial_position, get_final_position, epApplyF]
  rw [hgi, hgc]

theorem command_ep_undo {b : Board} {n : PName} {ini fin : Pos}
    {cap : Option PName} {promo : Option PName} {pwn cp : Piece}
    (hgi : gridGet b.board ini = some pwn)
    (hgc : gridGet b.board (ini.1, fin.2) = some cp) (s : Board) :
    (b.get_move_command (Move.normal n ini fin cap true promo)).2 s =
      epUndoF pwn cp ini fin s := by
  dsimp only [Board.get_move_command, get_initial_position, get_final_position, epUndoF]
  rw [hgi, hgc]

theorem epApplyF_board (pwn : Piece) (ini fin : Pos) (s : Board) :
    (epApplyF pwn ini fin s).board =
      gridSet (gridSet (gridSet s.board ini none) fin (some (epUp pwn))) (ini.1, fin.2)
        none := by
  cases hwc : is_white pwn <;> simp [epApplyF, epUp, mm_board, hwc, is_white_make, get_name_make]

theorem epApplyF_wp (pwn : Piece) (ini fin : Pos) (s : Board) :
    (epApplyF pwn ini fin s).white_pieces =
      if is_white pwn then dictInsert fin (epUp pwn) (dictPop ini s.white_pieces)
      else dictPop (ini.1, fin.2) (dictPop fin s.white_pieces) := by
  cases hwc : is_white pwn <;> simp [epApplyF, epUp, mm_wp, hwc, is_white_make, get_name_make]

theorem epApplyF_bp (pwn : Piece) (ini fin : Pos) (s : Board) :
    (epApplyF pwn ini fin s).black_pieces =
      if is_white pwn then dictPop (ini.1, fin.2) (dictPop fin s.black_pieces)
      else dictInsert fin (epUp pwn) (dictPop ini s.black_pieces) := by
  cases hwc : is_white pwn <;> simp [epApplyF, epUp, mm_bp, hwc, is_white_make, get_name_make]

theorem epApplyF_wk (pwn : Piece) (hN : get_name pwn = PName.P) (ini fin : Pos)
    (s : Board) : (epApplyF pwn ini fin s).white_king = s.white_king := by
  cases hwc : is_white pwn <;> simp [epApplyF, mm_wk, hwc, hN, is_white_make, get_name_make]

theorem epApplyF_bk (pwn : Piece) (hN : get_name pwn = PName.P) (ini fin : Pos)
    (s : Board) : (epApplyF pwn ini fin s).black_king = s.black_king := by
  cases hwc : is_white pwn <;> simp [epApplyF, mm_bk, hwc, hN, is_white_make, get_name_make]

theorem epUndoF_board (pwn cp : Piece) (ini fin : Pos) (s : Board) :
    (epUndoF pwn cp ini fin s).board =
      gridSet (gridSet (gridSet s.board ini (some pwn)) fin none) (ini.1, fin.2)
        (some cp) := by
  cases hwc : is_white pwn <;> simp [epUndoF, um_board, hwc, is_white_make, get_name_make]

theorem epUndoF_wp (pwn cp : Piece) (ini fin : Pos) (s : Board) :
    (epUndoF pwn cp ini fin s).white_pieces =
      if is_white pwn then dictInsert ini pwn (dictPop fin s.white_pieces)
      else dictInsert (ini.1, fin.2) cp s.white_pieces := by
  cases hwc : is_white pwn <;> simp [epUndoF, um_wp, hwc, is_white_make, get_name_make]

theorem epUndoF_bp (pwn cp : Piece) (ini fin : Pos) (s : Board) :
    (epUndoF pwn cp ini fin s).black_pieces =
      if is_white pwn then dictInsert (ini.1, fin.2) cp s.black_pieces
      else dictInsert ini pwn (dictPop fin s.black_pieces) := by
  cases hwc : is_white pwn <;> simp [epUndoF, um_bp, hwc, is_white_make, get_name_make]

theorem epUndoF_wk (pwn cp : Piece) (hN : get_name pwn = PName.P) (ini fin : Pos)
    (s : Board) : (epUndoF pwn cp ini fin s).white_king = s.white_king := by
  cases hwc : is_white pwn <;> simp [epUndoF, um_wk, hwc, hN, is_white_make, get_name_make]

theorem epUndoF_bk (pwn cp : Piece) (hN : get_name pwn = PName.P) (ini fin : Pos)
    (s : Board) : (epUndoF pwn cp ini fin s).black_king = s.black_king := by
  cases hwc : is_white pwn <;> simp [epUndoF, um_bk, hwc, hN, is_white_make, get_name_make]

/-- Round trip of an en-passant capture. -/
theorem apply_undo_ep {b : Board} {c : Bool} {pwn cp : Piece} {ini fin : Pos}
    (hwf : wf b = true)
    (hi : _is_in_bounds ini = true) (hf : _is_in_bounds fin = true)
    (hsq : _is_in_bounds (ini.1, fin.2) = true)
    (hgi : gridGet b.board ini = some pwn) (hN : get_name pwn = PName.P)
    (hw : is_white pwn = c)
    (hgf : gridGet b.board fin = none)
    (hgc : gridGet b.board (ini.1, fin.2) = some cp) (hcw : is_white cp = !c) :
    epUndoF pwn cp ini fin (epApplyF pwn ini fin b) = b := by
  obtain ⟨hs, hclw, hclb, _, _, _, hkk⟩ := wf_parts hwf
  have hif : ini ≠ fin := by
    intro hc
    rw [hc, hgf] at hgi
    cases hgi
  have hisq : ini ≠ (ini.1, fin.2) := by
    intro hc
    rw [← hc, hgi] at hgc
    injection hgc with hgc
    rw [← hgc, hw] at hcw
    exact bool_not_ne c hcw.symm
  have hfsq : fin ≠ (ini.1, fin.2) := by
    intro hc
    rw [← hc, hgf] at hgc
    cases hgc
  have s1 : gridShape (gridSet b.board ini none) = true := gridShape_set hs _ _
  have s2 : gridShape (gridSet (gridSet b.board ini none) fin (some (epUp pwn))) = true :=
    gridShape_set s1 _ _
  have s3 : gridShape (gridSet (gridSet (gridSet b.board ini none) fin
      (some (epUp pwn))) (ini.1, fin.2) none) = true := gridShape_set s2 _ _
  have s4 : gridShape (gridSet (gridSet (gridSet (gridSet b.board ini none) fin
      (some (epUp pwn))) (ini.1, fin.2) none) ini (some pwn)) = true :=
    gridShape_set s3 _ _
  have s5 : gridShape (gridSet (gridSet (gridSet (gridSet (gridSet b.board ini none) fin
      (some (epUp pwn))) (ini.1, fin.2) none) ini (some pwn)) fin none) = true :=
    gridShape_set s4 _ _
  refine board_ext ?_ ?_ ?_ ?_ ?_
  · -- grid restored
    rw [epUndoF_board, epApplyF_board]
    refine grid_ext (gridShape_set s5 _ _) hs ?_
    intro r f hr hf8
    have hq : _is_in_bounds ((r : Int), (f : Int)) = true := inb_ofNat hr hf8
    rw [gridGet_set_eq s5 hsq hq, gridGet_set_eq s4 hf hq, gridGet_set_eq s3 hi hq,
      gridGet_set_eq s2 hsq hq, gridGet_set_eq s1 hf hq, gridGet_set_eq hs hi hq]
    by_cases h1 : ((r : Int), (f : Int)) = (ini.1, fin.2)
    · rw [if_pos h1, h1, hgc]
    · rw [if_neg h1, if_neg h1]
      by_cases h2 : ((r : Int), (f : Int)) = fin
      · rw [if_pos h2, h2, hgf]
      · rw [if_neg h2, if_neg h2]
        by_cases h3 : ((r : Int), (f : Int)) = ini
        · rw [if_pos h3, h3, hgi]
        · rw [if_neg h3, if_neg h3]
  · rw [epUndoF_wk pwn cp hN, epApplyF_wk pwn hN]
  · rw [epUndoF_bk pwn cp hN, epApplyF_bk pwn hN]
  · -- white pieces
    rw [epUndoF_wp, epApplyF_wp]
    cases c with
    | true =>
      rw [hw]
      have hup_fold : epUp pwn = make_piece (get_name pwn) (is_white pwn) true false := rfl
      exact dict_roundtrip hclw (wf_white_get hwf hi hgi hw)
        (by
          apply dictGet_white_none hwf
          intro v hv
          rw [hgf] at hv
          cases hv) (epUp pwn)
    | false =>
      rw [hw]
      have hfin_wp : dictGet fin b.white_pieces = none := by
        apply dictGet_white_none hwf
        intro v hv
        rw [hgf] at hv
        cases hv
      rw [dictPop_absent hfin_wp]
      have hsq_wp : dictGet (ini.1, fin.2) b.white_pieces = some cp := by
        apply wf_white_get hwf hsq hgc
        rw [hcw]
        rfl
      exact dictInsert_pop_cancel hclw hsq_wp
  · -- black pieces
    rw [epUndoF_bp, epApplyF_bp]
    cases c with
    | false =>
      rw [hw]
      exact dict_roundtrip hclb (wf_black_get hwf hi hgi hw)
        (by
          apply dictGet_black_none hwf
          intro v hv
          rw [hgf] at hv
          cases hv) (epUp pwn)
    | true =>
      rw [hw]
      have hfin_bp : dictGet fin b.black_pieces = none := by
        apply dictGet_black_none hwf
        intro v hv
        rw [hgf] at hv
        cases hv
      rw [dictPop_absent hfin_bp]
      have hsq_bp : dictGet (ini.1, fin.2) b.black_pieces = some cp := by
        apply wf_black_get hwf hsq hgc
        rw [hcw]
        rfl
      exact dictInsert_pop_cancel hclb hsq_bp

theorem command_castleK_apply {b : Board} {w : Bool} {kg rk : Piece}
    (hk : gridGet b.board (rankOf w, 4) = some kg)
    (hr : gridGet b.board (rankOf w, 7) = some rk) (s : Board) :
    (b.get_move_command (Move.castleK w)).1 s = castleKApplyF w s := by
  dsimp only [Board.get_move_command, rankOf, castleKApplyF] at *
  rw [hk, hr]

theorem command_castleK_undo {b : Board} {w : Bool} {kg rk : Piece}
    (hk : gridGet b.board (rankOf w, 4) = some kg)
    (hr : gridGet b.board (rankOf w, 7) = some rk) (s : Board) :
    (b.get_move_command (Move.castleK w)).2 s = castleKUndoF kg rk w s := by
  dsimp only [Board.get_move_command, rankOf, castleKUndoF] at *
  rw [hk, hr]

theorem command_castleQ_apply {b : Board} {w : Bool} {kg rk : Piece}
    (hk : gridGet b.board (rankOf w, 4) = some kg)
    (hr : gridGet b.board (rankOf w, 0) = some rk) (s : Board) :
    (b.get_move_command (Move.castleQ w)).1 s = castleQApplyF w s := by
  dsimp only [Board.get_move_command, rankOf, castleQApplyF] at *
  rw [hk, hr]

theorem command_castleQ_undo {b : Board} {w : Bool} {kg rk : Piece}
    (hk : gridGet b.board (rankOf w, 4) = some kg)
    (hr : gridGet b.board (rankOf w, 0) = some rk) (s : Board) :
    (b.get_move_command (Move.castleQ w)).2 s = castleQUndoF kg rk w s := by
  dsimp only [Board.get_move_command, rankOf, castleQUndoF] at *
  rw [hk, hr]

theorem inb_rank (c : Bool) (k : Nat) (hk : k < 8) :
    _is_in_bounds (rankOf c, (k : Int)) = true := by
  cases c
  · show (Nat.ble 7 7 && Nat.ble k 7) = true
    rw [Bool.and_eq_true, Nat.ble_eq, Nat.ble_eq]
    omega
  · show (Nat.ble 0 7 && Nat.ble k 7) = true
    rw [Bool.and_eq_true, Nat.ble_eq, Nat.ble_eq]
    omega

theorem rank_pair_ne (c : Bool) {k1 k2 : Int} (h : k1 ≠ k2) :
    ((rankOf c, k1) : Pos) ≠ (rankOf c, k2) := by
  intro hc
  injection hc with h1 h2
  exact h h2

/-- Round trip of a kingside castle. -/
theorem apply_undo_castleK {b : Board} {c : Bool} {kg rk : Piece}
    (hwf : wf b = true)
    (hk : gridGet b.board (rankOf c, 4) = some kg) (hkN : get_name kg = PName.K)
    (hkw : is_white kg = c)
    (hr : gridGet b.board (rankOf c, 7) = some rk) (hrN : get_name rk = PName.R)
    (hrw : is_white rk = c)
    (h5 : gridGet b.board (rankOf c, 5) = none)
    (h6 : gridGet b.board (rankOf c, 6) = none) :
    castleKUndoF kg rk c (castleKApplyF c b) = b := by
  obtain ⟨hs, hclw, hclb, _, _, _, hkk⟩ := wf_parts hwf
  have i4 : _is_in_bounds ((rankOf c, 4) : Pos) = true := inb_rank c 4 (by omega)
  have i5 : _is_in_bounds ((rankOf c, 5) : Pos) = true := inb_rank c 5 (by omega)
  have i6 : _is_in_bounds ((rankOf c, 6) : Pos) = true := inb_rank c 6 (by omega)
  have i7 : _is_in_bounds ((rankOf c, 7) : Pos) = true := inb_rank c 7 (by omega)
  -- boolean conditions of the four record updates
  have crk : (is_white rk && (get_name rk == PName.K)) = false := by
    rw [hrw, hrN]
    cases c <;> rfl
  have ckg : (is_white kg && (get_name kg == PName.K)) = c := by
    rw [hkw, hkN]
    cases c <;> rfl
  have cur : (is_white (make_piece PName.R c true false) &&
      (get_name (make_piece PName.R c true false) == PName.K)) = false := by
    cases c <;> rfl
  have cuk : (is_white (make_piece PName.K c true false) &&
      (get_name (make_piece PName.K c true false) == PName.K)) = c := by
    cases c <;> rfl
  have wuk : is_white (make_piece PName.K c true false) = c := rfl
  have wur : is_white (make_piece PName.R c true false) = c := rfl
  -- occupancy-derived dictionary facts
  have dwp4 : dictGet ((rankOf c, 4) : Pos) b.white_pieces =
      if c then some kg else none := by
    cases c
    · exact dictGet_white_none hwf (fun v hv => by rw [hk] at hv; cases hv; exact hkw)
    · exact wf_white_get hwf i4 hk hkw
  have dbp4 : dictGet ((rankOf c, 4) : Pos) b.black_pieces =
      if c then none else some kg := by
    cases c
    · exact wf_black_get hwf i4 hk hkw
    · exact dictGet_black_none hwf (fun v hv => by rw [hk] at hv; cases hv; exact hkw)
  have dwp7 : dictGet ((rankOf c, 7) : Pos) b.white_pieces =
      if c then some rk else none := by
    cases c
    · exact dictGet_white_none hwf (fun v hv => by rw [hr] at hv; cases hv; exact hrw)
    · exact wf_white_get hwf i7 hr hrw
  have dbp7 : dictGet ((rankOf c, 7) : Pos) b.black_pieces =
      if c then none else some rk := by
    cases c
    · exact wf_black_get hwf i7 hr hrw
    · exact dictGet_black_none hwf (fun v hv => by rw [hr] at hv; cases hv; exact hrw)
  have dwp5 : dictGet ((rankOf c, 5) : Pos) b.white_pieces = none :=
    dictGet_white_none hwf (fun v hv => by rw [h5] at hv; cases hv)
  have dbp5 : dictGet ((rankOf c, 5) : Pos) b.black_pieces = none :=
    dictGet_black_none hwf (fun v hv => by rw [h5] at hv; cases hv)
  have dwp6 : dictGet ((rankOf c, 6) : Pos) b.white_pieces = none :=
    dictGet_white_none hwf (fun v hv => by rw [h6] at hv; cases hv)
  have dbp6 : dictGet ((rankOf c, 6) : Pos) b.black_pieces = none :=
    dictGet_black_none hwf (fun v hv => by rw [h6] at hv; cases hv)
  refine board_ext ?_ ?_ ?_ ?_ ?_
  · -- grid restored
    rw [castleKUndoF, um_board, um_board, castleKApplyF, mm_board, mm_board]
    have s1 : gridShape (gridSet b.board (rankOf c, 4) none) = true := gridShape_set hs _ _
    have s2 := gridShape_set s1 ((rankOf c, 6) : Pos) (some (make_piece PName.K c true false))
    have s3 := gridShape_set s2 ((rankOf c, 7) : Pos) none
    have s4 := gridShape_set s3 ((rankOf c, 5) : Pos) (some (make_piece PName.R c true false))
    have s5 := gridShape_set s4 ((rankOf c, 4) : Pos) (some kg)
    have s6 := gridShape_set s5 ((rankOf c, 6) : Pos) none
    have s7 := gridShape_set s6 ((rankOf c, 7) : Pos) (some rk)
    refine grid_ext (gridShape_set s7 _ _) hs ?_
    intro r f hr8 hf8
    have hq : _is_in_bounds ((r : Int), (f : Int)) = true := inb_ofNat hr8 hf8
    rw [gridGet_set_eq s7 i5 hq, gridGet_set_eq s6 i7 hq, gridGet_set_eq s5 i6 hq,
      gridGet_set_eq s4 i4 hq, gridGet_set_eq s3 i5 hq, gridGet_set_eq s2 i7 hq,
      gridGet_set_eq s1 i6 hq, gridGet_set_eq hs i4 hq]
    by_cases q5 : ((r : Int), (f : Int)) = (rankOf c, 5)
    · rw [if_pos q5, q5, h5]
    · rw [if_neg q5, if_neg q5]
      by_cases q7 : ((r : Int), (f : Int)) = (rankOf c, 7)
      · rw [if_pos q7, q7, hr]
      · rw [if_neg q7, if_neg q7]
        by_cases q6 : ((r : Int), (f : Int)) = (rankOf c, 6)
        · rw [if_pos q6, q6, h6]
        · rw [if_neg q6, if_neg q6]
          by_cases q4 : ((r : Int), (f : Int)) = (rankOf c, 4)
          · rw [if_pos q4, q4, hk]
          · rw [if_neg q4, if_neg q4]
  · -- white king cache
    rw [castleKUndoF, um_wk, um_wk, castleKApplyF, mm_wk, mm_wk, crk, ckg, cur, cuk]
    cases c with
    | true =>
      have hbk := (kingsOk_spec hkk).1 _ (dictGet_mem
        (show dictGet ((rankOf true, 4) : Pos) b.white_pieces = some kg by
          simpa using dwp4)) hkN
      exact hbk
    | false => rfl
  · -- black king cache
    rw [castleKUndoF, um_bk, um_bk, castleKApplyF, mm_bk, mm_bk]
    rw [show (!is_white rk && (get_name rk == PName.K)) = false from by
        rw [hrN]; cases is_white rk <;> rfl]
    rw [show (!is_white kg && (get_name kg == PName.K)) = !c from by
        rw [hkw, hkN]; cases c <;> rfl]
    rw [show (!is_white (make_piece PName.R c true false) &&
        (get_name (make_piece PName.R c true false) == PName.K)) = false from by
        cases c <;> rfl]
    rw [show (!is_white (make_piece PName.K c true false) &&
        (get_name (make_piece PName.K c true false) == PName.K)) = !c from by
        cases c <;> rfl]
    cases c with
    | false =>
      have hbk := (kingsOk_spec hkk).2 _ (dictGet_mem
        (show dictGet ((rankOf false, 4) : Pos) b.black_pieces = some kg by
          simpa using dbp4)) hkN
      exact hbk
    | true => rfl
  · -- white pieces
    rw [castleKUndoF, um_wp, um_wp, castleKApplyF, mm_wp, mm_wp, hrw, hkw, wur, wuk]
    cases c with
    | true =>
      show dictInsert (rankOf true, 7) rk (dictPop (rankOf true, 5)
        (dictInsert (rankOf true, 4) kg (dictPop (rankOf true, 6)
        (dictInsert (rankOf true, 5) (make_piece PName.R true true false)
        (dictPop (rankOf true, 7) (dictInsert (rankOf true, 6)
        (make_piece PName.K true true false) (dictPop (rankOf true, 4)
        b.white_pieces))))))) = b.white_pieces
      have hkg4 : dictGet ((rankOf true, 4) : Pos) b.white_pieces = some kg := by
        simpa using dwp4
      have hrk7 : dictGet ((rankOf true, 7) : Pos) b.white_pieces = some rk := by
        simpa using dwp7
      have c1 : chainLt (dictPop ((rankOf true, 4) : Pos) b.white_pieces) = true :=
        chainLt_dictPop hclw
      have c2 := chainLt_dictInsert (k := ((rankOf true, 6) : Pos))
        (v := make_piece PName.K true true false) c1
      have c3 := chainLt_dictPop (k := ((rankOf true, 7) : Pos)) c2
      have c4 := chainLt_dictInsert (k := ((rankOf true, 5) : Pos))
        (v := make_piece PName.R true true false) c3
      have c5 := chainLt_dictPop (k := ((rankOf true, 6) : Pos)) c4
      have c6 := chainLt_dictInsert (k := ((rankOf true, 4) : Pos)) (v := kg) c5
      have c7 := chainLt_dictPop (k := ((rankOf true, 5) : Pos)) c6
      refine dict_ext (chainLt_dictInsert c7) hclw ?_
      intro p
      rw [dictGet_insert_eq, dictGet_pop_eq c6, dictGet_insert_eq, dictGet_pop_eq c4,
        dictGet_insert_eq, dictGet_pop_eq c2, dictGet_insert_eq, dictGet_pop_eq hclw]
      by_cases p7 : p = ((rankOf true, 7) : Pos)
      · rw [if_pos p7, p7, hrk7]
      · rw [if_neg p7]
        by_cases p5 : p = ((rankOf true, 5) : Pos)
        · rw [if_pos p5, p5, dwp5]
        · rw [if_neg p5]
          by_cases p4 : p = ((rankOf true, 4) : Pos)
          · rw [if_pos p4, p4, hkg4]
          · rw [if_neg p4]
            by_cases p6 : p = ((rankOf true, 6) : Pos)
            · rw [if_pos p6, p6, dwp6]
            · rw [if_neg p6, if_neg p5, if_neg p7, if_neg p6, if_neg p4]
    | false =>
      show dictPop (rankOf false, 5) (dictPop (rankOf false, 6) b.white_pieces)
        = b.white_pieces
      rw [dictPop_absent dwp6, dictPop_absent dwp5]
  · -- black pieces
    rw [castleKUndoF, um_bp, um_bp, castleKApplyF, mm_bp, mm_bp, hrw, hkw, wur, wuk]
    cases c with
    | false =>
      show dictInsert (rankOf false, 7) rk (dictPop (rankOf false, 5)
        (dictInsert (rankOf false, 4) kg (dictPop (rankOf false, 6)
        (dictInsert (rankOf false, 5) (make_piece PName.R false true false)
        (dictPop (rankOf false, 7) (dictInsert (rankOf false, 6)
        (make_piece PName.K false true false) (dictPop (rankOf false, 4)
        b.black_pieces))))))) = b.black_pieces
      have hkg4 : dictGet ((rankOf false, 4) : Pos) b.black_pieces = some kg := by
        simpa using dbp4
      have hrk7 : dictGet ((rankOf false, 7) : Pos) b.black_pieces = some rk := by
        simpa using dbp7
      have c1 : chainLt (dictPop ((rankOf false, 4) : Pos) b.black_pieces) = true :=
        chainLt_dictPop hclb
      have c2 := chainLt_dictInsert (k := ((rankOf false, 6) : Pos))
        (v := make_piece PName.K false true false) c1
      have c3 := chainLt_dictPop (k := ((rankOf false, 7) : Pos)) c2
      have c4 := chainLt_dictInsert (k := ((rankOf false, 5) : Pos))
        (v := make_piece PName.R false true false) c3
      have c5 := chainLt_dictPop (k := ((rankOf false, 6) : Pos)) c4
      have c6 := chainLt_dictInsert (k := ((rankOf false, 4) : Pos)) (v := kg) c5
      have c7 := chainLt_dictPop (k := ((rankOf false, 5) : Pos)) c6
      refine dict_ext (chainLt_dictInsert c7) hclb ?_
      intro p
      rw [dictGet_insert_eq, dictGet_pop_eq c6, dictGet_insert_eq, dictGet_pop_eq c4,
        dictGet_insert_eq, dictGet_pop_eq c2, dictGet_insert_eq, dictGet_pop_eq hclb]
      by_cases p7 : p = ((rankOf false, 7) : Pos)
      · rw [if_pos p7, p7, hrk7]
      · rw [if_neg p7]
        by_cases p5 : p = ((rankOf false, 5) : Pos)
        · rw [if_pos p5, p5, dbp5]
        · rw [if_neg p5]
          by_cases p4 : p = ((rankOf false, 4) : Pos)
          · rw [if_pos p4, p4, hkg4]
          · rw [if_neg p4]
            by_cases p6 : p = ((rankOf false, 6) : Pos)
            · rw [if_pos p6, p6, dbp6]
            · rw [if_neg p6, if_neg p5, if_neg p7, if_neg p6, if_neg p4]
    | true =>
      show dictPop (rankOf true, 5) (dictPop (rankOf true, 6) b.black_pieces)
        = b.black_pieces
      rw [dictPop_absent dbp6, dictPop_absent dbp5]

/-- Round trip of a queenside castle. -/
theorem apply_undo_castleQ {b : Board} {c : Bool} {kg rk : Piece}
    (hwf : wf b = true)
    (hk : gridGet b.board (rankOf c, 4) = some kg) (hkN : get_name kg = PName.K)
    (hkw : is_white kg = c)
    (hr : gridGet b.board (rankOf c, 0) = some rk) (hrN : get_name rk = PName.R)
    (hrw : is_white rk = c)
    (h5 : gridGet b.board (rankOf c, 3) = none)
    (h6 : gridGet b.board (rankOf c, 2) = none) :
    castleQUndoF kg rk c (castleQApplyF c b) = b := by
  obtain ⟨hs, hclw, hclb, _, _, _, hkk⟩ := wf_parts hwf
  have i4 : _is_in_bounds ((rankOf c, 4) : Pos) = true := inb_rank c 4 (by omega)
  have i5 : _is_in_bounds ((rankOf c, 3) : Pos) = true := inb_rank c 3 (by omega)
  have i6 : _is_in_bounds ((rankOf c, 2) : Pos) = true := inb_rank c 2 (by omega)
  have i7 : _is_in_bounds ((rankOf c, 0) : Pos) = true := inb_rank c 0 (by omega)
  -- boolean conditions of the four record updates
  have crk : (is_white rk && (get_name rk == PName.K)) = false := by
    rw [hrw, hrN]
    cases c <;> rfl
  have ckg : (is_white kg && (get_name kg == PName.K)) = c := by
    rw [hkw, hkN]
    cases c <;> rfl
  have cur : (is_white (make_piece PName.R c true false) &&
      (get_name (make_piece PName.R c true false) == PName.K)) = false := by
    cases c <;> rfl
  have cuk : (is_white (make_piece PName.K c true false) &&
      (get_name (make_piece PName.K c true false) == PName.K)) = c := by
    cases c <;> rfl
  have wuk : is_white (make_piece PName.K c true false) = c := rfl
  have wur : is_white (make_piece PName.R c true false) = c := rfl
  -- occupancy-derived dictionary facts
  have dwp4 : dictGet ((rankOf c, 4) : Pos) b.white_pieces =
      if c then some kg else none := by
    cases c
    · exact dictGet_white_none hwf (fun v hv => by rw [hk] at hv; cases hv; exact hkw)
    · exact wf_white_get hwf i4 hk hkw
  have dbp4 : dictGet ((rankOf c, 4) : Pos) b.black_pieces =
      if c then none else some kg := by
    cases c
    · exact wf_black_get hwf i4 hk hkw
    · exact dictGet_black_none hwf (fun v hv => by rw [hk] at hv; cases hv; exact hkw)
  have dwp7 : dictGet ((rankOf c, 0) : Pos) b.white_pieces =
      if c then some rk else none := by
    cases c
    · exact dictGet_white_none hwf (fun v hv => by rw [hr] at hv; cases hv; exact hrw)
    · exact wf_white_get hwf i7 hr hrw
  have dbp7 : dictGet ((rankOf c, 0) : Pos) b.black_pieces =
      if c then none else some rk := by
    cases c
    · exact wf_black_get hwf i7 hr hrw
    · exact dictGet_black_none hwf (fun v hv => by rw [hr] at hv; cases hv; exact hrw)
  have dwp5 : dictGet ((rankOf c, 3) : Pos) b.white_pieces = none :=
    dictGet_white_none hwf (fun v hv => by rw [h5] at hv; cases hv)
  have dbp5 : dictGet ((rankOf c, 3) : Pos) b.black_pieces = none :=
    dictGet_black_none hwf (fun v hv => by rw [h5] at hv; cases hv)
  have dwp6 : dictGet ((rankOf c, 2) : Pos) b.white_pieces = none :=
    dictGet_white_none hwf (fun v hv => by rw [h6] at hv; cases hv)
  have dbp6 : dictGet ((rankOf c, 2) : Pos) b.black_pieces = none :=
    dictGet_black_none hwf (fun v hv => by rw [h6] at hv; cases hv)
  refine board_ext ?_ ?_ ?_ ?_ ?_
  · -- grid restored
    rw [castleQUndoF, um_board, um_board, castleQApplyF, mm_board, mm_board]
    have s1 : gridShape (gridSet b.board (rankOf c, 4) none) = true := gridShape_set hs _ _
    have s2 := gridShape_set s1 ((rankOf c, 2) : Pos) (some (make_piece PName.K c true false))
    have s3 := gridShape_set s2 ((rankOf c, 0) : Pos) none
    have s4 := gridShape_set s3 ((rankOf c, 3) : Pos) (some (make_piece PName.R c true false))
    have s5 := gridShape_set s4 ((rankOf c, 4) : Pos) (some kg)
    have s6 := gridShape_set s5 ((rankOf c, 2) : Pos) none
    have s7 := gridShape_set s6 ((rankOf c, 0) : Pos) (some rk)
    refine grid_ext (gridShape_set s7 _ _) hs ?_
    intro r f hr8 hf8
    have hq : _is_in_bounds ((r : Int), (f : Int)) = true := inb_ofNat hr8 hf8
    rw [gridGet_set_eq s7 i5 hq, gridGet_set_eq s6 i7 hq, gridGet_set_eq s5 i6 hq,
      gridGet_set_eq s4 i4 hq, gridGet_set_eq s3 i5 hq, gridGet_set_eq s2 i7 hq,
      gridGet_set_eq s1 i6 hq, gridGet_set_eq hs i4 hq]
    by_cases q5 : ((r : Int), (f : Int)) = (rankOf c, 3)
    · rw [if_pos q5, q5, h5]
    · rw [if_neg q5, if_neg q5]
      by_cases q7 : ((r : Int), (f : Int)) = (rankOf c, 0)
      · rw [if_pos q7, q7, hr]
      · rw [if_neg q7, if_neg q7]
        by_cases q6 : ((r : Int), (f : Int)) = (rankOf c, 2)
        · rw [if_pos q6, q6, h6]
        · rw [if_neg q6, if_neg q6]
          by_cases q4 : ((r : Int), (f : Int)) = (rankOf c, 4)
          · rw [if_pos q4, q4, hk]
          · rw [if_neg q4, if_neg q4]
  · -- white king cache
    rw [castleQUndoF, um_wk, um_wk, castleQApplyF, mm_wk, mm_wk, crk, ckg, cur, cuk]
    cases c with
    | true =>
      have hbk := (kingsOk_spec hkk).1 _ (dictGet_mem
        (show dictGet ((rankOf true, 4) : Pos) b.white_pieces = some kg by
          simpa using dwp4)) hkN
      exact hbk
    | false => rfl
  · -- black king cache
    rw [castleQUndoF, um_bk, um_bk, castleQApplyF, mm_bk, mm_bk]
    rw [show (!is_white rk && (get_name rk == PName.K)) = false from by
        rw [hrN]; cases is_white rk <;> rfl]
    rw [show (!is_white kg && (get_name kg == PName.K)) = !c from by
        rw [hkw, hkN]; cases c <;> rfl]
    rw [show (!is_white (make_piece PName.R c true false) &&
        (get_name (make_piece PName.R c true false) == PName.K)) = false from by
        cases c <;> rfl]
    rw [show (!is_white (make_piece PName.K c true false) &&
        (get_name (make_piece PName.K c true false) == PName.K)) = !c from by
        cases c <;> rfl]
    cases c with
    | false =>
      have hbk := (kingsOk_spec hkk).2 _ (dictGet_mem
        (show dictGet ((rankOf false, 4) : Pos) b.black_pieces = some kg by
          simpa using dbp4)) hkN
      exact hbk
    | true => rfl
  · -- white pieces
    rw [castleQUndoF, um_wp, um_wp, castleQApplyF, mm_wp, mm_wp, hrw, hkw, wur, wuk]
    cases c with
    | true =>
      show dictInsert (rankOf true, 0) rk (dictPop (rankOf true, 3)
        (dictInsert (rankOf true, 4) kg (dictPop (rankOf true, 2)
        (dictInsert (rankOf true, 3) (make_piece PName.R true true false)
        (dictPop (rankOf true, 0) (dictInsert (rankOf true, 2)
        (make_piece PName.K true true false) (dictPop (rankOf true, 4)
        b.white_pieces))))))) = b.white_pieces
      have hkg4 : dictGet ((rankOf true, 4) : Pos) b.white_pieces = some kg := by
        simpa using dwp4
      have hrk7 : dictGet ((rankOf true, 0) : Pos) b.white_pieces = some rk := by
        simpa using dwp7
      have c1 : chainLt (dictPop ((rankOf true, 4) : Pos) b.white_pieces) = true :=
        chainLt_dictPop hclw
      have c2 := chainLt_dictInsert (k := ((rankOf true, 2) : Pos))
        (v := make_piece PName.K true true false) c1
      have c3 := chainLt_dictPop (k := ((rankOf true, 0) : Pos)) c2
      have c4 := chainLt_dictInsert (k := ((rankOf true, 3) : Pos))
        (v := make_piece PName.R true true false) c3
      have c5 := chainLt_dictPop (k := ((rankOf true, 2) : Pos)) c4
      have c6 := chainLt_dictInsert (k := ((rankOf true, 4) : Pos)) (v := kg) c5
      have c7 := chainLt_dictPop (k := ((rankOf true, 3) : Pos)) c6
      refine dict_ext (chainLt_dictInsert c7) hclw ?_
      intro p
      rw [dictGet_insert_eq, dictGet_pop_eq c6, dictGet_insert_eq, dictGet_pop_eq c4,
        dictGet_insert_eq, dictGet_pop_eq c2, dictGet_insert_eq, dictGet_pop_eq hclw]
      by_cases p7 : p = ((rankOf true, 0) : Pos)
      · rw [if_pos p7, p7, hrk7]
      · rw [if_neg p7]
        by_cases p5 : p = ((rankOf true, 3) : Pos)
        · rw [if_pos p5, p5, dwp5]
        · rw [if_neg p5]
          by_cases p4 : p = ((rankOf true, 4) : Pos)
          · rw [if_pos p4, p4, hkg4]
          · rw [if_neg p4]
            by_cases p6 : p = ((rankOf true, 2) : Pos)
            · rw [if_pos p6, p6, dwp6]
            · rw [if_neg p6, if_neg p5, if_neg p7, if_neg p6, if_neg p4]
    | false =>
      show dictPop (rankOf false, 3) (dictPop (rankOf false, 2) b.white_pieces)
        = b.white_pieces
      rw [dictPop_absent dwp6, dictPop_absent dwp5]
  · -- black pieces
    rw [castleQUndoF, um_bp, um_bp, castleQApplyF, mm_bp, mm_bp, hrw, hkw, wur, wuk]
    cases c with
    | false =>
      show dictInsert (rankOf false, 0) rk (dictPop (rankOf false, 3)
        (dictInsert (rankOf false, 4) kg (dictPop (rankOf false, 2)
        (dictInsert (rankOf false, 3) (make_piece PName.R false true false)
        (dictPop (rankOf false, 0) (dictInsert (rankOf false, 2)
        (make_piece PName.K false true false) (dictPop (rankOf false, 4)
        b.black_pieces))))))) = b.black_pieces
      have hkg4 : dictGet ((rankOf false, 4) : Pos) b.black_pieces = some kg := by
        simpa using dbp4
      have hrk7 : dictGet ((rankOf false, 0) : Pos) b.black_pieces = some rk := by
        simpa using dbp7
      have c1 : chainLt (dictPop ((rankOf false, 4) : Pos) b.black_pieces) = true :=
        chainLt_dictPop hclb
      have c2 := chainLt_dictInsert (k := ((rankOf false, 2) : Pos))
        (v := make_piece PName.K false true false) c1
      have c3 := chainLt_dictPop (k := ((rankOf false, 0) : Pos)) c2
      have c4 := chainLt_dictInsert (k := ((rankOf false, 3) : Pos))
        (v := make_piece PName.R false true false) c3
      have c5 := chainLt_dictPop (k := ((rankOf false, 2) : Pos)) c4
      have c6 := chainLt_dictInsert (k := ((rankOf false, 4) : Pos)) (v := kg) c5
      have c7 := chainLt_dictPop (k := ((rankOf false, 3) : Pos)) c6
      refine dict_ext (chainLt_dictInsert c7) hclb ?_
      intro p
      rw [dictGet_insert_eq, dictGet_pop_eq c6, dictGet_insert_eq, dictGet_pop_eq c4,
        dictGet_insert_eq, dictGet_pop_eq c2, dictGet_insert_eq, dictGet_pop_eq hclb]
      by_cases p7 : p = ((rankOf false, 0) : Pos)
      · rw [if_pos p7, p7, hrk7]
      · rw [if_neg p7]
        by_cases p5 : p = ((rankOf false, 3) : Pos)
        · rw [if_pos p5, p5, dbp5]
        · rw [if_neg p5]
          by_cases p4 : p = ((rankOf false, 4) : Pos)
          · rw [if_pos p4, p4, hkg4]
          · rw [if_neg p4]
            by_cases p6 : p = ((rankOf false, 2) : Pos)
            · rw [if_pos p6, p6, dbp6]
            · rw [if_neg p6, if_neg p5, if_neg p7, if_neg p6, if_neg p4]
    | true =>
      show dictPop (rankOf true, 3) (dictPop (rankOf true, 2) b.black_pieces)
        = b.black_pieces
      rw [dictPop_absent dbp6, dictPop_absent dbp5]

/-- The undo command of any pseudo-move, run right after its apply command
on the board both were created from, restores that board exactly. -/
theorem command_roundtrip {b : Board} {c : Bool} {m : Move} (hwf : wf b = true)
    (hok : MoveOK b c m) :
    (b.get_move_command m).2 ((b.get_move_command m).1 b) = b := by
  cases m with
  | castleK w =>
    simp only [MoveOK] at hok
    obtain ⟨hw, ⟨kg, hk, hkN, hkw, _⟩, ⟨rk, hr, hrN, hrw, _⟩, h5, h6⟩ := hok
    subst hw
    rw [command_castleK_apply hk hr, command_castleK_undo hk hr]
    exact apply_undo_castleK hwf hk hkN hkw hr hrN hrw h5 h6
  | castleQ w =>
    simp only [MoveOK] at hok
    obtain ⟨hw, ⟨kg, hk, hkN, hkw, _⟩, ⟨rk, hr, hrN, hrw, _⟩, h1, h2, h3⟩ := hok
    subst hw
    rw [command_castleQ_apply hk hr, command_castleQ_undo hk hr]
    exact apply_undo_castleQ hwf hk hkN hkw hr hrN hrw h3 h2
  | normal n ini fin cap ep promo =>
    cases ep with
    | true =>
      simp only [MoveOK] at hok
      obtain ⟨pwn, cp, hgi, hpN, hw, hnm, hpr, hgf, hgc, hcw, hce, hi, hf, hsq⟩ := hok
      rw [command_ep_apply hgi hgc, command_ep_undo hgi hgc]
      exact apply_undo_ep hwf hi hf hsq hgi hpN hw hgf hgc hcw
    | false =>
      simp only [MoveOK] at hok
      obtain ⟨pce, hgi, hw, hname, hi, hf, hfin, hpromo⟩ := hok
      rw [command_simple_apply hgi, command_simple_undo hgi]
      refine apply_undo_simple hwf hi hf hgi hw hfin ?_ ?_
      · rw [updatedPiece, is_white_make, hw]
      · intro hK
        rw [updatedPiece, get_name_make] at hK
        cases hpromo with
        | inl h =>
          rw [h] at hK
          exact hK
        | inr h =>
          obtain ⟨hP, hmem⟩ := h
          rcases (by simpa [promoKinds] using hmem :
              promo = some PName.Q ∨ promo = some PName.B ∨ promo = some PName.N ∨
                promo = some PName.R) with h1 | h1 | h1 | h1 <;>
            rw [h1] at hK <;> simp [Option.getD] at hK

theorem mem_deltaFold {ini : Pos} {ds : List Pos} {acc : List Pos} {p : Pos}
    (h : p ∈ ds.foldl (fun positions d =>
      let position := (ini.1 + d.1, ini.2 + d.2)
      if _is_in_bounds position then position :: positions else positions) acc) :
    p ∈ acc ∨ _is_in_bounds p = true := by
  induction ds generalizing acc with
  | nil => exact Or.inl h
  | cons d rest ih =>
    rcases ih h with h2 | h2
    · dsimp only at h2
      by_cases hc : _is_in_bounds (ini.1 + d.1, ini.2 + d.2) = true
      · rw [if_pos hc] at h2
        cases h2 with
        | head => exact Or.inr hc
        | tail _ h3 => exact Or.inl h3
      · rw [if_neg hc] at h2
        exact Or.inl h2
    · exact Or.inr h2

theorem mem_knight_squares {ini p : Pos} (h : p ∈ _get_knight_squares ini) :
    _is_in_bounds p = true := by
  rcases mem_deltaFold (h : p ∈ _) with h2 | h2
  · cases h2
  · exact h2

theorem mem_king_squares {ini p : Pos} (h : p ∈ _get_king_squares ini) :
    _is_in_bounds p = true := by
  rcases mem_deltaFold (h : p ∈ _) with h2 | h2
  · cases h2
  · exact h2

theorem mem_slideWalk {b : Board} {delta : Pos} {p : Pos} :
    ∀ {fuel : Nat} {pos : Pos} {acc : List Pos},
      p ∈ slideWalk b delta fuel pos acc → p ∈ acc ∨ _is_in_bounds p = true := by
  intro fuel
  induction fuel with
  | zero => intro pos acc h; exact Or.inl h
  | succ n ih =>
    intro pos acc h
    rw [slideWalk] at h
    by_cases hc : _is_in_bounds pos = true
    · rw [if_pos hc] at h
      cases hg : gridGet b.board pos with
      | some q =>
        rw [hg] at h
        cases h with
        | head => exact Or.inr hc
        | tail _ h3 => exact Or.inl h3
      | none =>
        rw [hg] at h
        rcases ih h with h2 | h2
        · cases h2 with
          | head => exact Or.inr hc
          | tail _ h3 => exact Or.inl h3
        · exact Or.inr h2
    · rw [if_neg hc] at h
      exact Or.inl h

theorem mem_slide_squares {b : Board} {ini d p : Pos}
    (h : p ∈ b._get_slide_squares ini d) : _is_in_bounds p = true := by
  rw [Board._get_slide_squares] at h
  rcases mem_slideWalk h with h2 | h2
  · cases h2
  · exact h2

theorem mem_appendFold {α : Type} {f : α → List Pos} {ds : List α} {acc : List Pos}
    {p : Pos} (h : p ∈ ds.foldl (fun positions d => f d ++ positions) acc) :
    p ∈ acc ∨ ∃ d ∈ ds, p ∈ f d := by
  induction ds generalizing acc with
  | nil => exact Or.inl h
  | cons d rest ih =>
    rcases ih h with h2 | h2
    · rcases List.mem_append.mp h2 with h3 | h3
      · exact Or.inr ⟨d, List.mem_cons_self _ _, h3⟩
      · exact Or.inl h3
    · obtain ⟨d2, hd2, hp⟩ := h2
      exact Or.inr ⟨d2, List.mem_cons_of_mem _ hd2, hp⟩

theorem mem_rook_squares {b : Board} {pos p : Pos}
    (h : p ∈ b._get_rook_squares pos) : _is_in_bounds p = true := by
  rw [Board._get_rook_squares] at h
  rcases mem_appendFold h with h2 | h2
  · cases h2
  · obtain ⟨d, _, hp⟩ := h2
    exact mem_slide_squares hp

theorem mem_bishop_squares {b : Board} {pos p : Pos}
    (h : p ∈ b._get_bishop_squares pos) : _is_in_bounds p = true := by
  rw [Board._get_bishop_squares] at h
  rcases mem_appendFold h with h2 | h2
  · cases h2
  · obtain ⟨d, _, hp⟩ := h2
    exact mem_slide_squares hp

theorem mem_queen_squares {b : Board} {pos p : Pos}
    (h : p ∈ b._get_queen_squares pos) : _is_in_bounds p = true := by
  rw [Board._get_queen_squares] at h
  rcases mem_appendFold h with h2 | h2
  · cases h2
  · obtain ⟨d, _, hp⟩ := h2
    exact mem_slide_squares hp

theorem moch_cases {piece : Piece} {square : Option Piece} {ini fin : Pos} {m : Move}
    (h : _move_or_capture_or_halt piece square ini fin = some m) :
    (square = none ∧ m = Move.normal (get_name piece) ini fin none false none) ∨
      (∃ sq, square = some sq ∧ is_white sq = !is_white piece ∧
        m = Move.normal (get_name piece) ini fin (some (get_name sq)) false none) := by
  cases square with
  | none =>
    rw [_move_or_capture_or_halt] at h
    injection h with h
    exact Or.inl ⟨rfl, h.symm⟩
  | some sq =>
    rw [_move_or_capture_or_halt] at h
    by_cases hc : (is_white sq != is_white piece) = true
    · rw [if_pos hc] at h
      injection h with h
      refine Or.inr ⟨sq, rfl, ?_, h.symm⟩
      rcases hw : is_white sq <;> rcases hp : is_white piece <;>
        rw [hw, hp] at hc <;> first | rfl | cases hc
    · rw [if_neg hc] at h
      cases h

/-- Soundness of the shared fold of the step and slide generators. -/
theorem mochFold_sound {b : Board} {c : Bool} {piece : Piece} {pos : Pos}
    (hw : is_white piece = c) (hgp : gridGet b.board pos = some piece)
    (hinb : _is_in_bounds pos = true) :
    ∀ {squares : List Pos} {acc : List Move} {m : Move},
      (∀ p ∈ squares, _is_in_bounds p = true) →
      (∀ x ∈ acc, MoveOK b c x ∧ isNormalMove x = true) →
      m ∈ squares.foldl (fun moves p =>
        match _move_or_capture_or_halt piece (gridGet b.board p) pos p with
        | some mv => addMove moves mv
        | none => moves) acc →
      MoveOK b c m ∧ isNormalMove m = true := by
  intro squares
  induction squares with
  | nil =>
    intro acc m _ hacc hm
    exact hacc m hm
  | cons q rest ih =>
    intro acc m hsq hacc hm
    refine ih (fun p hp => hsq p (List.mem_cons_of_mem _ hp)) ?_ hm
    intro x hx
    dsimp only at hx
    cases hmc : _move_or_capture_or_halt piece (gridGet b.board q) pos q with
    | none =>
      rw [hmc] at hx
      exact hacc x hx
    | some mv =>
      rw [hmc] at hx
      rcases mem_addMove hx with hx2 | hx2
      · subst hx2
        have hqb : _is_in_bounds q = true := hsq q (List.mem_cons_self _ _)
        rcases moch_cases hmc with ⟨hn, hmv⟩ | ⟨sq, hs, hsw, hmv⟩
        · subst hmv
          refine ⟨⟨piece, hgp, hw, rfl, hinb, hqb, ?_, Or.inl rfl⟩, rfl⟩
          intro s hs2
          rw [hn] at hs2
          cases hs2
        · subst hmv
          refine ⟨⟨piece, hgp, hw, rfl, hinb, hqb, ?_, Or.inl rfl⟩, rfl⟩
          intro s hs2
          rw [hs] at hs2
          injection hs2 with hs2
          rw [← hs2, hsw, hw]
      · exact hacc x hx2

theorem knight_moves_sound {b : Board} {c : Bool} {piece : Piece} {pos : Pos} {m : Move}
    (hw : is_white piece = c) (hgp : gridGet b.board pos = some piece)
    (hinb : _is_in_bounds pos = true) (hm : m ∈ b._get_knight_moves piece pos) :
    MoveOK b c m ∧ isNormalMove m = true := by
  rw [Board._get_knight_moves] at hm
  exact mochFold_sound hw hgp hinb (fun p hp => mem_knight_squares hp)
    (fun x hx => absurd hx (List.not_mem_nil x)) hm

theorem king_moves_sound {b : Board} {c : Bool} {piece : Piece} {pos : Pos} {m : Move}
    (hw : is_white piece = c) (hgp : gridGet b.board pos = some piece)
    (hinb : _is_in_bounds pos = true) (hm : m ∈ b._get_king_moves piece pos) :
    MoveOK b c m ∧ isNormalMove m = true := by
  rw [Board._get_king_moves] at hm
  exact mochFold_sound hw hgp hinb (fun p hp => mem_king_squares hp)
    (fun x hx => absurd hx (List.not_mem_nil x)) hm

theorem rook_moves_sound {b : Board} {c : Bool} {piece : Piece} {pos : Pos} {m : Move}
    (hw : is_white piece = c) (hgp : gridGet b.board pos = some piece)
    (hinb : _is_in_bounds pos = true) (hm : m ∈ b._get_rook_moves piece pos) :
    MoveOK b c m ∧ isNormalMove m = true := by
  rw [Board._get_rook_moves] at hm
  exact mochFold_sound hw hgp hinb (fun p hp => mem_rook_squares hp)
    (fun x hx => absurd hx (List.not_mem_nil x)) hm

theorem bishop_moves_sound {b : Board} {c : Bool} {piece : Piece} {pos : Pos} {m : Move}
    (hw : is_white piece = c) (hgp : gridGet b.board pos = some piece)
    (hinb : _is_in_bounds pos = true) (hm : m ∈ b._get_bishop_moves piece pos) :
    MoveOK b c m ∧ isNormalMove m = true := by
  rw [Board._get_bishop_moves] at hm
  exact mochFold_sound hw hgp hinb (fun p hp => mem_bishop_squares hp)
    (fun x hx => absurd hx (List.not_mem_nil x)) hm

theorem queen_moves_sound {b : Board} {c : Bool} {piece : Piece} {pos : Pos} {m : Move}
    (hw : is_white piece = c) (hgp : gridGet b.board pos = some piece)
    (hinb : _is_in_bounds pos = true) (hm : m ∈ b._get_queen_moves piece pos) :
    MoveOK b c m ∧ isNormalMove m = true := by
  rw [Board._get_queen_moves] at hm
  exact mochFold_sound hw hgp hinb (fun p hp => mem_queen_squares hp)
    (fun x hx => absurd hx (List.not_mem_nil x)) hm

theorem pawn_moves_eq (b : Board) (pawn : Piece) (position : Pos) :
    b._get_pawn_moves pawn position =
      (pawnTargets b pawn position).foldl (pawnStep b pawn position) [] := rfl

theorem bne_white {sq pawn : Piece} (h : (is_white sq != is_white pawn) = true) :
    is_white sq = !is_white pawn := by
  rcases hx : is_white sq <;> rcases hy : is_white pawn <;>
    rw [hx, hy] at h <;> first | rfl | cases h

theorem pawnL1_spec {b : Board} {pawn : Piece} {pos p : Pos}
    (hp : p ∈ pawnL1 b pawn pos) : PawnTgt b pawn p := by
  rw [pawnL1] at hp
  by_cases c1 : (_is_in_bounds (pos.1 + 1 * (if is_white pawn then 1 else -1), pos.2) &&
      (gridGet b.board (pos.1 + 1 * (if is_white pawn then 1 else -1),
        pos.2)).isNone) = true
  · rw [if_pos c1] at hp
    obtain ⟨c1a, c1n⟩ := bandE c1
    rcases List.mem_append.mp hp with hp2 | hp2
    · cases hp2
    · have hpe := List.mem_singleton.mp hp2
      subst hpe
      refine ⟨c1a, ?_⟩
      intro sq hsq
      rw [Option.isNone_iff_eq_none] at c1n
      rw [c1n] at hsq
      cases hsq
  · rw [if_neg c1] at hp
    cases hp

theorem pawnL2_spec {b : Board} {pawn : Piece} {pos p : Pos}
    (hp : p ∈ pawnL2 b pawn pos) : PawnTgt b pawn p := by
  rw [pawnL2] at hp
  by_cases c2 : (_is_in_bounds (pos.1 + 2 * (if is_white pawn then 1 else -1), pos.2) &&
      (gridGet b.board (pos.1 + 1 * (if is_white pawn then 1 else -1), pos.2)).isNone &&
      !(has_moved pawn) &&
      (gridGet b.board (pos.1 + 2 * (if is_white pawn then 1 else -1),
        pos.2)).isNone) = true
  · rw [if_pos c2] at hp
    obtain ⟨c2a, c2n⟩ := bandE c2
    obtain ⟨c2b, _⟩ := bandE c2a
    obtain ⟨c2c, _⟩ := bandE c2b
    rcases List.mem_append.mp hp with hp2 | hp2
    · exact pawnL1_spec hp2
    · have hpe := List.mem_singleton.mp hp2
      subst hpe
      refine ⟨c2c, ?_⟩
      intro sq hsq
      rw [Option.isNone_iff_eq_none] at c2n
      rw [c2n] at hsq
      cases hsq
  · rw [if_neg c2] at hp
    exact pawnL1_spec hp

theorem pawnL3_spec {b : Board} {pawn : Piece} {pos p : Pos}
    (hp : p ∈ pawnL3 b pawn pos) : PawnTgt b pawn p := by
  rw [pawnL3] at hp
  by_cases c3 : _is_in_bounds (pos.1 + 1 * (if is_white pawn then 1 else -1), pos.2 - 1)
      = true
  · rw [if_pos c3] at hp
    cases hg3 : gridGet b.board (pos.1 + 1 * (if is_white pawn then 1 else -1),
        pos.2 - 1) with
    | none =>
      rw [hg3] at hp
      exact pawnL2_spec hp
    | some sq3 =>
      rw [hg3] at hp
      dsimp only at hp
      by_cases w3 : (is_white sq3 != is_white pawn) = true
      · rw [if_pos w3] at hp
        rcases List.mem_append.mp hp with hp2 | hp2
        · exact pawnL2_spec hp2
        · have hpe := List.mem_singleton.mp hp2
          subst hpe
          refine ⟨c3, ?_⟩
          intro sq hsq
          rw [hg3] at hsq
          injection hsq with hsq
          subst hsq
          exact bne_white w3
      · rw [if_neg w3] at hp
        exact pawnL2_spec hp
  · rw [if_neg c3] at hp
    exact pawnL2_spec hp

theorem pawnTargets_spec {b : Board} {pawn : Piece} {pos p : Pos}
    (hp : p ∈ pawnTargets b pawn pos) : PawnTgt b pawn p := by
  rw [pawnTargets] at hp
  by_cases c4 : _is_in_bounds (pos.1 + 1 * (if is_white pawn then 1 else -1), pos.2 + 1)
      = true
  · rw [if_pos c4] at hp
    cases hg4 : gridGet b.board (pos.1 + 1 * (if is_white pawn then 1 else -1),
        pos.2 + 1) with
    | none =>
      rw [hg4] at hp
      exact pawnL3_spec hp
    | some sq4 =>
      rw [hg4] at hp
      dsimp only at hp
      by_cases w4 : (is_white sq4 != is_white pawn) = true
      · rw [if_pos w4] at hp
        rcases List.mem_append.mp hp with hp2 | hp2
        · exact pawnL3_spec hp2
        · have hpe := List.mem_singleton.mp hp2
          subst hpe
          refine ⟨c4, ?_⟩
          intro sq hsq
          rw [hg4] at hsq
          injection hsq with hsq
          subst hsq
          exact bne_white w4
      · rw [if_neg w4] at hp
        exact pawnL3_spec hp
  · rw [if_neg c4] at hp
    exact pawnL3_spec hp

/-- Soundness of the pawn-move generator. -/
theorem pawn_moves_sound {b : Board} {c : Bool} {pawn : Piece} {pos : Pos} {m : Move}
    (hw : is_white pawn = c) (hgp : gridGet b.board pos = some pawn)
    (hN : get_name pawn = PName.P) (hinb : _is_in_bounds pos = true)
    (hm : m ∈ b._get_pawn_moves pawn pos) :
    MoveOK b c m ∧ isNormalMove m = true := by
  rw [pawn_moves_eq] at hm
  have main : ∀ {fps : List Pos} {acc : List Move},
      (∀ p ∈ fps, PawnTgt b pawn p) →
      (∀ x ∈ acc, MoveOK b c x ∧ isNormalMove x = true) →
      ∀ {m2 : Move}, m2 ∈ fps.foldl (pawnStep b pawn pos) acc →
      MoveOK b c m2 ∧ isNormalMove m2 = true := by
    intro fps
    induction fps with
    | nil =>
      intro acc _ hacc m2 hm2
      exact hacc m2 hm2
    | cons q rest ih =>
      intro acc hfq hacc m2 hm2
      refine ih (fun p hp => hfq p (List.mem_cons_of_mem _ hp)) ?_ hm2
      obtain ⟨hqb, hqdir⟩ := hfq q (List.mem_cons_self _ _)
      have hdir : ∀ sq, gridGet b.board q = some sq → is_white sq = !c := by
        intro sq hsq
        rw [hqdir sq hsq, hw]
      intro x hx
      rw [pawnStep] at hx
      by_cases hpr : (q.1 == 7 || q.1 == 0) = true
      · rw [if_pos hpr] at hx
        rcases mem_addMoves hx with hx2 | hx2
        · obtain ⟨pr, hprm, hxe⟩ := List.mem_map.mp hx2
          subst hxe
          refine ⟨⟨pawn, hgp, hw, rfl, hinb, hqb, hdir, Or.inr ⟨hN, ?_⟩⟩, rfl⟩
          rcases (show pr = PName.Q ∨ pr = PName.B ∨ pr = PName.N ∨ pr = PName.R by
              simpa using hprm) with h | h | h | h <;> subst h <;> simp [promoKinds]
        · exact hacc x hx2
      · rw [if_neg hpr] at hx
        rcases mem_addMove hx with hx2 | hx2
        · subst hx2
          exact ⟨⟨pawn, hgp, hw, rfl, hinb, hqb, hdir, Or.inl rfl⟩, rfl⟩
        · exact hacc x hx2
  exact main (fun p hp => pawnTargets_spec hp)
    (fun x hx => absurd hx (List.not_mem_nil x)) hm

/-- _get_psuedo_moves decomposed into its three stages. -/
theorem psuedo_eq (b : Board) (c : Bool) :
    b._get_psuedo_moves c =
      (selectPositions (if c then b.white_pieces else b.black_pieces)
          (fun pce => get_name pce == PName.P)).foldl
        (epStep b c (selectPositions (if c then b.black_pieces else b.white_pieces) can_ep))
        (pseudoCastle b c (pseudoMain b c)) := rfl

theorem beq_name {x : Piece} {n : PName} (h : (get_name x == n) = true) :
    get_name x = n := eq_of_beq h

theorem not_moved {x : Piece} (h : (!has_moved x) = true) : has_moved x = false := by
  rcases hq : has_moved x
  · rfl
  · rw [hq] at h
    cases h

theorem beq_color {x : Piece} {c : Bool} (h : (is_white x == c) = true) :
    is_white x = c := eq_of_beq h

/-- Soundness of the castle section. -/
theorem pseudoCastle_sound {b : Board} {c : Bool} {moves : List Move} {m : Move}
    (hacc : ∀ x ∈ moves, MoveOK b c x) (hm : m ∈ pseudoCastle b c moves) :
    MoveOK b c m := by
  rw [pseudoCastle] at hm
  cases hk : gridGet b.board ((if c then 0 else 7 : Int), 4) with
  | none =>
    rw [hk] at hm
    exact hacc m hm
  | some kg =>
    rw [hk] at hm
    dsimp only at hm
    by_cases hkc : (get_name kg == PName.K && !has_moved kg && (is_white kg == c)) = true
    case neg =>
      rw [if_neg hkc] at hm
      exact hacc m hm
    case pos =>
      rw [if_pos hkc] at hm
      obtain ⟨hkc1, hkc3⟩ := bandE hkc
      obtain ⟨hkc1a, hkc2⟩ := bandE hkc1
      have hkg : ∃ kg2, gridGet b.board (rankOf c, 4) = some kg2 ∧
          get_name kg2 = PName.K ∧ is_white kg2 = c ∧ has_moved kg2 = false :=
        ⟨kg, hk, beq_name hkc1a, beq_color hkc3, not_moved hkc2⟩
      -- the queenside block
      have hq : ∀ x ∈ (match gridGet b.board ((if c then 0 else 7 : Int), 0) with
          | some r =>
            if get_name r == PName.R && !(has_moved r) && (is_white r == c) &&
                [gridGet b.board ((if c then 0 else 7 : Int), 1),
                 gridGet b.board ((if c then 0 else 7 : Int), 2),
                 gridGet b.board ((if c then 0 else 7 : Int), 3)].all
                   (fun s => s.isNone) then
              addMove moves (Move.castleQ c)
            else moves
          | none => moves), MoveOK b c x := by
        intro x hx
        cases hqr : gridGet b.board ((if c then 0 else 7 : Int), 0) with
        | none =>
          rw [hqr] at hx
          exact hacc x hx
        | some r =>
          rw [hqr] at hx
          dsimp only at hx
          by_cases hrc : (get_name r == PName.R && !(has_moved r) && (is_white r == c) &&
              [gridGet b.board ((if c then 0 else 7 : Int), 1),
               gridGet b.board ((if c then 0 else 7 : Int), 2),
               gridGet b.board ((if c then 0 else 7 : Int), 3)].all
                 (fun s => s.isNone)) = true
          case neg =>
            rw [if_neg hrc] at hx
            exact hacc x hx
          case pos =>
            rw [if_pos hrc] at hx
            rcases mem_addMove hx with hx2 | hx2
            · subst hx2
              obtain ⟨hr1, hre⟩ := bandE hrc
              obtain ⟨hr1a, hr3⟩ := bandE hr1
              obtain ⟨hr1b, hr2⟩ := bandE hr1a
              simp only [List.all_cons, List.all_nil, Bool.and_true,
                Bool.and_eq_true, Option.isNone_iff_eq_none] at hre
              exact ⟨rfl, hkg, ⟨r, hqr, beq_name hr1b, beq_color hr3, not_moved hr2⟩,
                hre.1, hre.2.1, hre.2.2⟩
            · exact hacc x hx2
      cases hkr : gridGet b.board ((if c then 0 else 7 : Int), 7) with
      | none =>
        rw [hkr] at hm
        exact hq m hm
      | some r =>
        rw [hkr] at hm
        dsimp only at hm
        by_cases hrc : (get_name r == PName.R && !(has_moved r) && (is_white r == c) &&
            [gridGet b.board ((if c then 0 else 7 : Int), 5),
             gridGet b.board ((if c then 0 else 7 : Int), 6)].all
               (fun s => s.isNone)) = true
        case neg =>
          rw [if_neg hrc] at hm
          exact hq m hm
        case pos =>
          rw [if_pos hrc] at hm
          rcases mem_addMove hm with hm2 | hm2
          · subst hm2
            obtain ⟨hr1, hre⟩ := bandE hrc
            obtain ⟨hr1a, hr3⟩ := bandE hr1
            obtain ⟨hr1b, hr2⟩ := bandE hr1a
            simp only [List.all_cons, List.all_nil, Bool.and_true,
              Bool.and_eq_true, Option.isNone_iff_eq_none] at hre
            exact ⟨rfl, hkg, ⟨r, hkr, beq_name hr1b, beq_color hr3, not_moved hr2⟩,
              hre.1, hre.2⟩
          · exact hq m hm2

/-- Facts about a flagged square from the opponent index. -/
theorem ep_square_facts {b : Board} {c : Bool} (hwf : wf b = true) {q : Pos}
    (hq : posMem q (selectPositions (if c then b.black_pieces else b.white_pieces)
      can_ep) = true) :
    ∃ qc, gridGet b.board q = some qc ∧ is_white qc = !c ∧ can_ep qc = true ∧
      _is_in_bounds q = true := by
  obtain ⟨qc, hmem, hflag⟩ := mem_selectPositions.mp (posMem_iff.mp hq)
  cases c with
  | true =>
    obtain ⟨hinb, hg, hcol⟩ := mapAligned_spec (wf_parts hwf).2.2.2.2.1 hmem
    exact ⟨qc, hg, hcol, hflag, hinb⟩
  | false =>
    obtain ⟨hinb, hg, hcol⟩ := mapAligned_spec (wf_parts hwf).2.2.2.1 hmem
    exact ⟨qc, hg, hcol, hflag, hinb⟩

/-- Soundness of the en-passant fold. -/
theorem epFold_sound {b : Board} {c : Bool} (hwf : wf b = true) :
    ∀ {pps : List Pos} {acc : List Move} {m : Move},
      (∀ p ∈ pps, ∃ pc, gridGet b.board p = some pc ∧ get_name pc = PName.P ∧
        is_white pc = c ∧ _is_in_bounds p = true) →
      (∀ x ∈ acc, MoveOK b c x) →
      m ∈ pps.foldl (epStep b c
        (selectPositions (if c then b.black_pieces else b.white_pieces) can_ep)) acc →
      MoveOK b c m := by
  intro pps
  induction pps with
  | nil =>
    intro acc m _ hacc hm
    exact hacc m hm
  | cons p rest ih =>
    intro acc m hpp hacc hm
    refine ih (fun q hq => hpp q (List.mem_cons_of_mem _ hq)) ?_ hm
    obtain ⟨pc, hgp, hpcN, hpcw, hpinb⟩ := hpp p (List.mem_cons_self _ _)
    intro x hx
    rw [epStep] at hx
    rw [hgp] at hx
    dsimp only at hx
    have hinner : ∀ y ∈ (if (posMem (p.1, p.2 - 1)
          (selectPositions (if c then b.black_pieces else b.white_pieces) can_ep) &&
          _is_in_bounds (p.1 + 1 * (if c then 1 else -1), p.2 - 1) &&
          (gridGet b.board (p.1 + 1 * (if c then 1 else -1), p.2 - 1)).isNone) = true then
        addMove acc (make_move (get_name pc) p
          (p.1 + 1 * (if c then 1 else -1), p.2 - 1) true (some PName.P))
      else acc), MoveOK b c y := by
      intro y hy
      by_cases hcd : (posMem (p.1, p.2 - 1)
          (selectPositions (if c then b.black_pieces else b.white_pieces) can_ep) &&
          _is_in_bounds (p.1 + 1 * (if c then 1 else -1), p.2 - 1) &&
          (gridGet b.board (p.1 + 1 * (if c then 1 else -1), p.2 - 1)).isNone) = true
      case neg =>
        rw [if_neg hcd] at hy
        exact hacc y hy
      case pos =>
        rw [if_pos hcd] at hy
        rcases mem_addMove hy with hy2 | hy2
        · subst hy2
          obtain ⟨hcd1, hcd3⟩ := bandE hcd
          obtain ⟨hcd1a, hcd2⟩ := bandE hcd1
          obtain ⟨qc, hgq, hqcw, hqcf, hqinb⟩ := ep_square_facts hwf hcd1a
          rw [Option.isNone_iff_eq_none] at hcd3
          exact ⟨pc, qc, hgp, hpcN, hpcw, hpcN, rfl, hcd3, hgq, hqcw, hqcf, hpinb,
            hcd2, hqinb⟩
        · exact hacc y hy2
    by_cases hcd : (posMem (p.1, p.2 + 1)
        (selectPositions (if c then b.black_pieces else b.white_pieces) can_ep) &&
        _is_in_bounds (p.1 + 1 * (if c then 1 else -1), p.2 + 1) &&
        (gridGet b.board (p.1 + 1 * (if c then 1 else -1), p.2 + 1)).isNone) = true
    case neg =>
      rw [if_neg hcd] at hx
      exact hinner x hx
    case pos =>
      rw [if_pos hcd] at hx
      rcases mem_addMove hx with hx2 | hx2
      · subst hx2
        obtain ⟨hcd1, hcd3⟩ := bandE hcd
        obtain ⟨hcd1a, hcd2⟩ := bandE hcd1
        obtain ⟨qc, hgq, hqcw, hqcf, hqinb⟩ := ep_square_facts hwf hcd1a
        rw [Option.isNone_iff_eq_none] at hcd3
        exact ⟨pc, qc, hgp, hpcN, hpcw, hpcN, rfl, hcd3, hgq, hqcw, hqcf, hpinb,
          hcd2, hqinb⟩
      · exact hinner x hx2

/-- Soundness of the per-piece fold. -/
theorem pseudoMain_sound {b : Board} {c : Bool} (hwf : wf b = true) {m : Move}
    (hm : m ∈ pseudoMain b c) : MoveOK b c m := by
  rw [pseudoMain] at hm
  have main : ∀ {entries : PieceMap} {acc : List Move},
      (∀ pp ∈ entries, pp ∈ (if c then b.white_pieces else b.black_pieces)) →
      (∀ x ∈ acc, MoveOK b c x) →
      ∀ {m2 : Move}, m2 ∈ entries.foldl
        (fun moves pp =>
          match gridGet b.board pp.1 with
          | none => moves
          | some piece =>
            match get_name piece with
            | PName.K => addMoves moves (b._get_king_moves piece pp.1)
            | PName.Q => addMoves moves (b._get_queen_moves piece pp.1)
            | PName.B => addMoves moves (b._get_bishop_moves piece pp.1)
            | PName.N => addMoves moves (b._get_knight_moves piece pp.1)
            | PName.R => addMoves moves (b._get_rook_moves piece pp.1)
            | PName.P => addMoves moves (b._get_pawn_moves piece pp.1)) acc →
      MoveOK b c m2 := by
    intro entries
    induction entries with
    | nil =>
      intro acc _ hacc m2 hm2
      exact hacc m2 hm2
    | cons pp rest ih =>
      intro acc hent hacc m2 hm2
      refine ih (fun q hq => hent q (List.mem_cons_of_mem _ hq)) ?_ hm2
      have hppm := hent pp (List.mem_cons_self _ _)
      have haligned : _is_in_bounds pp.1 = true ∧ gridGet b.board pp.1 = some pp.2 ∧
          is_white pp.2 = c := by
        cases c with
        | true => exact mapAligned_spec (wf_parts hwf).2.2.2.1 hppm
        | false => exact mapAligned_spec (wf_parts hwf).2.2.2.2.1 hppm
      obtain ⟨hinb, hga, hcw⟩ := haligned
      intro x hx
      dsimp only at hx
      rw [hga] at hx
      dsimp only at hx
      cases hnm : get_name pp.2 with
      | K =>
        rw [hnm] at hx
        dsimp only at hx
        rcases mem_addMoves hx with hx2 | hx2
        · exact (king_moves_sound hcw hga hinb hx2).1
        · exact hacc x hx2
      | Q =>
        rw [hnm] at hx
        dsimp only at hx
        rcases mem_addMoves hx with hx2 | hx2
        · exact (queen_moves_sound hcw hga hinb hx2).1
        · exact hacc x hx2
      | B =>
        rw [hnm] at hx
        dsimp only at hx
        rcases mem_addMoves hx with hx2 | hx2
        · exact (bishop_moves_sound hcw hga hinb hx2).1
        · exact hacc x hx2
      | N =>
        rw [hnm] at hx
        dsimp only at hx
        rcases mem_addMoves hx with hx2 | hx2
        · exact (knight_moves_sound hcw hga hinb hx2).1
        · exact hacc x hx2
      | R =>
        rw [hnm] at hx
        dsimp only at hx
        rcases mem_addMoves hx with hx2 | hx2
        · exact (rook_moves_sound hcw hga hinb hx2).1
        · exact hacc x hx2
      | P =>
        rw [hnm] at hx
        dsimp only at hx
        rcases mem_addMoves hx with hx2 | hx2
        · exact (pawn_moves_sound hcw hga hnm hinb hx2).1
        · exact hacc x hx2
  exact main (fun pp hp => hp) (fun x hx => absurd hx (List.not_mem_nil x)) hm

/-- Every pseudo-move the generator emits satisfies its MoveOK contract. -/
theorem psuedo_sound {b : Board} {c : Bool} (hwf : wf b = true) {m : Move}
    (hm : m ∈ b._get_psuedo_moves c) : MoveOK b c m := by
  rw [psuedo_eq] at hm
  refine epFold_sound hwf ?_ ?_ hm
  · intro p hp
    obtain ⟨pc, hmem, hname⟩ := mem_selectPositions.mp hp
    have haligned : _is_in_bounds p = true ∧ gridGet b.board p = some pc ∧
        is_white pc = c := by
      cases c with
      | true => exact mapAligned_spec (wf_parts hwf).2.2.2.1 hmem
      | false => exact mapAligned_spec (wf_parts hwf).2.2.2.2.1 hmem
    exact ⟨pc, haligned.2.1, eq_of_beq hname, haligned.2.2, haligned.1⟩
  · intro x hx
    exact pseudoCastle_sound (fun y hy => pseudoMain_sound hwf hy) hx

theorem clearEp_eq (b : Board) (c : Bool) :
    b.clearEp c = (selectPositions (if c then b.white_pieces else b.black_pieces)
      (fun pwn => get_name pwn == PName.P)).foldl (clearStep c) b := rfl

theorem pieceFix_id {c : Bool} {v : Piece}
    (h : ¬(get_name v = PName.P ∧ is_white v = c)) : pieceFix c v = v := by
  rw [pieceFix]
  by_cases h1 : (get_name v == PName.P && (is_white v == c) && can_ep v) = true
  · obtain ⟨h2, _⟩ := bandE h1
    obtain ⟨h3, h4⟩ := bandE h2
    exact absurd ⟨eq_of_beq h3, eq_of_beq h4⟩ h
  · rw [if_neg h1]

theorem piece_eta {v : Piece} (hn : get_name v = PName.P) (he : can_ep v = false) :
    make_piece PName.P (is_white v) (has_moved v) false = v := by
  cases v with
  | mk n w m e =>
    simp only [get_name] at hn
    simp only [can_ep] at he
    rw [make_piece, is_white, has_moved]
    subst hn
    subst he
    rfl

theorem pieceFix_pawn {c : Bool} {v : Piece} (hn : get_name v = PName.P)
    (hw : is_white v = c) :
    pieceFix c v = make_piece PName.P (is_white v) (has_moved v) false := by
  rw [pieceFix]
  cases he : can_ep v with
  | true =>
    have hcond : (get_name v == PName.P && (is_white v == c) && true) = true := by
      rw [hn, hw]
      simp
    rw [if_pos hcond]
  | false =>
    have hcond : ¬((get_name v == PName.P && (is_white v == c) && false) = true) := by
      simp
    rw [if_neg hcond]
    exact (piece_eta hn he).symm

theorem pieceFix_white (c : Bool) (v : Piece) : is_white (pieceFix c v) = is_white v := by
  rw [pieceFix]
  by_cases h : (get_name v == PName.P && (is_white v == c) && can_ep v) = true
  · rw [if_pos h]
    rfl
  · rw [if_neg h]

theorem pieceFix_name (c : Bool) (v : Piece) : get_name (pieceFix c v) = get_name v := by
  rw [pieceFix]
  by_cases h : (get_name v == PName.P && (is_white v == c) && can_ep v) = true
  · rw [if_pos h]
    obtain ⟨h2, _⟩ := bandE h
    obtain ⟨h3, _⟩ := bandE h2
    rw [get_name_make, eq_of_beq h3]
  · rw [if_neg h]

theorem sel_pairwise {d : PieceMap} {f : Piece → Bool} (hs : chainLt d = true) :
    (selectPositions d f).Pairwise (fun a b => a ≠ b) := by
  induction d with
  | nil => exact List.Pairwise.nil
  | cons e rest ih =>
    rw [selectPositions, List.foldr_cons]
    show List.Pairwise _ (if f e.2 then e.1 :: selectPositions rest f
      else selectPositions rest f)
    have ihr := ih (chainLt_tail hs)
    by_cases hf : f e.2 = true
    · rw [if_pos hf]
      refine List.Pairwise.cons ?_ ihr
      intro q hq
      obtain ⟨qc, hqm, _⟩ := mem_selectPositions.mp hq
      have := chainLt_head_lt hs (q, qc) hqm
      exact fun hc => absurd (hc ▸ this) (by rw [posLt_irrefl]; simp)
    · rw [if_neg hf]
      exact ihr

theorem dictGet_mapVal (f : Piece → Piece) (l : PieceMap) (k : Pos) :
    dictGet k (l.map (fun pp => (pp.1, f pp.2))) = (dictGet k l).map f := by
  induction l with
  | nil => rfl
  | cons e rest ih =>
    rw [List.map_cons, dictGet, dictGet]
    by_cases h : posEq k e.1 = true
    · rw [if_pos h, if_pos h]
      rfl
    · rw [if_neg h, if_neg h]
      exact ih

theorem chainLt_mapVal (f : Piece → Piece) {l : PieceMap} (hs : chainLt l = true) :
    chainLt (l.map (fun pp => (pp.1, f pp.2))) = true := by
  induction l with
  | nil => rfl
  | cons e rest ih =>
    cases rest with
    | nil => rfl
    | cons e2 rest2 =>
      obtain ⟨h1, h2⟩ := bandE hs
      have ih2 := ih h2
      show (posLt e.1 e2.1 &&
        chainLt (List.map (fun pp => (pp.1, f pp.2)) (e2 :: rest2))) = true
      rw [h1, ih2]
      rfl

theorem gridShape_map (f : Option Piece → Option Piece) {g : Grid}
    (hs : gridShape g = true) : gridShape (g.map (fun row => row.map f)) = true := by
  obtain ⟨h1, h2⟩ := gridShape_spec hs
  rw [gridShape, Bool.and_eq_true]
  constructor
  · simp [h1]
  · rw [List.all_eq_true]
    intro r hr
    obtain ⟨r0, hr0, hre⟩ := List.mem_map.mp hr
    subst hre
    simp [h2 r0 hr0]

/-- The clearing fold, analysed pointwise. -/
theorem clearFold_inv {b : Board} {c : Bool} (hwf : wf b = true) :
    ∀ {rem : List Pos} {bi : Board},
      (∀ q ∈ rem, ∃ pc, dictGet q (cmap c b) = some pc ∧ get_name pc = PName.P) →
      rem.Pairwise (fun a b2 => a ≠ b2) →
      gridShape bi.board = true →
      chainLt (cmap c bi) = true →
      omap c bi = omap c b →
      bi.white_king = b.white_king →
      bi.black_king = b.black_king →
      (∀ q, q ∈ rem →
        (_is_in_bounds q = true → gridGet bi.board q = gridGet b.board q) ∧
        dictGet q (cmap c bi) = dictGet q (cmap c b)) →
      (∀ q, q ∉ rem →
        (_is_in_bounds q = true →
          gridGet bi.board q = (gridGet b.board q).map (pieceFix c)) ∧
        dictGet q (cmap c bi) = (dictGet q (cmap c b)).map (pieceFix c)) →
      (let bf := rem.foldl (clearStep c) bi
       gridShape bf.board = true ∧ chainLt (cmap c bf) = true ∧
       omap c bf = omap c b ∧ bf.white_king = b.white_king ∧
       bf.black_king = b.black_king ∧
       (∀ q, (_is_in_bounds q = true →
         gridGet bf.board q = (gridGet b.board q).map (pieceFix c)) ∧
         dictGet q (cmap c bf) = (dictGet q (cmap c b)).map (pieceFix c))) := by
  intro rem
  induction rem with
  | nil =>
    intro bi _ _ hshape hchain homap hwk hbk _ hout
    exact ⟨hshape, hchain, homap, hwk, hbk, fun q => hout q (List.not_mem_nil q)⟩
  | cons q0 rest ih =>
    intro bi hrem hpair hshape hchain homap hwk hbk hin hout
    obtain ⟨pc, hdq0, hpcN⟩ := hrem q0 (List.mem_cons_self _ _)
    have halign : _is_in_bounds q0 = true ∧ gridGet b.board q0 = some pc ∧
        is_white pc = c := by
      cases c with
      | true => exact mapAligned_spec (wf_parts hwf).2.2.2.1 (dictGet_mem hdq0)
      | false => exact mapAligned_spec (wf_parts hwf).2.2.2.2.1 (dictGet_mem hdq0)
    obtain ⟨hq0b, hgq0, hpcw⟩ := halign
    have hbig : gridGet bi.board q0 = some pc := by
      rw [(hin q0 (List.mem_cons_self _ _)).1 hq0b, hgq0]
    have hbid : dictGet q0 (cmap c bi) = some pc := by
      rw [(hin q0 (List.mem_cons_self _ _)).2, hdq0]
    have hq0rest : q0 ∉ rest := by
      intro hc
      exact (List.pairwise_cons.mp hpair).1 q0 hc rfl
    -- the stepped board
    have hstep : clearStep c bi q0 =
        (if c then
           { bi with
             board := (gridSet bi.board q0
               (some (make_piece PName.P (is_white pc) (has_moved pc) false))),
             white_pieces := (dictInsert q0
               (make_piece PName.P (is_white pc) (has_moved pc) false) bi.white_pieces) }
         else
           { bi with
             board := (gridSet bi.board q0
               (some (make_piece PName.P (is_white pc) (has_moved pc) false))),
             black_pieces := (dictInsert q0
               (make_piece PName.P (is_white pc) (has_moved pc) false) bi.black_pieces) })
        := by
      rw [clearStep, hbig]
    dsimp only
    rw [List.foldl_cons, hstep]
    have hnp : make_piece PName.P (is_white pc) (has_moved pc) false = pieceFix c pc :=
      (pieceFix_pawn hpcN hpcw).symm
    -- apply the induction hypothesis to the new state
    refine ih (fun q hq => hrem q (List.mem_cons_of_mem _ hq))
      (List.pairwise_cons.mp hpair).2 ?_ ?_ ?_ ?_ ?_ ?_ ?_
    · cases c <;> exact gridShape_set hshape _ _
    · cases c with
      | true =>
        show chainLt (dictInsert q0 _ bi.white_pieces) = true
        exact chainLt_dictInsert (by simpa [cmap] using hchain)
      | false =>
        show chainLt (dictInsert q0 _ bi.black_pieces) = true
        exact chainLt_dictInsert (by simpa [cmap] using hchain)
    · cases c with
      | true => simpa [omap] using homap
      | false => simpa [omap] using homap
    · cases c <;> exact hwk
    · cases c <;> exact hbk
    · intro q hqrest
      have hne : q ≠ q0 := by
        intro hc
        rw [hc] at hqrest
        exact hq0rest hqrest
      have hin2 := hin q (List.mem_cons_of_mem _ hqrest)
      cases c with
      | true =>
        refine ⟨fun hq => ?_, ?_⟩
        · exact (gridGet_set_other hshape hq0b hq (fun hc => hne hc.symm) _).trans
            (hin2.1 hq)
        · show dictGet q (dictInsert q0 _ bi.white_pieces) = _
          rw [dictGet_insert_eq, if_neg hne]
          exact hin2.2
      | false =>
        refine ⟨fun hq => ?_, ?_⟩
        · exact (gridGet_set_other hshape hq0b hq (fun hc => hne hc.symm) _).trans
            (hin2.1 hq)
        · show dictGet q (dictInsert q0 _ bi.black_pieces) = _
          rw [dictGet_insert_eq, if_neg hne]
          exact hin2.2
    · intro q hqout
      by_cases hqe : q = q0
      · subst hqe
        have hgq : gridGet (gridSet bi.board q
            (some (make_piece PName.P (is_white pc) (has_moved pc) false))) q
            = some (make_piece PName.P (is_white pc) (has_moved pc) false) :=
          gridGet_set_self hshape hq0b _
        cases c with
        | true =>
          refine ⟨fun _ => hgq.trans (by rw [hgq0, hnp]; rfl), ?_⟩
          show dictGet q (dictInsert q _ bi.white_pieces) = _
          rw [dictGet_insert_eq, if_pos rfl, show dictGet q (cmap true b) = some pc
            from hdq0, hnp]
          rfl
        | false =>
          refine ⟨fun _ => hgq.trans (by rw [hgq0, hnp]; rfl), ?_⟩
          show dictGet q (dictInsert q _ bi.black_pieces) = _
          rw [dictGet_insert_eq, if_pos rfl, show dictGet q (cmap false b) = some pc
            from hdq0, hnp]
          rfl
      · have hqnot : q ∉ q0 :: rest := by
          intro hc
          cases hc with
          | head => exact hqe rfl
          | tail _ hc2 => exact hqout hc2
        have hout2 := hout q hqnot
        cases c with
        | true =>
          refine ⟨fun hq => ?_, ?_⟩
          · exact (gridGet_set_other hshape hq0b hq (fun hc => hqe hc.symm) _).trans
              (hout2.1 hq)
          · show dictGet q (dictInsert q0 _ bi.white_pieces) = _
            rw [dictGet_insert_eq, if_neg hqe]
            exact hout2.2
        | false =>
          refine ⟨fun hq => ?_, ?_⟩
          · exact (gridGet_set_other hshape hq0b hq (fun hc => hqe hc.symm) _).trans
              (hout2.1 hq)
          · show dictGet q (dictInsert q0 _ bi.black_pieces) = _
            rw [dictGet_insert_eq, if_neg hqe]
            exact hout2.2

theorem wf_intro {b : Board} (h1 : gridShape b.board = true)
    (h2 : chainLt b.white_pieces = true) (h3 : chainLt b.black_pieces = true)
    (h4 : mapAligned true b.board b.white_pieces = true)
    (h5 : mapAligned false b.board b.black_pieces = true)
    (h6 : gridCovered b = true) (h7 : kingsOk b = true) : wf b = true := by
  rw [wf, h1, h2, h3, h4, h5, h6, h7]
  rfl

theorem mapAligned_intro {white : Bool} {g : Grid} {l : PieceMap}
    (h : ∀ pp ∈ l, _is_in_bounds pp.1 = true ∧ gridGet g pp.1 = some pp.2 ∧
      is_white pp.2 = white) : mapAligned white g l = true := by
  rw [mapAligned, List.all_eq_true]
  intro pp hm
  obtain ⟨h1, h2, h3⟩ := h pp hm
  rw [h1, h2, h3]
  simp

theorem gridCovered_intro {b : Board}
    (h : ∀ p, _is_in_bounds p = true → ∀ pce, gridGet b.board p = some pce →
      (if is_white pce then dictGet p b.white_pieces else dictGet p b.black_pieces)
        = some pce) : gridCovered b = true := by
  rw [gridCovered, List.all_eq_true]
  intro r hr
  rw [List.all_eq_true]
  intro f hf
  have hb : _is_in_bounds ((r : Int), (f : Int)) = true :=
    inb_ofNat (List.mem_range.mp hr) (List.mem_range.mp hf)
  cases hg : gridGet b.board ((r : Int), (f : Int)) with
  | none => dsimp only
  | some pce =>
    dsimp only
    rw [h _ hb pce hg]
    simp

theorem kingsOk_intro {b : Board}
    (h1 : ∀ pp ∈ b.white_pieces, get_name pp.2 = PName.K → pp.1 = b.white_king)
    (h2 : ∀ pp ∈ b.black_pieces, get_name pp.2 = PName.K → pp.1 = b.black_king) :
    kingsOk b = true := by
  rw [kingsOk, Bool.and_eq_true]
  constructor
  · rw [List.all_eq_true]
    intro pp hm
    by_cases hk : get_name pp.2 = PName.K
    · rw [h1 pp hm hk, posEq_refl]
      simp
    · have : pnameEq (get_name pp.2) PName.K = false := by
        cases hq : pnameEq (get_name pp.2) PName.K
        · rfl
        · exact absurd (pnameEq_iff.mp hq) hk
      rw [this]
      simp
  · rw [List.all_eq_true]
    intro pp hm
    by_cases hk : get_name pp.2 = PName.K
    · rw [h2 pp hm hk, posEq_refl]
      simp
    · have : pnameEq (get_name pp.2) PName.K = false := by
        cases hq : pnameEq (get_name pp.2) PName.K
        · rfl
        · exact absurd (pnameEq_iff.mp hq) hk
      rw [this]
      simp

/-- clearEp computes exactly the board the frame-effect claim describes. -/
theorem clearEp_spec {b : Board} (c : Bool) (hwf : wf b = true) :
    b.clearEp c = epCleared b c := by
  obtain ⟨hsh, hcw, hcb, haw, hab, hcov, hk⟩ := wf_parts hwf
  have hchain : chainLt (cmap c b) = true := by
    cases c with
    | true => exact hcw
    | false => exact hcb
  have hrem : ∀ q ∈ selectPositions (cmap c b) (fun pwn => get_name pwn == PName.P),
      ∃ pc, dictGet q (cmap c b) = some pc ∧ get_name pc = PName.P := by
    intro q hq
    obtain ⟨pc, hm, hf⟩ := mem_selectPositions.mp hq
    exact ⟨pc, mem_dictGet hchain hm, eq_of_beq hf⟩
  have hpair := @sel_pairwise (cmap c b) (fun pwn => get_name pwn == PName.P) hchain
  have hin0 : ∀ q ∈ selectPositions (cmap c b) (fun pwn => get_name pwn == PName.P),
      (_is_in_bounds q = true → gridGet b.board q = gridGet b.board q) ∧
      dictGet q (cmap c b) = dictGet q (cmap c b) := fun q _ => ⟨fun _ => rfl, rfl⟩
  have hid_of : ∀ q v, gridGet b.board q = some v →
      q ∉ selectPositions (cmap c b) (fun pwn => get_name pwn == PName.P) →
      _is_in_bounds q = true → pieceFix c v = v := by
    intro q v hg hq hqb
    apply pieceFix_id
    rintro ⟨hn, hw2⟩
    have hcv := gridCovered_spec hcov hqb hg
    have hdv : dictGet q (cmap c b) = some v := by
      rw [hw2] at hcv
      cases c with
      | true => exact hcv
      | false => exact hcv
    refine hq (mem_selectPositions.mpr ⟨v, dictGet_mem hdv, ?_⟩)
    rw [hn]
    rfl
  have hout0 : ∀ q,
      q ∉ selectPositions (cmap c b) (fun pwn => get_name pwn == PName.P) →
      (_is_in_bounds q = true →
        gridGet b.board q = (gridGet b.board q).map (pieceFix c)) ∧
      dictGet q (cmap c b) = (dictGet q (cmap c b)).map (pieceFix c) := by
    intro q hq
    constructor
    · intro hqb
      cases hg : gridGet b.board q with
      | none => rfl
      | some v =>
        show some v = some (pieceFix c v)
        rw [hid_of q v hg hq hqb]
    · cases hd : dictGet q (cmap c b) with
      | none => rfl
      | some v =>
        have halign : _is_in_bounds q = true ∧ gridGet b.board q = some v ∧
            is_white v = c := by
          cases c with
          | true => exact mapAligned_spec haw (dictGet_mem hd)
          | false => exact mapAligned_spec hab (dictGet_mem hd)
        obtain ⟨hqb, hgv, _⟩ := halign
        show some v = some (pieceFix c v)
        rw [hid_of q v hgv hq hqb]
  have key := @clearFold_inv b c hwf
    (selectPositions (cmap c b) (fun pwn => get_name pwn == PName.P)) b
    hrem hpair hsh hchain rfl rfl rfl hin0 hout0
  obtain ⟨ksh, kch, kom, kwk, kbk, kpt⟩ := key
  have he : b.clearEp c = List.foldl (clearStep c) b
      (selectPositions (cmap c b) (fun pwn => get_name pwn == PName.P)) :=
    clearEp_eq b c
  rw [he]
  refine board_ext ?_ ?_ ?_ ?_ ?_
  · refine grid_ext ksh (gridShape_map (Option.map (pieceFix c)) hsh) ?_
    intro r f hr hf
    have hqb := inb_ofNat hr hf
    have hrw : (epCleared b c).board =
        b.board.map (fun row => row.map (Option.map (pieceFix c))) := rfl
    rw [(kpt ((r : Int), (f : Int))).1 hqb, hrw, gridGet_mapGrid]
  · exact kwk
  · exact kbk
  · cases c with
    | true =>
      refine dict_ext kch (chainLt_mapVal (pieceFix true) hcw) ?_
      intro p
      rw [show dictGet p ((epCleared b true).white_pieces)
        = (dictGet p b.white_pieces).map (pieceFix true) from
        dictGet_mapVal (pieceFix true) b.white_pieces p]
      exact (kpt p).2
    | false => exact kom
  · cases c with
    | true => exact kom
    | false =>
      refine dict_ext kch (chainLt_mapVal (pieceFix false) hcb) ?_
      intro p
      rw [show dictGet p ((epCleared b false).black_pieces)
        = (dictGet p b.black_pieces).map (pieceFix false) from
        dictGet_mapVal (pieceFix false) b.black_pieces p]
      exact (kpt p).2

/-- The spec-worded cleared board is well formed. -/
theorem wf_epCleared {b : Board} (c : Bool) (hwf : wf b = true) :
    wf (epCleared b c) = true := by
  obtain ⟨hsh, hcw, hcb, haw, hab, hcov, hk⟩ := wf_parts hwf
  have hgm : (epCleared b c).board =
      b.board.map (fun row => row.map (Option.map (pieceFix c))) := rfl
  refine wf_intro ?_ ?_ ?_ ?_ ?_ ?_ ?_
  · rw [hgm]
    exact gridShape_map (Option.map (pieceFix c)) hsh
  · cases c with
    | true => exact chainLt_mapVal (pieceFix true) hcw
    | false => exact hcw
  · cases c with
    | true => exact hcb
    | false => exact chainLt_mapVal (pieceFix false) hcb
  · apply mapAligned_intro
    intro pp hm
    cases c with
    | true =>
      obtain ⟨pp0, hm0, he⟩ := List.mem_map.mp hm
      obtain ⟨h1, h2, h3⟩ := mapAligned_spec haw hm0
      subst he
      refine ⟨h1, ?_, ?_⟩
      · show gridGet (b.board.map (fun row => row.map (Option.map (pieceFix true))))
          pp0.1 = _
        rw [gridGet_mapGrid, h2]
        rfl
      · show is_white (pieceFix true pp0.2) = true
        rw [pieceFix_white, h3]
    | false =>
      obtain ⟨h1, h2, h3⟩ := mapAligned_spec haw hm
      refine ⟨h1, ?_, h3⟩
      show gridGet (b.board.map (fun row => row.map (Option.map (pieceFix false))))
        pp.1 = _
      rw [gridGet_mapGrid, h2]
      show some (pieceFix false pp.2) = some pp.2
      rw [pieceFix_id]
      rintro ⟨_, hx⟩
      rw [h3] at hx
      cases hx
  · apply mapAligned_intro
    intro pp hm
    cases c with
    | true =>
      obtain ⟨h1, h2, h3⟩ := mapAligned_spec hab hm
      refine ⟨h1, ?_, h3⟩
      show gridGet (b.board.map (fun row => row.map (Option.map (pieceFix true))))
        pp.1 = _
      rw [gridGet_mapGrid, h2]
      show some (pieceFix true pp.2) = some pp.2
      rw [pieceFix_id]
      rintro ⟨_, hx⟩
      rw [h3] at hx
      cases hx
    | false =>
      obtain ⟨pp0, hm0, he⟩ := List.mem_map.mp hm
      obtain ⟨h1, h2, h3⟩ := mapAligned_spec hab hm0
      subst he
      refine ⟨h1, ?_, ?_⟩
      · show gridGet (b.board.map (fun row => row.map (Option.map (pieceFix false))))
          pp0.1 = _
        rw [gridGet_mapGrid, h2]
        rfl
      · show is_white (pieceFix false pp0.2) = false
        rw [pieceFix_white, h3]
  · apply gridCovered_intro
    intro p hpb pce hg
    rw [hgm, gridGet_mapGrid] at hg
    cases hg0 : gridGet b.board p with
    | none =>
      rw [hg0] at hg
      cases hg
    | some v =>
      rw [hg0] at hg
      have hpce : pce = pieceFix c v := by
        have : some (pieceFix c v) = some pce := hg
        injection this with h
        exact h.symm
      have hcv := gridCovered_spec hcov hpb hg0
      have hpw : is_white pce = is_white v := by
        rw [hpce, pieceFix_white]
      cases hwv : is_white v with
      | true =>
        rw [hwv] at hcv
        rw [if_pos rfl] at hcv
        rw [hpw, hwv, if_pos rfl]
        cases c with
        | true =>
          show dictGet p (b.white_pieces.map (fun pp => (pp.1, pieceFix true pp.2)))
            = some pce
          rw [dictGet_mapVal, hcv, hpce]
          rfl
        | false =>
          show dictGet p b.white_pieces = some pce
          rw [hcv, hpce, pieceFix_id]
          rintro ⟨_, hx⟩
          rw [hwv] at hx
          cases hx
      | false =>
        rw [hwv] at hcv
        rw [if_neg Bool.false_ne_true] at hcv
        rw [hpw, hwv, if_neg Bool.false_ne_true]
        cases c with
        | true =>
          show dictGet p b.black_pieces = some pce
          rw [hcv, hpce, pieceFix_id]
          rintro ⟨_, hx⟩
          rw [hwv] at hx
          cases hx
        | false =>
          show dictGet p (b.black_pieces.map (fun pp => (pp.1, pieceFix false pp.2)))
            = some pce
          rw [dictGet_mapVal, hcv, hpce]
          rfl
  · obtain ⟨hk1, hk2⟩ := kingsOk_spec hk
    apply kingsOk_intro
    · intro pp hm hkn
      cases c with
      | true =>
        obtain ⟨pp0, hm0, he⟩ := List.mem_map.mp hm
        subst he
        have : get_name pp0.2 = PName.K := by
          rw [← pieceFix_name true pp0.2]
          exact hkn
        exact hk1 pp0 hm0 this
      | false => exact hk1 pp hm hkn
    · intro pp hm hkn
      cases c with
      | true => exact hk2 pp hm hkn
      | false =>
        obtain ⟨pp0, hm0, he⟩ := List.mem_map.mp hm
        subst he
        have : get_name pp0.2 = PName.K := by
          rw [← pieceFix_name false pp0.2]
          exact hkn
        exact hk2 pp0 hm0 this

/-- clearEp preserves well-formedness. -/
theorem wf_clearEp {b : Board} (c : Bool) (hwf : wf b = true) :
    wf (b.clearEp c) = true := by
  rw [clearEp_spec c hwf]
  exact wf_epCleared c hwf

theorem cmap_not (c : Bool) (b : Board) : cmap (!c) b = omap c b := by
  cases c <;> rfl

theorem omap_not (c : Bool) (b : Board) : omap (!c) b = cmap c b := by
  cases c <;> rfl

theorem wf_intro_sided {b : Board} (c : Bool) (h1 : gridShape b.board = true)
    (h2 : chainLt (cmap c b) = true) (h3 : chainLt (omap c b) = true)
    (h4 : mapAligned c b.board (cmap c b) = true)
    (h5 : mapAligned (!c) b.board (omap c b) = true)
    (h6 : gridCovered b = true) (h7 : kingsOk b = true) : wf b = true := by
  cases c with
  | true => exact wf_intro h1 h2 h3 h4 h5 h6 h7
  | false => exact wf_intro h1 h3 h2 h5 h4 h6 h7

theorem cmap_chain {b : Board} {c : Bool} (hwf : wf b = true) :
    chainLt (cmap c b) = true := by
  cases c with
  | true => exact (wf_parts hwf).2.1
  | false => exact (wf_parts hwf).2.2.1

theorem omap_chain {b : Board} {c : Bool} (hwf : wf b = true) :
    chainLt (omap c b) = true := by
  cases c with
  | true => exact (wf_parts hwf).2.2.1
  | false => exact (wf_parts hwf).2.1

theorem cmap_get {b : Board} {c : Bool} (hwf : wf b = true) {p : Pos} {v : Piece}
    (h : dictGet p (cmap c b) = some v) :
    _is_in_bounds p = true ∧ gridGet b.board p = some v ∧ is_white v = c := by
  cases c with
  | true => exact mapAligned_spec (wf_parts hwf).2.2.2.1 (dictGet_mem h)
  | false => exact mapAligned_spec (wf_parts hwf).2.2.2.2.1 (dictGet_mem h)

theorem omap_get {b : Board} {c : Bool} (hwf : wf b = true) {p : Pos} {v : Piece}
    (h : dictGet p (omap c b) = some v) :
    _is_in_bounds p = true ∧ gridGet b.board p = some v ∧ is_white v = (!c) := by
  cases c with
  | true => exact mapAligned_spec (wf_parts hwf).2.2.2.2.1 (dictGet_mem h)
  | false => exact mapAligned_spec (wf_parts hwf).2.2.2.1 (dictGet_mem h)

theorem cmap_covered {b : Board} (hwf : wf b = true) {p : Pos} {pce : Piece} {c : Bool}
    (hp : _is_in_bounds p = true) (hg : gridGet b.board p = some pce)
    (hw : is_white pce = c) : dictGet p (cmap c b) = some pce := by
  have hcv := gridCovered_spec (wf_parts hwf).2.2.2.2.2.1 hp hg
  rw [hw] at hcv
  cases c with
  | true =>
    rw [if_pos rfl] at hcv
    exact hcv
  | false =>
    rw [if_neg Bool.false_ne_true] at hcv
    exact hcv

theorem cmap_none {b : Board} {c : Bool} (hwf : wf b = true) {p : Pos}
    (h : ∀ v, gridGet b.board p = some v → is_white v = (!c)) :
    dictGet p (cmap c b) = none := by
  cases hq : dictGet p (cmap c b) with
  | none => rfl
  | some v =>
    obtain ⟨_, hg, hw⟩ := cmap_get hwf hq
    rw [h v hg] at hw
    exact absurd hw (bool_not_ne c)

theorem omap_none {b : Board} {c : Bool} (hwf : wf b = true) {p : Pos}
    (h : ∀ v, gridGet b.board p = some v → is_white v = c) :
    dictGet p (omap c b) = none := by
  cases hq : dictGet p (omap c b) with
  | none => rfl
  | some v =>
    obtain ⟨_, hg, hw⟩ := omap_get hwf hq
    rw [h v hg] at hw
    exact absurd hw.symm (bool_not_ne c)

theorem kingsOk_intro_sided {b : Board} (c : Bool)
    (h1 : ∀ pp ∈ cmap c b, get_name pp.2 = PName.K → pp.1 = kcache c b)
    (h2 : ∀ pp ∈ omap c b, get_name pp.2 = PName.K → pp.1 = kcache (!c) b) :
    kingsOk b = true := by
  cases c with
  | true => exact kingsOk_intro h1 h2
  | false => exact kingsOk_intro h2 h1

theorem kingsOk_sided {b : Board} (c : Bool) (hwf : wf b = true) :
    ∀ pp ∈ cmap c b, get_name pp.2 = PName.K → pp.1 = kcache c b := by
  cases c with
  | true => exact (kingsOk_spec (wf_parts hwf).2.2.2.2.2.2).1
  | false => exact (kingsOk_spec (wf_parts hwf).2.2.2.2.2.2).2

theorem kingsOk_osided {b : Board} (c : Bool) (hwf : wf b = true) :
    ∀ pp ∈ omap c b, get_name pp.2 = PName.K → pp.1 = kcache (!c) b := by
  cases c with
  | true => exact (kingsOk_spec (wf_parts hwf).2.2.2.2.2.2).2
  | false => exact (kingsOk_spec (wf_parts hwf).2.2.2.2.2.2).1

theorem mapAligned_of_get {white : Bool} {g : Grid} {l : PieceMap}
    (hs : chainLt l = true)
    (h : ∀ k v, dictGet k l = some v → _is_in_bounds k = true ∧
      gridGet g k = some v ∧ is_white v = white) : mapAligned white g l = true := by
  apply mapAligned_intro
  intro pp hm
  exact h pp.1 pp.2 (mem_dictGet hs hm)

theorem gridCovered_intro2 {b : Board}
    (h : ∀ p, _is_in_bounds p = true → ∀ pce c, gridGet b.board p = some pce →
      is_white pce = c → dictGet p (cmap c b) = some pce) : gridCovered b = true := by
  apply gridCovered_intro
  intro p hp pce hg
  cases hwv : is_white pce with
  | true =>
    rw [if_pos rfl]
    exact h p hp pce true hg hwv
  | false =>
    rw [if_neg Bool.false_ne_true]
    exact h p hp pce false hg hwv

theorem mm_cmap (b : Board) (up : Piece) (ini fin : Pos) {c : Bool}
    (hwu : is_white up = c) :
    cmap c (b._make_move up ini fin) = dictInsert fin up (dictPop ini (cmap c b)) := by
  cases c with
  | true =>
    show (b._make_move up ini fin).white_pieces = _
    rw [mm_wp, hwu, if_pos rfl]
    rfl
  | false =>
    show (b._make_move up ini fin).black_pieces = _
    rw [mm_bp, hwu, if_neg Bool.false_ne_true]
    rfl

theorem mm_omap (b : Board) (up : Piece) (ini fin : Pos) {c : Bool}
    (hwu : is_white up = c) :
    omap c (b._make_move up ini fin) = dictPop fin (omap c b) := by
  cases c with
  | true =>
    show (b._make_move up ini fin).black_pieces = _
    rw [mm_bp, hwu, if_pos rfl]
    rfl
  | false =>
    show (b._make_move up ini fin).white_pieces = _
    rw [mm_wp, hwu, if_neg Bool.false_ne_true]
    rfl

theorem mm_kc (b : Board) (up : Piece) (ini fin : Pos) {c : Bool}
    (hwu : is_white up = c) :
    kcache c (b._make_move up ini fin) =
      if get_name up == PName.K then fin else kcache c b := by
  cases c with
  | true =>
    show (b._make_move up ini fin).white_king = _
    rw [mm_wk, hwu, Bool.true_and]
    rfl
  | false =>
    show (b._make_move up ini fin).black_king = _
    rw [mm_bk, hwu, Bool.not_false, Bool.true_and]
    rfl

theorem mm_kco (b : Board) (up : Piece) (ini fin : Pos) {c : Bool}
    (hwu : is_white up = c) :
    kcache (!c) (b._make_move up ini fin) = kcache (!c) b := by
  cases c with
  | true =>
    show (b._make_move up ini fin).black_king = _
    rw [mm_bk, hwu, Bool.not_true, Bool.false_and, if_neg Bool.false_ne_true]
    rfl
  | false =>
    show (b._make_move up ini fin).white_king = _
    rw [mm_wk, hwu, Bool.false_and, if_neg Bool.false_ne_true]
    rfl

/-- _make_move keeps the board well formed when moving a piece of color c
from an occupied source square to an empty-or-enemy target square, provided
the written piece has the mover color and is a king exactly when the moved
piece was one. -/
theorem wf_make_move {b : Board} {c : Bool} {pce up : Piece} {ini fin : Pos}
    (hwf : wf b = true) (hgi : gridGet b.board ini = some pce)
    (hw : is_white pce = c) (hwu : is_white up = c)
    (hi : _is_in_bounds ini = true) (hf : _is_in_bounds fin = true)
    (henemy : ∀ sq, gridGet b.board fin = some sq → is_white sq = (!c))
    (hK : get_name up = PName.K ↔ get_name pce = PName.K) :
    wf (b._make_move up ini fin) = true := by
  have hsh := (wf_parts hwf).1
  have hcm := @cmap_chain b c hwf
  have hom := @omap_chain b c hwf
  have hne : ini ≠ fin := by
    intro hc
    have h2 := henemy pce (hc ▸ hgi)
    rw [hw] at h2
    exact bool_not_ne c h2.symm
  have hgrid : ∀ q, _is_in_bounds q = true →
      gridGet (b._make_move up ini fin).board q =
        if q = fin then some up else if q = ini then none else gridGet b.board q := by
    intro q hq
    rw [mm_board, gridGet_set_eq (gridShape_set hsh ini none) hf hq,
      gridGet_set_eq hsh hi hq]
  have hcm' : cmap c (b._make_move up ini fin)
      = dictInsert fin up (dictPop ini (cmap c b)) := mm_cmap b up ini fin hwu
  have hom' : omap c (b._make_move up ini fin) = dictPop fin (omap c b) :=
    mm_omap b up ini fin hwu
  have hdi : dictGet ini (cmap c b) = some pce := cmap_covered hwf hi hgi hw
  have homini : dictGet ini (omap c b) = none := by
    apply omap_none hwf
    intro v hv
    rw [hgi] at hv
    injection hv with hv
    rw [← hv]
    exact hw
  refine wf_intro_sided c ?_ ?_ ?_ ?_ ?_ ?_ ?_
  · rw [mm_board]
    exact gridShape_set (gridShape_set hsh ini none) fin (some up)
  · rw [hcm']
    exact chainLt_dictInsert (chainLt_dictPop hcm)
  · rw [hom']
    exact chainLt_dictPop hom
  · refine mapAligned_of_get ?_ ?_
    · rw [hcm']
      exact chainLt_dictInsert (chainLt_dictPop hcm)
    · intro k v hkv
      rw [hcm', dictGet_insert_eq] at hkv
      by_cases hkf : k = fin
      · rw [if_pos hkf] at hkv
        injection hkv with hkv
        subst hkv
        have hkb : _is_in_bounds k = true := by
          rw [hkf]
          exact hf
        refine ⟨hkb, ?_, hwu⟩
        rw [hgrid k hkb, if_pos hkf]
      · rw [if_neg hkf, dictGet_pop_eq hcm] at hkv
        by_cases hki : k = ini
        · rw [if_pos hki] at hkv
          cases hkv
        · rw [if_neg hki] at hkv
          obtain ⟨hkb, hkg, hkw⟩ := cmap_get hwf hkv
          refine ⟨hkb, ?_, hkw⟩
          rw [hgrid k hkb, if_neg hkf, if_neg hki]
          exact hkg
  · refine mapAligned_of_get ?_ ?_
    · rw [hom']
      exact chainLt_dictPop hom
    · intro k v hkv
      rw [hom', dictGet_pop_eq hom] at hkv
      by_cases hkf : k = fin
      · rw [if_pos hkf] at hkv
        cases hkv
      · rw [if_neg hkf] at hkv
        obtain ⟨hkb, hkg, hkw⟩ := omap_get hwf hkv
        have hki : k ≠ ini := by
          intro hc
          rw [hc, homini] at hkv
          cases hkv
        refine ⟨hkb, ?_, hkw⟩
        rw [hgrid k hkb, if_neg hkf, if_neg hki]
        exact hkg
  · refine gridCovered_intro2 ?_
    intro p hp v c2 hg hvw
    rw [hgrid p hp] at hg
    by_cases hpf : p = fin
    · rw [if_pos hpf] at hg
      injection hg with hg
      have hc2 : c2 = c := by
        rw [← hvw, ← hg, hwu]
      subst hc2
      rw [mm_cmap b up ini fin hwu, hpf, dictGet_insert_eq, if_pos rfl, hg]
    · rw [if_neg hpf] at hg
      by_cases hpi : p = ini
      · rw [if_pos hpi] at hg
        cases hg
      · rw [if_neg hpi] at hg
        by_cases hc2 : c2 = c
        · subst hc2
          rw [mm_cmap b up ini fin hwu, dictGet_insert_eq, if_neg hpf,
            dictGet_pop_eq hcm, if_neg hpi]
          exact cmap_covered hwf hp hg hvw
        · have hc2e : c2 = !c := by
            cases c2 <;> cases c <;> simp_all
          have hcv := cmap_covered hwf hp hg hvw
          rw [hc2e, cmap_not] at hcv
          rw [hc2e, cmap_not, hom', dictGet_pop_eq hom, if_neg hpf]
          exact hcv
  · refine kingsOk_intro_sided c ?_ ?_
    · intro pp hpp hppK
      rw [hcm'] at hpp
      have hkv := mem_dictGet (chainLt_dictInsert (chainLt_dictPop hcm)) hpp
      rw [dictGet_insert_eq] at hkv
      by_cases hkf : pp.1 = fin
      · rw [if_pos hkf] at hkv
        injection hkv with hkv
        rw [mm_kc b up ini fin hwu]
        have hupK : (get_name up == PName.K) = true := by
          rw [hkv, hppK]
          rfl
        rw [hupK, if_pos rfl]
        exact hkf
      · rw [if_neg hkf, dictGet_pop_eq hcm] at hkv
        by_cases hki : pp.1 = ini
        · rw [if_pos hki] at hkv
          cases hkv
        · rw [if_neg hki] at hkv
          have horig := kingsOk_sided c hwf (pp.1, pp.2) (dictGet_mem hkv) hppK
          have hupK : (get_name up == PName.K) = false := by
            cases hq : (get_name up == PName.K) with
            | false => rfl
            | true =>
              have h1 : get_name pce = PName.K := hK.mp (eq_of_beq hq)
              have h2 := kingsOk_sided c hwf (ini, pce) (dictGet_mem hdi) h1
              exact absurd (horig.trans h2.symm) hki
          rw [mm_kc b up ini fin hwu, hupK, if_neg Bool.false_ne_true]
          exact horig
    · intro pp hpp hppK
      rw [hom'] at hpp
      have hkv := mem_dictGet (chainLt_dictPop hom) hpp
      rw [dictGet_pop_eq hom] at hkv
      by_cases hkf : pp.1 = fin
      · rw [if_pos hkf] at hkv
        cases hkv
      · rw [if_neg hkf] at hkv
        rw [mm_kco b up ini fin hwu]
        exact kingsOk_osided c hwf (pp.1, pp.2) (dictGet_mem hkv) hppK

/-- Removing an enemy piece from the grid and its map keeps the board well
formed. -/
theorem wf_remove {b b2 : Board} {c : Bool} {q : Pos} {cp : Piece}
    (hwf : wf b = true) (hq : _is_in_bounds q = true)
    (hg : gridGet b.board q = some cp) (hw : is_white cp = (!c))
    (h1 : b2.board = gridSet b.board q none)
    (h2 : cmap c b2 = cmap c b) (h3 : omap c b2 = dictPop q (omap c b))
    (h4 : kcache c b2 = kcache c b) (h5 : kcache (!c) b2 = kcache (!c) b) :
    wf b2 = true := by
  have hsh := (wf_parts hwf).1
  have hcm := @cmap_chain b c hwf
  have hom := @omap_chain b c hwf
  have hcmq : dictGet q (cmap c b) = none := by
    apply cmap_none hwf
    intro v hv
    rw [hg] at hv
    injection hv with hv
    rw [← hv]
    exact hw
  refine wf_intro_sided c ?_ ?_ ?_ ?_ ?_ ?_ ?_
  · rw [h1]
    exact gridShape_set hsh q none
  · rw [h2]
    exact hcm
  · rw [h3]
    exact chainLt_dictPop hom
  · refine mapAligned_of_get (by rw [h2]; exact hcm) ?_
    intro k v hkv
    rw [h2] at hkv
    obtain ⟨hkb, hkg, hkw⟩ := cmap_get hwf hkv
    have hkq : k ≠ q := by
      intro hc
      rw [hc, hcmq] at hkv
      cases hkv
    refine ⟨hkb, ?_, hkw⟩
    rw [h1, gridGet_set_eq hsh hq hkb, if_neg hkq]
    exact hkg
  · refine mapAligned_of_get (by rw [h3]; exact chainLt_dictPop hom) ?_
    intro k v hkv
    rw [h3, dictGet_pop_eq hom] at hkv
    by_cases hkq : k = q
    · rw [if_pos hkq] at hkv
      cases hkv
    · rw [if_neg hkq] at hkv
      obtain ⟨hkb, hkg, hkw⟩ := omap_get hwf hkv
      refine ⟨hkb, ?_, hkw⟩
      rw [h1, gridGet_set_eq hsh hq hkb, if_neg hkq]
      exact hkg
  · refine gridCovered_intro2 ?_
    intro p hp v c2 hgp hvw
    rw [h1, gridGet_set_eq hsh hq hp] at hgp
    by_cases hpq : p = q
    · rw [if_pos hpq] at hgp
      cases hgp
    · rw [if_neg hpq] at hgp
      by_cases hc2 : c2 = c
      · subst hc2
        rw [h2]
        exact cmap_covered hwf hp hgp hvw
      · have hc2e : c2 = !c := by
          cases c2 <;> cases c <;> simp_all
        have hcv := cmap_covered hwf hp hgp hvw
        rw [hc2e, cmap_not] at hcv
        rw [hc2e, cmap_not, h3, dictGet_pop_eq hom, if_neg hpq]
        exact hcv
  · refine kingsOk_intro_sided c ?_ ?_
    · intro pp hpp hppK
      rw [h2] at hpp
      rw [h4]
      exact kingsOk_sided c hwf pp hpp hppK
    · intro pp hpp hppK
      rw [h3] at hpp
      have hkv := mem_dictGet (chainLt_dictPop hom) hpp
      rw [dictGet_pop_eq hom] at hkv
      by_cases hkq : pp.1 = q
      · rw [if_pos hkq] at hkv
        cases hkv
      · rw [if_neg hkq] at hkv
        rw [h5]
        exact kingsOk_osided c hwf (pp.1, pp.2) (dictGet_mem hkv) hppK

/-- Applying the command of any pseudo-move keeps the board well formed. -/
theorem wf_command_apply {b : Board} {c : Bool} {m : Move} (hwf : wf b = true)
    (hok : MoveOK b c m) : wf ((b.get_move_command m).1 b) = true := by
  have hsh := (wf_parts hwf).1
  cases m with
  | castleK w =>
    simp only [MoveOK] at hok
    obtain ⟨hwc, ⟨kg, hk4, hkN, hkw, _⟩, ⟨rk, hr7, hrN, hrw, _⟩, h5, h6⟩ := hok
    subst hwc
    rw [command_castleK_apply hk4 hr7]
    have hi4 : _is_in_bounds (rankOf w, 4) = true := inb_rank w 4 (by decide)
    have hi5 : _is_in_bounds (rankOf w, 5) = true := inb_rank w 5 (by decide)
    have hi6 : _is_in_bounds (rankOf w, 6) = true := inb_rank w 6 (by decide)
    have hi7 : _is_in_bounds (rankOf w, 7) = true := inb_rank w 7 (by decide)
    have hb1 : wf (b._make_move (make_piece PName.K w true false) (rankOf w, 4)
        (rankOf w, 6)) = true :=
      wf_make_move hwf hk4 hkw rfl hi4 hi6
        (fun sq hv => by rw [h6] at hv; cases hv) ⟨fun _ => hkN, fun _ => rfl⟩
    have hne76 : ((rankOf w, 7) : Pos) ≠ (rankOf w, 6) := rank_pair_ne w (by decide)
    have hne74 : ((rankOf w, 7) : Pos) ≠ (rankOf w, 4) := rank_pair_ne w (by decide)
    have hne56 : ((rankOf w, 5) : Pos) ≠ (rankOf w, 6) := rank_pair_ne w (by decide)
    have hne54 : ((rankOf w, 5) : Pos) ≠ (rankOf w, 4) := rank_pair_ne w (by decide)
    have hg7 : gridGet (b._make_move (make_piece PName.K w true false) (rankOf w, 4)
        (rankOf w, 6)).board (rankOf w, 7) = some rk := by
      rw [mm_board, gridGet_set_eq (gridShape_set hsh _ none) hi6 hi7, if_neg hne76,
        gridGet_set_eq hsh hi4 hi7, if_neg hne74]
      exact hr7
    have hg5 : gridGet (b._make_move (make_piece PName.K w true false) (rankOf w, 4)
        (rankOf w, 6)).board (rankOf w, 5) = none := by
      rw [mm_board, gridGet_set_eq (gridShape_set hsh _ none) hi6 hi5, if_neg hne56,
        gridGet_set_eq hsh hi4 hi5, if_neg hne54]
      exact h5
    refine wf_make_move hb1 hg7 hrw rfl hi7 hi5
      (fun sq hv => by rw [hg5] at hv; cases hv) ?_
    constructor
    · intro h
      exact absurd (show PName.R = PName.K from h) (by decide)
    · intro h
      rw [hrN] at h
      exact absurd h (by decide)
  | castleQ w =>
    simp only [MoveOK] at hok
    obtain ⟨hwc, ⟨kg, hk4, hkN, hkw, _⟩, ⟨rk, hr0, hrN, hrw, _⟩, h1, h2, h3⟩ := hok
    subst hwc
    rw [command_castleQ_apply hk4 hr0]
    have hi0 : _is_in_bounds (rankOf w, 0) = true := inb_rank w 0 (by decide)
    have hi2 : _is_in_bounds (rankOf w, 2) = true := inb_rank w 2 (by decide)
    have hi3 : _is_in_bounds (rankOf w, 3) = true := inb_rank w 3 (by decide)
    have hi4 : _is_in_bounds (rankOf w, 4) = true := inb_rank w 4 (by decide)
    have hb1 : wf (b._make_move (make_piece PName.K w true false) (rankOf w, 4)
        (rankOf w, 2)) = true :=
      wf_make_move hwf hk4 hkw rfl hi4 hi2
        (fun sq hv => by rw [h2] at hv; cases hv) ⟨fun _ => hkN, fun _ => rfl⟩
    have hne02 : ((rankOf w, 0) : Pos) ≠ (rankOf w, 2) := rank_pair_ne w (by decide)
    have hne04 : ((rankOf w, 0) : Pos) ≠ (rankOf w, 4) := rank_pair_ne w (by decide)
    have hne32 : ((rankOf w, 3) : Pos) ≠ (rankOf w, 2) := rank_pair_ne w (by decide)
    have hne34 : ((rankOf w, 3) : Pos) ≠ (rankOf w, 4) := rank_pair_ne w (by decide)
    have hg0 : gridGet (b._make_move (make_piece PName.K w true false) (rankOf w, 4)
        (rankOf w, 2)).board (rankOf w, 0) = some rk := by
      rw [mm_board, gridGet_set_eq (gridShape_set hsh _ none) hi2 hi0, if_neg hne02,
        gridGet_set_eq hsh hi4 hi0, if_neg hne04]
      exact hr0
    have hg3 : gridGet (b._make_move (make_piece PName.K w true false) (rankOf w, 4)
        (rankOf w, 2)).board (rankOf w, 3) = none := by
      rw [mm_board, gridGet_set_eq (gridShape_set hsh _ none) hi2 hi3, if_neg hne32,
        gridGet_set_eq hsh hi4 hi3, if_neg hne34]
      exact h3
    refine wf_make_move hb1 hg0 hrw rfl hi0 hi3
      (fun sq hv => by rw [hg3] at hv; cases hv) ?_
    constructor
    · intro h
      exact absurd (show PName.R = PName.K from h) (by decide)
    · intro h
      rw [hrN] at h
      exact absurd h (by decide)
  | normal n ini fin cap ep promo =>
    cases ep with
    | true =>
      simp only [MoveOK] at hok
      obtain ⟨pwn, cp, hgi, hPn, hwn, hname, hpromo, hgf, hgc, hcw, hce, hi, hf, hsq⟩
        := hok
      rw [command_ep_apply hgi hgc]
      have hwu : is_white (epUp pwn) = c := hwn
      have hb1 : wf (b._make_move (epUp pwn) ini fin) = true :=
        wf_make_move hwf hgi hwn hwu hi hf
          (fun sq hv => by rw [hgf] at hv; cases hv) Iff.rfl
      have hne1 : (ini.1, fin.2) ≠ ini := by
        intro hc
        rw [hc, hgi] at hgc
        injection hgc with h
        have hx := hcw
        rw [← h, hwn] at hx
        exact bool_not_ne c hx.symm
      have hne2 : (ini.1, fin.2) ≠ fin := by
        intro hc
        rw [hc, hgf] at hgc
        cases hgc
      have hg1 : gridGet (b._make_move (epUp pwn) ini fin).board (ini.1, fin.2)
          = some cp := by
        rw [mm_board, gridGet_set_eq (gridShape_set hsh ini none) hf hsq, if_neg hne2,
          gridGet_set_eq hsh hi hsq, if_neg hne1]
        exact hgc
      have hupK : (get_name (epUp pwn) == PName.K) = false := by
        show (get_name pwn == PName.K) = false
        rw [hPn]
        rfl
      have h1 : (epApplyF pwn ini fin b).board
          = gridSet (b._make_move (epUp pwn) ini fin).board (ini.1, fin.2) none := by
        rw [epApplyF_board, mm_board]
      have h2 : cmap c (epApplyF pwn ini fin b)
          = cmap c (b._make_move (epUp pwn) ini fin) := by
        rw [mm_cmap b (epUp pwn) ini fin hwu]
        cases c with
        | true =>
          show (epApplyF pwn ini fin b).white_pieces = _
          rw [epApplyF_wp, hwn, if_pos rfl]
          rfl
        | false =>
          show (epApplyF pwn ini fin b).black_pieces = _
          rw [epApplyF_bp, hwn, if_neg Bool.false_ne_true]
          rfl
      have h3 : omap c (epApplyF pwn ini fin b)
          = dictPop (ini.1, fin.2) (omap c (b._make_move (epUp pwn) ini fin)) := by
        rw [mm_omap b (epUp pwn) ini fin hwu]
        cases c with
        | true =>
          show (epApplyF pwn ini fin b).black_pieces = _
          rw [epApplyF_bp, hwn, if_pos rfl]
          rfl
        | false =>
          show (epApplyF pwn ini fin b).white_pieces = _
          rw [epApplyF_wp, hwn, if_neg Bool.false_ne_true]
          rfl
      have h4 : kcache c (epApplyF pwn ini fin b)
          = kcache c (b._make_move (epUp pwn) ini fin) := by
        rw [mm_kc b (epUp pwn) ini fin hwu, hupK, if_neg Bool.false_ne_true]
        cases c with
        | true =>
          show (epApplyF pwn ini fin b).white_king = b.white_king
          exact epApplyF_wk pwn hPn ini fin b
        | false =>
          show (epApplyF pwn ini fin b).black_king = b.black_king
          exact epApplyF_bk pwn hPn ini fin b
      have h5 : kcache (!c) (epApplyF pwn ini fin b)
          = kcache (!c) (b._make_move (epUp pwn) ini fin) := by
        rw [mm_kco b (epUp pwn) ini fin hwu]
        cases c with
        | true =>
          show (epApplyF pwn ini fin b).black_king = b.black_king
          exact epApplyF_bk pwn hPn ini fin b
        | false =>
          show (epApplyF pwn ini fin b).white_king = b.white_king
          exact epApplyF_wk pwn hPn ini fin b
      exact wf_remove hb1 hsq hg1 hcw h1 h2 h3 h4 h5
    | false =>
      simp only [MoveOK] at hok
      obtain ⟨pce, hgi, hw, hname, hi, hf, hfin, hpromo⟩ := hok
      rw [command_simple_apply hgi]
      refine wf_make_move hwf hgi hw ?_ hi hf hfin ?_
      · rw [updatedPiece, is_white_make, hw]
      · constructor
        · intro h
          rcases hpromo with hp | ⟨hpP, hpk⟩
          · subst hp
            exact h
          · rcases (by simpa [promoKinds] using hpk :
                promo = some PName.Q ∨ promo = some PName.B ∨ promo = some PName.N ∨
                  promo = some PName.R) with h1 | h1 | h1 | h1 <;>
              rw [h1] at h <;>
              rw [updatedPiece, get_name_make] at h <;>
              simp [Option.getD] at h
        · intro h
          rcases hpromo with hp | ⟨hpP, _⟩
          · subst hp
            exact h
          · rw [hpP] at h
            exact absurd h (by decide)

theorem get_moves_eq (b : Board) (c : Bool) :
    b.get_moves c =
      ((castlePruned (b.clearEp c) c).filter
        (fun m => !(((b.clearEp c).checkFilter c
          (castlePruned (b.clearEp c) c)).1.contains m)),
       ((b.clearEp c).checkFilter c (castlePruned (b.clearEp c) c)).2) := rfl

theorem mem_if_removeMove {cnd : Bool} {l : List Move} {x m : Move}
    (h : m ∈ (if cnd then removeMove l x else l)) : m ∈ l := by
  cases cnd with
  | true =>
    rw [if_pos rfl] at h
    exact (mem_removeMove h).1
  | false =>
    rw [if_neg Bool.false_ne_true] at h
    exact h

theorem mem_castlePruned {b : Board} {c : Bool} {m : Move}
    (h : m ∈ castlePruned b c) : m ∈ b._get_psuedo_moves c := by
  rw [castlePruned] at h
  exact mem_if_removeMove (mem_if_removeMove h)

/-- The make-test-undo fold of checkFilter: on a well-formed board, with
every candidate a generator move, the threaded board comes back unchanged
after each step and the collected list holds exactly the candidates whose
application leaves the mover checked. -/
theorem checkFilter_fold {bc : Board} {c : Bool} (hwf : wf bc = true) :
    ∀ (moves : List Move) (acc : List Move),
      (∀ m2 ∈ moves, MoveOK bc c m2) →
      (moves.foldl
        (fun st move =>
          let command := st.2.get_move_command move
          let s := command.1 st.2
          let invalid := if s.is_checked c then move :: st.1 else st.1
          (invalid, command.2 s)) (acc, bc)).2 = bc ∧
      (∀ x, x ∈ (moves.foldl
        (fun st move =>
          let command := st.2.get_move_command move
          let s := command.1 st.2
          let invalid := if s.is_checked c then move :: st.1 else st.1
          (invalid, command.2 s)) (acc, bc)).1 ↔
        (x ∈ acc ∨ (x ∈ moves ∧
          (((bc.get_move_command x).1 bc).is_checked c) = true))) := by
  intro moves
  induction moves with
  | nil =>
    intro acc _
    refine ⟨rfl, ?_⟩
    intro x
    simp
  | cons m rest ih =>
    intro acc hok
    have hm := hok m (List.mem_cons_self _ _)
    have hrt : (bc.get_move_command m).2 ((bc.get_move_command m).1 bc) = bc :=
      command_roundtrip hwf hm
    rw [List.foldl_cons]
    dsimp only
    rw [hrt]
    obtain ⟨hsnd, hiff⟩ :=
      ih (if ((bc.get_move_command m).1 bc).is_checked c then m :: acc else acc)
        (fun m2 h2 => hok m2 (List.mem_cons_of_mem _ h2))
    refine ⟨hsnd, ?_⟩
    intro x
    rw [hiff x]
    by_cases hc : ((bc.get_move_command m).1 bc).is_checked c = true
    · rw [if_pos hc]
      constructor
      · rintro (hx | ⟨hx1, hx2⟩)
        · cases hx with
          | head => exact Or.inr ⟨List.mem_cons_self _ _, hc⟩
          | tail _ hx => exact Or.inl hx
        · exact Or.inr ⟨List.mem_cons_of_mem _ hx1, hx2⟩
      · rintro (hx | ⟨hx1, hx2⟩)
        · exact Or.inl (List.mem_cons_of_mem _ hx)
        · cases hx1 with
          | head => exact Or.inl (List.mem_cons_self _ _)
          | tail _ hx1 => exact Or.inr ⟨hx1, hx2⟩
    · rw [if_neg hc]
      constructor
      · rintro (hx | ⟨hx1, hx2⟩)
        · exact Or.inl hx
        · exact Or.inr ⟨List.mem_cons_of_mem _ hx1, hx2⟩
      · rintro (hx | ⟨hx1, hx2⟩)
        · exact Or.inl hx
        · cases hx1 with
          | head => exact absurd hx2 hc
          | tail _ hx1 => exact Or.inr ⟨hx1, hx2⟩

theorem checkFilter_spec {bc : Board} {c : Bool} (hwf : wf bc = true)
    {moves : List Move} (hok : ∀ m2 ∈ moves, MoveOK bc c m2) :
    (bc.checkFilter c moves).2 = bc ∧
      (∀ x, x ∈ (bc.checkFilter c moves).1 ↔
        (x ∈ moves ∧ (((bc.get_move_command x).1 bc).is_checked c) = true)) := by
  obtain ⟨h1, h2⟩ := checkFilter_fold hwf moves [] hok
  refine ⟨h1, fun x => ?_⟩
  constructor
  · intro hx
    rcases (h2 x).mp hx with h | h
    · cases h
    · exact h
  · intro hx
    exact (h2 x).mpr (Or.inr hx)

theorem gm_ok {b : Board} {c : Bool} (hwf : wf b = true) :
    ∀ m ∈ castlePruned (b.clearEp c) c, MoveOK (b.clearEp c) c m :=
  fun _ hm => psuedo_sound (wf_clearEp c hwf) (mem_castlePruned hm)

/-- The board Board.get_moves hands back is the flag-cleared board. -/
theorem get_moves_board {b : Board} {c : Bool} (hwf : wf b = true) :
    (b.get_moves c).2 = b.clearEp c := by
  rw [get_moves_eq]
  exact (checkFilter_spec (wf_clearEp c hwf) (gm_ok hwf)).1

/-- Every returned move passed the pruning and the legality test on the
cleared board. -/
theorem get_moves_mem {b : Board} {c : Bool} {m : Move} (hwf : wf b = true)
    (hm : m ∈ (b.get_moves c).1) :
    m ∈ castlePruned (b.clearEp c) c ∧
      (((b.clearEp c).get_move_command m).1 (b.clearEp c)).is_checked c = false := by
  rw [get_moves_eq] at hm
  obtain ⟨h1, h2⟩ := List.mem_filter.mp hm
  refine ⟨h1, ?_⟩
  cases hc : (((b.clearEp c).get_move_command m).1 (b.clearEp c)).is_checked c with
  | false => rfl
  | true =>
    have hmem : m ∈ ((b.clearEp c).checkFilter c (castlePruned (b.clearEp c) c)).1 :=
      ((checkFilter_spec (wf_clearEp c hwf) (gm_ok hwf)).2 m).mpr ⟨h1, hc⟩
    rw [move_contains_iff.mpr hmem] at h2
    simp at h2

theorem get_moves_moveok {b : Board} {c : Bool} {m : Move} (hwf : wf b = true)
    (hm : m ∈ (b.get_moves c).1) : MoveOK (b.clearEp c) c m :=
  gm_ok hwf m (get_moves_mem hwf hm).1

/-- Well-formedness survives a full Board.get_moves call. -/
theorem wf_get_moves {b : Board} {c : Bool} (hwf : wf b = true) :
    wf (b.get_moves c).2 = true := by
  rw [get_moves_board hwf]
  exact wf_clearEp c hwf

theorem make_move_eq (g : Game) (move : Move) (d : Bool) :
    g.make_move move d =
      (if g.outcome != "" then Except.error "GAME_CONCLUDED"
       else if !((g.get_moves).1.contains move) then Except.error "ILLEGAL_MOVE"
       else Except.ok (mmNext g move d)) := rfl

theorem wf_if_get_moves {b : Board} {w cnd : Bool} (hwf : wf b = true) :
    wf ((if cnd then b.get_moves w else ([], b)).2) = true := by
  cases cnd with
  | true =>
    rw [if_pos rfl]
    exact wf_get_moves hwf
  | false =>
    rw [if_neg Bool.false_ne_true]
    exact hwf

theorem wf_stage2 {b : Board} {w cnd : Bool} (hwf : wf b = true) :
    wf (if cnd then (if cnd then b.get_moves w else ([], b)).2 else b) = true := by
  cases cnd with
  | true =>
    rw [if_pos rfl, if_pos rfl]
    exact wf_get_moves hwf
  | false =>
    rw [if_neg Bool.false_ne_true]
    exact hwf

theorem mmNext_board (g : Game) (move : Move) (d : Bool) :
    (mmNext g move d).board =
      (let b2 := mmBoard1 g move
       let w2 := !g.is_white_turn
       let st1 := if b2.is_checked w2 then b2.get_moves w2 else ([], b2)
       let b3 := st1.2
       let position := _get_position_hash b2
       let encountered_positions :=
         match encGet position g.encountered_positions with
         | some n => encSet position (n + 1) g.encountered_positions
         | none => encSet position 1 g.encountered_positions
       let staleDraw := decide (100 ≤ _get_num_stale_moves g.moves_list)
       let repDraw := decide (3 ≤ ((encGet position encountered_positions).getD 0))
       if !staleDraw && !repDraw then
         (if !staleDraw && !repDraw then b3.get_moves w2 else ([], b3)).2
       else b3) := rfl

theorem wf_mmNext {g : Game} (hwf : wf g.board = true) {move : Move} {d : Bool}
    (hmem : move ∈ (g.get_moves).1) : wf (mmNext g move d).board = true := by
  have hmem2 : move ∈ (g.board.get_moves g.is_white_turn).1 := hmem
  have h0 : wf (mmBoard1 g move) = true := by
    rw [mmBoard1, get_moves_board hwf]
    exact wf_command_apply (wf_clearEp _ hwf) (get_moves_moveok hwf hmem2)
  rw [mmNext_board]
  exact wf_stage2 (wf_if_get_moves h0)

theorem make_move_ok {g : Game} {m : Move} {d : Bool} {g2 : Game}
    (h : g.make_move m d = Except.ok g2) :
    m ∈ (g.get_moves).1 ∧ g2 = mmNext g m d := by
  rw [make_move_eq] at h
  by_cases h1 : (g.outcome != "") = true
  · rw [if_pos h1] at h
    cases h
  · rw [if_neg h1] at h
    by_cases h2 : (!((g.get_moves).1.contains m)) = true
    · rw [if_pos h2] at h
      cases h
    · rw [if_neg h2] at h
      injection h with h
      refine ⟨?_, h.symm⟩
      cases hq : ((g.get_moves).1.contains m) with
      | false =>
        rw [hq] at h2
        exact absurd rfl h2
      | true => exact move_contains_iff.mp hq

theorem accept_draw_board {g g2 : Game} (h : g.accept_draw = Except.ok g2) :
    g2.board = g.board := by
  rw [Game.accept_draw] at h
  cases hl : g.moves_list.getLast? with
  | none =>
    rw [hl] at h
    cases h
  | some me =>
    rw [hl] at h
    dsimp only at h
    by_cases h2 : (!(is_draw_offer me.2)) = true
    · rw [if_pos h2] at h
      cases h
    · rw [if_neg h2] at h
      injection h with h
      rw [← h]

theorem wf_reachable {g : Game} (h : Reachable g) : wf g.board = true := by
  induction h with
  | init => exact wf_initial
  | step _ hmk ih =>
    obtain ⟨hmem, hg2⟩ := make_move_ok hmk
    rw [hg2]
    exact wf_mmNext ih hmem
  | draw _ hd ih =>
    rw [accept_draw_board hd]
    exact ih

theorem epPawn_initial : EpPawn Board.initial := by
  intro q v hq hg hce
  obtain ⟨h1, h2, hp1, hp2⟩ := inb_coords hq
  have hkey : (List.range 8).all (fun r => (List.range 8).all (fun f =>
      match gridGet Board.initial.board ((r : Int), (f : Int)) with
      | none => true
      | some v => !can_ep v)) = true := by decide
  have hrow := List.all_eq_true.mp hkey q.1.toNat (List.mem_range.mpr h1)
  have hcell := List.all_eq_true.mp hrow q.2.toNat (List.mem_range.mpr h2)
  have hpe : ((q.1.toNat : Int), (q.2.toNat : Int)) = q := by
    refine Prod.ext ?_ ?_
    · exact hp1.symm
    · exact hp2.symm
  rw [hpe, hg] at hcell
  dsimp only at hcell
  rw [hce] at hcell
  simp at hcell

/-- Pieces of the other color pass through clearEp unchanged on the grid. -/
theorem clearEp_other_grid {b : Board} (hwf : wf b = true) (cother : Bool) {q : Pos}
    {v : Piece} (hg : gridGet (b.clearEp cother).board q = some v)
    (hwv : is_white v = !cother) : gridGet b.board q = some v := by
  rw [clearEp_spec cother hwf] at hg
  rw [show (epCleared b cother).board
    = b.board.map (fun row => row.map (Option.map (pieceFix cother))) from rfl,
    gridGet_mapGrid] at hg
  cases hg0 : gridGet b.board q with
  | none =>
    rw [hg0] at hg
    cases hg
  | some v0 =>
    rw [hg0] at hg
    injection hg with hg
    have hw0 : is_white v0 = !cother := by
      rw [← pieceFix_white cother v0, hg, hwv]
    rw [pieceFix_id] at hg
    · rw [hg]
    · rintro ⟨_, hx⟩
      rw [hw0] at hx
      exact bool_not_ne cother hx

/-- After clearEp c, no piece of color c carries the flag. -/
theorem clearEp_own_clean {b : Board} (hwf : wf b = true) (c : Bool)
    (hep : EpPawn b) : ∀ q v, _is_in_bounds q = true →
      gridGet (b.clearEp c).board q = some v → is_white v = c →
      can_ep v = false := by
  intro q v hq hg hwv
  rw [clearEp_spec c hwf] at hg
  rw [show (epCleared b c).board
    = b.board.map (fun row => row.map (Option.map (pieceFix c))) from rfl,
    gridGet_mapGrid] at hg
  cases hg0 : gridGet b.board q with
  | none =>
    rw [hg0] at hg
    cases hg
  | some v0 =>
    rw [hg0] at hg
    injection hg with hg
    by_cases hcond : (get_name v0 == PName.P && (is_white v0 == c) && can_ep v0) = true
    · rw [pieceFix, if_pos hcond] at hg
      rw [← hg]
      rfl
    · rw [pieceFix, if_neg hcond] at hg
      subst hg
      cases hce : can_ep v0 with
      | false => rfl
      | true =>
        have hname := hep q v0 hq hg0 hce
        exact absurd (by rw [hname, hwv, hce]; simp) hcond

/-- clearEp keeps the pawns-only-flags property. -/
theorem epPawn_clearEp {b : Board} (hwf : wf b = true) (c : Bool)
    (hep : EpPawn b) : EpPawn (b.clearEp c) := by
  intro q v hq hg hce
  rw [clearEp_spec c hwf] at hg
  rw [show (epCleared b c).board
    = b.board.map (fun row => row.map (Option.map (pieceFix c))) from rfl,
    gridGet_mapGrid] at hg
  cases hg0 : gridGet b.board q with
  | none =>
    rw [hg0] at hg
    cases hg
  | some v0 =>
    rw [hg0] at hg
    injection hg with hg
    by_cases hcond : (get_name v0 == PName.P && (is_white v0 == c) && can_ep v0) = true
    · rw [pieceFix, if_pos hcond] at hg
      rw [← hg]
      rfl
    · rw [pieceFix, if_neg hcond] at hg
      rw [← hg] at hce ⊢
      exact hep q v0 hq hg0 hce

/-- The occupancy of the board after an apply command: every occupied
square either held the same piece before, or carries a flag-free piece, or
is the landing square of a double pawn step. -/
theorem apply_grid {bc : Board} {c : Bool} {m : Move} (hwf : wf bc = true)
    (hok : MoveOK bc c m) {q : Pos} (hq : _is_in_bounds q = true) {v : Piece}
    (hg : gridGet ((bc.get_move_command m).1 bc).board q = some v) :
    (gridGet bc.board q = some v) ∨ (can_ep v = false) ∨
      (isNormalMove m = true ∧ q = get_final_position m ∧
        get_name v = PName.P ∧ get_piece m = PName.P ∧
        ((get_final_position m).1 - (get_initial_position m).1).natAbs = 2) := by
  have hsh := (wf_parts hwf).1
  cases m with
  | castleK w =>
    simp only [MoveOK] at hok
    obtain ⟨hwc, ⟨kg, hk4, hkN, hkw, _⟩, ⟨rk, hr7, hrN, hrw, _⟩, h5, h6⟩ := hok
    subst hwc
    rw [command_castleK_apply hk4 hr7] at hg
    have hi4 : _is_in_bounds (rankOf w, 4) = true := inb_rank w 4 (by decide)
    have hi5 : _is_in_bounds (rankOf w, 5) = true := inb_rank w 5 (by decide)
    have hi6 : _is_in_bounds (rankOf w, 6) = true := inb_rank w 6 (by decide)
    have hi7 : _is_in_bounds (rankOf w, 7) = true := inb_rank w 7 (by decide)
    have hb1s : gridShape (bc._make_move (make_piece PName.K w true false)
        (rankOf w, 4) (rankOf w, 6)).board = true := by
      rw [mm_board]
      exact gridShape_set (gridShape_set hsh _ _) _ _
    have hgr : gridGet (castleKApplyF w bc).board q =
        (if q = (rankOf w, 5) then some (make_piece PName.R w true false)
         else if q = (rankOf w, 7) then none
         else if q = (rankOf w, 6) then some (make_piece PName.K w true false)
         else if q = (rankOf w, 4) then none
         else gridGet bc.board q) := by
      show gridGet ((bc._make_move (make_piece PName.K w true false) (rankOf w, 4)
        (rankOf w, 6))._make_move (make_piece PName.R w true false) (rankOf w, 7)
        (rankOf w, 5)).board q = _
      rw [mm_board, gridGet_set_eq (gridShape_set hb1s _ none) hi5 hq,
        gridGet_set_eq hb1s hi7 hq, mm_board,
        gridGet_set_eq (gridShape_set hsh _ none) hi6 hq,
        gridGet_set_eq hsh hi4 hq]
    rw [hgr] at hg
    by_cases e5 : q = (rankOf w, 5)
    · rw [if_pos e5] at hg
      injection hg with hg
      refine Or.inr (Or.inl ?_)
      rw [← hg]
      rfl
    · rw [if_neg e5] at hg
      by_cases e7 : q = (rankOf w, 7)
      · rw [if_pos e7] at hg
        cases hg
      · rw [if_neg e7] at hg
        by_cases e6 : q = (rankOf w, 6)
        · rw [if_pos e6] at hg
          injection hg with hg
          refine Or.inr (Or.inl ?_)
          rw [← hg]
          rfl
        · rw [if_neg e6] at hg
          by_cases e4 : q = (rankOf w, 4)
          · rw [if_pos e4] at hg
            cases hg
          · rw [if_neg e4] at hg
            exact Or.inl hg
  | castleQ w =>
    simp only [MoveOK] at hok
    obtain ⟨hwc, ⟨kg, hk4, hkN, hkw, _⟩, ⟨rk, hr0, hrN, hrw, _⟩, h1, h2, h3⟩ := hok
    subst hwc
    rw [command_castleQ_apply hk4 hr0] at hg
    have hi0 : _is_in_bounds (rankOf w, 0) = true := inb_rank w 0 (by decide)
    have hi2 : _is_in_bounds (rankOf w, 2) = true := inb_rank w 2 (by decide)
    have hi3 : _is_in_bounds (rankOf w, 3) = true := inb_rank w 3 (by decide)
    have hi4 : _is_in_bounds (rankOf w, 4) = true := inb_rank w 4 (by decide)
    have hb1s : gridShape (bc._make_move (make_piece PName.K w true false)
        (rankOf w, 4) (rankOf w, 2)).board = true := by
      rw [mm_board]
      exact gridShape_set (gridShape_set hsh _ _) _ _
    have hgr : gridGet (castleQApplyF w bc).board q =
        (if q = (rankOf w, 3) then some (make_piece PName.R w true false)
         else if q = (rankOf w, 0) then none
         else if q = (rankOf w, 2) then some (make_piece PName.K w true false)
         else if q = (rankOf w, 4) then none
         else gridGet bc.board q) := by
      show gridGet ((bc._make_move (make_piece PName.K w true false) (rankOf w, 4)
        (rankOf w, 2))._make_move (make_piece PName.R w true false) (rankOf w, 0)
        (rankOf w, 3)).board q = _
      rw [mm_board, gridGet_set_eq (gridShape_set hb1s _ none) hi3 hq,
        gridGet_set_eq hb1s hi0 hq, mm_board,
        gridGet_set_eq (gridShape_set hsh _ none) hi2 hq,
        gridGet_set_eq hsh hi4 hq]
    rw [hgr] at hg
    by_cases e3 : q = (rankOf w, 3)
    · rw [if_pos e3] at hg
      injection hg with hg
      refine Or.inr (Or.inl ?_)
      rw [← hg]
      rfl
    · rw [if_neg e3] at hg
      by_cases e0 : q = (rankOf w, 0)
      · rw [if_pos e0] at hg
        cases hg
      · rw [if_neg e0] at hg
        by_cases e2 : q = (rankOf w, 2)
        · rw [if_pos e2] at hg
          injection hg with hg
          refine Or.inr (Or.inl ?_)
          rw [← hg]
          rfl
        · rw [if_neg e2] at hg
          by_cases e4 : q = (rankOf w, 4)
          · rw [if_pos e4] at hg
            cases hg
          · rw [if_neg e4] at hg
            exact Or.inl hg
  | normal n ini fin cap ep promo =>
    cases ep with
    | true =>
      simp only [MoveOK] at hok
      obtain ⟨pwn, cp, hgi, hpN, hwn, hname, hpromo, hgf, hgc, hcw, hce, hi, hf, hsq⟩
        := hok
      rw [command_ep_apply hgi hgc] at hg
      have hb1s : gridShape (gridSet (gridSet bc.board ini none) fin
          (some (epUp pwn))) = true :=
        gridShape_set (gridShape_set hsh _ _) _ _
      have hgr : gridGet (epApplyF pwn ini fin bc).board q =
          (if q = (ini.1, fin.2) then none
           else if q = fin then some (epUp pwn)
           else if q = ini then none
           else gridGet bc.board q) := by
        rw [epApplyF_board, gridGet_set_eq hb1s hsq hq,
          gridGet_set_eq (gridShape_set hsh _ none) hf hq,
          gridGet_set_eq hsh hi hq]
      rw [hgr] at hg
      by_cases ec : q = (ini.1, fin.2)
      · rw [if_pos ec] at hg
        cases hg
      · rw [if_neg ec] at hg
        by_cases ef : q = fin
        · rw [if_pos ef] at hg
          injection hg with hg
          refine Or.inr (Or.inl ?_)
          rw [← hg]
          rfl
        · rw [if_neg ef] at hg
          by_cases ei : q = ini
          · rw [if_pos ei] at hg
            cases hg
          · rw [if_neg ei] at hg
            exact Or.inl hg
    | false =>
      simp only [MoveOK] at hok
      obtain ⟨pce, hgi, hw, hname, hi, hf, hfin, hpromo⟩ := hok
      rw [command_simple_apply hgi] at hg
      have hgr : gridGet (bc._make_move (updatedPiece pce ini fin promo) ini
          fin).board q =
          (if q = fin then some (updatedPiece pce ini fin promo)
           else if q = ini then none
           else gridGet bc.board q) := by
        rw [mm_board, gridGet_set_eq (gridShape_set hsh _ none) hf hq,
          gridGet_set_eq hsh hi hq]
      rw [hgr] at hg
      by_cases ef : q = fin
      · rw [if_pos ef] at hg
        injection hg with hg
        cases hce : can_ep v with
        | false => exact Or.inr (Or.inl rfl)
        | true =>
          have he2 : ((promo.getD (get_name pce) == PName.P) && !has_moved pce &&
              ((fin.1 - ini.1).natAbs == 2)) = true := by
            rw [← hg] at hce
            exact hce
          obtain ⟨he3, hb3⟩ := bandE he2
          obtain ⟨hb1, _⟩ := bandE he3
          refine Or.inr (Or.inr ⟨rfl, ef, ?_, ?_, ?_⟩)
          · rw [← hg]
            exact eq_of_beq hb1
          · show n = PName.P
            rw [hname]
            rcases hpromo with hp | ⟨hpP, _⟩
            · subst hp
              exact eq_of_beq hb1
            · exact hpP
          · exact eq_of_beq hb3
      · rw [if_neg ef] at hg
        by_cases ei : q = ini
        · rw [if_pos ei] at hg
          cases hg
        · rw [if_neg ei] at hg
          exact Or.inl hg

/-- An apply command keeps the pawns-only-flags property. -/
theorem epPawn_apply {bc : Board} {c : Bool} {m : Move} (hwf : wf bc = true)
    (hok : MoveOK bc c m) (hep : EpPawn bc) :
    EpPawn ((bc.get_move_command m).1 bc) := by
  intro q v hq hg hce
  rcases apply_grid hwf hok hq hg with h | h | h
  · exact hep q v hq h hce
  · rw [h] at hce
    cases hce
  · exact h.2.2.1

theorem epPawn_if_get_moves {b : Board} {w cnd : Bool} (hwf : wf b = true)
    (hep : EpPawn b) : EpPawn ((if cnd then b.get_moves w else ([], b)).2) := by
  cases cnd with
  | true =>
    rw [if_pos rfl, get_moves_board hwf]
    exact epPawn_clearEp hwf w hep
  | false =>
    rw [if_neg Bool.false_ne_true]
    exact hep

theorem epPawn_stage2 {b : Board} {w cnd : Bool} (hwf : wf b = true)
    (hep : EpPawn b) :
    EpPawn (if cnd then (if cnd then b.get_moves w else ([], b)).2 else b) := by
  cases cnd with
  | true =>
    rw [if_pos rfl, if_pos rfl, get_moves_board hwf]
    exact epPawn_clearEp hwf w hep
  | false =>
    rw [if_neg Bool.false_ne_true]
    exact hep

theorem epPawn_mmNext {g : Game} (hwf : wf g.board = true) (hep : EpPawn g.board)
    {move : Move} {d : Bool} (hmem : move ∈ (g.get_moves).1) :
    EpPawn (mmNext g move d).board := by
  have hmem2 : move ∈ (g.board.get_moves g.is_white_turn).1 := hmem
  have hbc : wf (g.board.clearEp g.is_white_turn) = true := wf_clearEp _ hwf
  have h0w : wf (mmBoard1 g move) = true := by
    rw [mmBoard1, get_moves_board hwf]
    exact wf_command_apply hbc (get_moves_moveok hwf hmem2)
  have h0 : EpPawn (mmBoard1 g move) := by
    rw [mmBoard1, get_moves_board hwf]
    exact epPawn_apply hbc (get_moves_moveok hwf hmem2) (epPawn_clearEp hwf _ hep)
  rw [mmNext_board]
  exact epPawn_stage2 (wf_if_get_moves h0w) (epPawn_if_get_moves h0w h0)

theorem epPawn_reachable {g : Game} (h : Reachable g) : EpPawn g.board := by
  induction h with
  | init => exact epPawn_initial
  | step hr hmk ih =>
    obtain ⟨hmem, hg2⟩ := make_move_ok hmk
    rw [hg2]
    exact epPawn_mmNext (wf_reachable hr) ih hmem
  | draw _ hd ih =>
    rw [accept_draw_board hd]
    exact ih

/-- Flagged pieces of the side to move next pass unchanged through the
tail get_moves calls of make_move. -/
theorem flagged_stage {b : Board} {w2 cnd : Bool} (hwf : wf b = true) {q : Pos}
    {v : Piece} (hg : gridGet ((if cnd then b.get_moves w2 else ([], b)).2).board q
      = some v) (hwv : is_white v = !w2) : gridGet b.board q = some v := by
  cases cnd with
  | true =>
    rw [if_pos rfl, get_moves_board hwf] at hg
    exact clearEp_other_grid hwf w2 hg hwv
  | false =>
    rw [if_neg Bool.false_ne_true] at hg
    exact hg

theorem flagged_stage2 {b : Board} {w2 cnd : Bool} (hwf : wf b = true) {q : Pos}
    {v : Piece}
    (hg : gridGet (if cnd then (if cnd then b.get_moves w2 else ([], b)).2
      else b).board q = some v) (hwv : is_white v = !w2) :
    gridGet b.board q = some v := by
  cases cnd with
  | true =>
    rw [if_pos rfl, if_pos rfl, get_moves_board hwf] at hg
    exact clearEp_other_grid hwf w2 hg hwv
  | false =>
    rw [if_neg Bool.false_ne_true] at hg
    exact hg

theorem rayPoint_zero (ini delta : Pos) : rayPoint ini delta 0 = ini := by
  rw [rayPoint]
  refine Prod.ext ?_ ?_ <;> simp

theorem rayPoint_shift (ini delta : Pos) (j : Nat) :
    rayPoint (ini.1 + delta.1, ini.2 + delta.2) delta j = rayPoint ini delta (j + 1) := by
  rw [rayPoint, rayPoint]
  refine Prod.ext ?_ ?_ <;> (push_cast; ring)

/-- Pointwise characterization of the slide walk: a square is collected
exactly when it lies on the ray within the fuel, every ray square up to it
is on the board, and every strictly earlier ray square is empty. -/
theorem slideWalk_mem_iff {b : Board} {delta : Pos} {p : Pos} :
    ∀ {fuel : Nat} {start : Pos} {acc : List Pos},
      (p ∈ slideWalk b delta fuel start acc ↔
        (p ∈ acc ∨ ∃ k : Nat, k < fuel ∧ p = rayPoint start delta k ∧
          (∀ j : Nat, j ≤ k → _is_in_bounds (rayPoint start delta j) = true) ∧
          (∀ j : Nat, j < k → gridGet b.board (rayPoint start delta j) = none))) := by
  intro fuel
  induction fuel with
  | zero =>
    intro start acc
    rw [slideWalk]
    constructor
    · intro h
      exact Or.inl h
    · rintro (h | ⟨k, hk, _⟩)
      · exact h
      · omega
  | succ n ih =>
    intro start acc
    rw [slideWalk]
    by_cases hin : _is_in_bounds start = true
    · rw [if_pos hin]
      cases hg : gridGet b.board start with
      | some v =>
        constructor
        · intro h
          cases h with
          | head =>
            refine Or.inr ⟨0, by omega, by rw [rayPoint_zero], ?_, ?_⟩
            · intro j hj
              have hj0 : j = 0 := by omega
              rw [hj0, rayPoint_zero]
              exact hin
            · intro j hj
              omega
          | tail _ h => exact Or.inl h
        · rintro (h | ⟨k, hk, hp, hb, he⟩)
          · exact List.mem_cons_of_mem _ h
          · cases k with
            | zero =>
              rw [hp, rayPoint_zero]
              exact List.mem_cons_self _ _
            | succ k2 =>
              have := he 0 (by omega)
              rw [rayPoint_zero, hg] at this
              cases this
      | none =>
        rw [ih]
        constructor
        · rintro (h | ⟨k, hk, hp, hb, he⟩)
          · cases h with
            | head =>
              refine Or.inr ⟨0, by omega, by rw [rayPoint_zero], ?_, ?_⟩
              · intro j hj
                have hj0 : j = 0 := by omega
                rw [hj0, rayPoint_zero]
                exact hin
              · intro j hj
                omega
            | tail _ h => exact Or.inl h
          · refine Or.inr ⟨k + 1, by omega, ?_, ?_, ?_⟩
            · rw [← rayPoint_shift]
              exact hp
            · intro j hj
              cases j with
              | zero =>
                rw [rayPoint_zero]
                exact hin
              | succ j2 =>
                rw [← rayPoint_shift]
                exact hb j2 (by omega)
            · intro j hj
              cases j with
              | zero =>
                rw [rayPoint_zero]
                exact hg
              | succ j2 =>
                rw [← rayPoint_shift]
                exact he j2 (by omega)
        · rintro (h | ⟨k, hk, hp, hb, he⟩)
          · exact Or.inl (List.mem_cons_of_mem _ h)
          · cases k with
            | zero =>
              rw [hp, rayPoint_zero]
              exact Or.inl (List.mem_cons_self _ _)
            | succ k2 =>
              refine Or.inr ⟨k2, by omega, ?_, ?_, ?_⟩
              · rw [rayPoint_shift]
                exact hp
              · intro j hj
                rw [rayPoint_shift]
                exact hb (j + 1) (by omega)
              · intro j hj
                rw [rayPoint_shift]
                exact he (j + 1) (by omega)
    · rw [if_neg hin]
      constructor
      · intro h
        exact Or.inl h
      · rintro (h | ⟨k, hk, hp, hb, he⟩)
        · exact h
        · have := hb 0 (by omega)
          rw [rayPoint_zero] at this
          exact absurd this hin

/-- Membership in a slide ray: the target is k steps out with every
earlier step on the board and empty, the target square itself on the
board. -/
theorem mem_slide_iff {b : Board} {ini delta p : Pos} :
    p ∈ b._get_slide_squares ini delta ↔
      ∃ k : Nat, 1 ≤ k ∧ k ≤ 8 ∧ p = rayPoint ini delta k ∧
        (∀ j : Nat, 1 ≤ j → j ≤ k → _is_in_bounds (rayPoint ini delta j) = true) ∧
        (∀ j : Nat, 1 ≤ j → j < k → gridGet b.board (rayPoint ini delta j) = none) := by
  rw [Board._get_slide_squares, slideWalk_mem_iff]
  constructor
  · rintro (h | ⟨k, hk, hp, hb, he⟩)
    · cases h
    · refine ⟨k + 1, by omega, by omega, ?_, ?_, ?_⟩
      · rw [← rayPoint_shift]
        exact hp
      · intro j hj1 hj2
        cases j with
        | zero => omega
        | succ j2 =>
          rw [← rayPoint_shift]
          exact hb j2 (by omega)
      · intro j hj1 hj2
        cases j with
        | zero => omega
        | succ j2 =>
          rw [← rayPoint_shift]
          exact he j2 (by omega)
  · rintro ⟨k, hk1, hk8, hp, hb, he⟩
    cases k with
    | zero => omega
    | succ k2 =>
      refine Or.inr ⟨k2, by omega, ?_, ?_, ?_⟩
      · rw [rayPoint_shift]
        exact hp
      · intro j hj
        rw [rayPoint_shift]
        exact hb (j + 1) (by omega) (by omega)
      · intro j hj
        rw [rayPoint_shift]
        exact he (j + 1) (by omega) (by omega)

/-- Membership in the append fold of the slide generators, both ways. -/
theorem mem_appendFold_iff {α : Type} {f : α → List Pos} {ds : List α}
    {acc : List Pos} {p : Pos} :
    p ∈ ds.foldl (fun positions d => f d ++ positions) acc ↔
      (p ∈ acc ∨ ∃ d ∈ ds, p ∈ f d) := by
  induction ds generalizing acc with
  | nil =>
    simp
  | cons d rest ih =>
    rw [List.foldl_cons, ih]
    constructor
    · rintro (h | ⟨d2, hd2, hp⟩)
      · rcases List.mem_append.mp h with h2 | h2
        · exact Or.inr ⟨d, List.mem_cons_self _ _, h2⟩
        · exact Or.inl h2
      · exact Or.inr ⟨d2, List.mem_cons_of_mem _ hd2, hp⟩
    · rintro (h | ⟨d2, hd2, hp⟩)
      · exact Or.inl (List.mem_append.mpr (Or.inr h))
      · cases hd2 with
        | head => exact Or.inl (List.mem_append.mpr (Or.inl hp))
        | tail _ hd2 => exact Or.inr ⟨d2, hd2, hp⟩

/-- Membership of the attacked-squares set, both ways: some enemy entry
attacks the square. -/
theorem mem_attacked_iff {b : Board} {w : Bool} {p : Pos} :
    p ∈ b._get_squares_attacked_by w ↔
      ∃ pp ∈ (if w then b.white_pieces else b.black_pieces),
        p ∈ attackSquares b w pp := by
  rw [Board._get_squares_attacked_by]
  have key : ∀ (l : PieceMap) (acc : List Pos),
      p ∈ l.foldl (fun positions pp =>
        match get_name pp.2 with
        | PName.K => _get_king_squares pp.1 ++ positions
        | PName.Q => b._get_queen_squares pp.1 ++ positions
        | PName.B => b._get_bishop_squares pp.1 ++ positions
        | PName.N => _get_knight_squares pp.1 ++ positions
        | PName.R => b._get_rook_squares pp.1 ++ positions
        | PName.P =>
          let wm : Int := if w then 1 else -1
          let p1 : Pos := (pp.1.1 + 1 * wm, pp.1.2 + 1)
          let p2 : Pos := (pp.1.1 + 1 * wm, pp.1.2 - 1)
          let positions := if _is_in_bounds p1 then p1 :: positions else positions
          if _is_in_bounds p2 then p2 :: positions else positions) acc ↔
        (p ∈ acc ∨ ∃ pp ∈ l, p ∈ attackSquares b w pp) := by
    intro l
    induction l with
    | nil =>
      intro acc
      simp
    | cons e rest ih =>
      intro acc
      rw [List.foldl_cons, ih]
      have hstep : ∀ acc2 : List Pos,
          (p ∈ (match get_name e.2 with
            | PName.K => _get_king_squares e.1 ++ acc2
            | PName.Q => b._get_queen_squares e.1 ++ acc2
            | PName.B => b._get_bishop_squares e.1 ++ acc2
            | PName.N => _get_knight_squares e.1 ++ acc2
            | PName.R => b._get_rook_squares e.1 ++ acc2
            | PName.P =>
              let wm : Int := if w then 1 else -1
              let p1 : Pos := (e.1.1 + 1 * wm, e.1.2 + 1)
              let p2 : Pos := (e.1.1 + 1 * wm, e.1.2 - 1)
              let acc3 := if _is_in_bounds p1 then p1 :: acc2 else acc2
              if _is_in_bounds p2 then p2 :: acc3 else acc3) ↔
            (p ∈ attackSquares b w e ∨ p ∈ acc2)) := by
        intro acc2
        cases hn : get_name e.2 with
        | K =>
          rw [show attackSquares b w e = _get_king_squares e.1 from by
            rw [attackSquares, hn]]
          exact List.mem_append
        | Q =>
          rw [show attackSquares b w e = b._get_queen_squares e.1 from by
            rw [attackSquares, hn]]
          exact List.mem_append
        | B =>
          rw [show attackSquares b w e = b._get_bishop_squares e.1 from by
            rw [attackSquares, hn]]
          exact List.mem_append
        | N =>
          rw [show attackSquares b w e = _get_knight_squares e.1 from by
            rw [attackSquares, hn]]
          exact List.mem_append
        | R =>
          rw [show attackSquares b w e = b._get_rook_squares e.1 from by
            rw [attackSquares, hn]]
          exact List.mem_append
        | P =>
          rw [show attackSquares b w e =
            ((if _is_in_bounds (e.1.1 + 1 * (if w then 1 else -1), e.1.2 - 1) then
                [(e.1.1 + 1 * (if w then 1 else -1), e.1.2 - 1)] else []) ++
             (if _is_in_bounds (e.1.1 + 1 * (if w then 1 else -1), e.1.2 + 1) then
                [(e.1.1 + 1 * (if w then 1 else -1), e.1.2 + 1)] else [])) from by
            rw [attackSquares, hn]]
          by_cases h2 : _is_in_bounds (e.1.1 + 1 * (if w then 1 else -1), e.1.2 - 1)
            = true
          · by_cases h1 : _is_in_bounds (e.1.1 + 1 * (if w then 1 else -1),
                e.1.2 + 1) = true
            · rw [if_pos h2, if_pos h1, if_pos h2, if_pos h1]
              simp [or_assoc]
            · rw [if_pos h2, if_neg h1, if_pos h2, if_neg h1]
              simp
          · by_cases h1 : _is_in_bounds (e.1.1 + 1 * (if w then 1 else -1),
                e.1.2 + 1) = true
            · rw [if_neg h2, if_pos h1, if_neg h2, if_pos h1]
              simp
            · rw [if_neg h2, if_neg h1, if_neg h2, if_neg h1]
              simp
      rw [hstep acc]
      constructor
      · rintro (⟨h | h⟩ | ⟨pp, hpp, hp⟩)
        · exact Or.inr ⟨e, List.mem_cons_self _ _, h⟩
        · exact Or.inl h
        · exact Or.inr ⟨pp, List.mem_cons_of_mem _ hpp, hp⟩
      · rintro (h | ⟨pp, hpp, hp⟩)
        · exact Or.inl (Or.inr h)
        · cases hpp with
          | head => exact Or.inl (Or.inl hp)
          | tail _ hpp => exact Or.inr ⟨pp, hpp, hp⟩
  constructor
  · intro h
    rcases (key _ _).mp h with h2 | h2
    · cases h2
    · exact h2
  · intro h
    exact (key _ _).mpr (Or.inr h)

/-- The slide walk reads only occupancy of the board. -/
theorem slideWalk_congr {b1 b2 : Board}
    (hocc : ∀ p, (gridGet b1.board p).isSome = (gridGet b2.board p).isSome)
    (delta : Pos) : ∀ (fuel : Nat) (start : Pos) (acc : List Pos),
      slideWalk b1 delta fuel start acc = slideWalk b2 delta fuel start acc := by
  intro fuel
  induction fuel with
  | zero =>
    intro start acc
    rfl
  | succ n ih =>
    intro start acc
    rw [slideWalk, slideWalk]
    by_cases hin : _is_in_bounds start = true
    · rw [if_pos hin, if_pos hin]
      have ho := hocc start
      cases hg1 : gridGet b1.board start with
      | some v1 =>
        cases hg2 : gridGet b2.board start with
        | some v2 => rfl
        | none =>
          rw [hg1, hg2] at ho
          cases ho
      | none =>
        cases hg2 : gridGet b2.board start with
        | some v2 =>
          rw [hg1, hg2] at ho
          cases ho
        | none =>
          exact ih _ _
    · rw [if_neg hin, if_neg hin]

theorem slide_squares_congr {b1 b2 : Board}
    (hocc : ∀ p, (gridGet b1.board p).isSome = (gridGet b2.board p).isSome)
    (ini delta : Pos) :
    b1._get_slide_squares ini delta = b2._get_slide_squares ini delta := by
  rw [Board._get_slide_squares, Board._get_slide_squares]
  exact slideWalk_congr hocc delta 8 _ _

theorem appendFold_congr {α : Type} {f g : α → List Pos}
    (h : ∀ d, f d = g d) (ds : List α) (acc : List Pos) :
    ds.foldl (fun positions d => f d ++ positions) acc
      = ds.foldl (fun positions d => g d ++ positions) acc := by
  induction ds generalizing acc with
  | nil => rfl
  | cons d rest ih =>
    rw [List.foldl_cons, List.foldl_cons, h d]
    exact ih _

/-- The attacked-squares computation depends only on the attacker map and
the occupancy of the grid. -/
theorem attacked_congr {b1 b2 : Board} {w : Bool}
    (hm : (if w then b1.white_pieces else b1.black_pieces)
      = (if w then b2.white_pieces else b2.black_pieces))
    (hocc : ∀ p, (gridGet b1.board p).isSome = (gridGet b2.board p).isSome) :
    b1._get_squares_attacked_by w = b2._get_squares_attacked_by w := by
  rw [Board._get_squares_attacked_by, Board._get_squares_attacked_by, ← hm]
  have key : ∀ (l : PieceMap) (acc : List Pos),
      l.foldl (fun positions pp =>
        match get_name pp.2 with
        | PName.K => _get_king_squares pp.1 ++ positions
        | PName.Q => b1._get_queen_squares pp.1 ++ positions
        | PName.B => b1._get_bishop_squares pp.1 ++ positions
        | PName.N => _get_knight_squares pp.1 ++ positions
        | PName.R => b1._get_rook_squares pp.1 ++ positions
        | PName.P =>
          let wm : Int := if w then 1 else -1
          let p1 : Pos := (pp.1.1 + 1 * wm, pp.1.2 + 1)
          let p2 : Pos := (pp.1.1 + 1 * wm, pp.1.2 - 1)
          let positions := if _is_in_bounds p1 then p1 :: positions else positions
          if _is_in_bounds p2 then p2 :: positions else positions) acc
      = l.foldl (fun positions pp =>
        match get_name pp.2 with
        | PName.K => _get_king_squares pp.1 ++ positions
        | PName.Q => b2._get_queen_squares pp.1 ++ positions
        | PName.B => b2._get_bishop_squares pp.1 ++ positions
        | PName.N => _get_knight_squares pp.1 ++ positions
        | PName.R => b2._get_rook_squares pp.1 ++ positions
        | PName.P =>
          let wm : Int := if w then 1 else -1
          let p1 : Pos := (pp.1.1 + 1 * wm, pp.1.2 + 1)
          let p2 : Pos := (pp.1.1 + 1 * wm, pp.1.2 - 1)
          let positions := if _is_in_bounds p1 then p1 :: positions else positions
          if _is_in_bounds p2 then p2 :: positions else positions) acc := by
    intro l
    induction l with
    | nil =>
      intro acc
      rfl
    | cons e rest ih =>
      intro acc
      rw [List.foldl_cons, List.foldl_cons]
      have hq := appendFold_congr (fun d => slide_squares_congr hocc e.1 d) QUEEN_DELTAS
        ([] : List Pos)
      have hbp := appendFold_congr (fun d => slide_squares_congr hocc e.1 d)
        BISHOP_DELTAS ([] : List Pos)
      have hr := appendFold_congr (fun d => slide_squares_congr hocc e.1 d) ROOK_DELTAS
        ([] : List Pos)
      have hstep : (match get_name e.2 with
          | PName.K => _get_king_squares e.1 ++ acc
          | PName.Q => b1._get_queen_squares e.1 ++ acc
          | PName.B => b1._get_bishop_squares e.1 ++ acc
          | PName.N => _get_knight_squares e.1 ++ acc
          | PName.R => b1._get_rook_squares e.1 ++ acc
          | PName.P =>
            let wm : Int := if w then 1 else -1
            let p1 : Pos := (e.1.1 + 1 * wm, e.1.2 + 1)
            let p2 : Pos := (e.1.1 + 1 * wm, e.1.2 - 1)
            let positions := if _is_in_bounds p1 then p1 :: acc else acc
            if _is_in_bounds p2 then p2 :: positions else positions)
          = (match get_name e.2 with
          | PName.K => _get_king_squares e.1 ++ acc
          | PName.Q => b2._get_queen_squares e.1 ++ acc
          | PName.B => b2._get_bishop_squares e.1 ++ acc
          | PName.N => _get_knight_squares e.1 ++ acc
          | PName.R => b2._get_rook_squares e.1 ++ acc
          | PName.P =>
            let wm : Int := if w then 1 else -1
            let p1 : Pos := (e.1.1 + 1 * wm, e.1.2 + 1)
            let p2 : Pos := (e.1.1 + 1 * wm, e.1.2 - 1)
            let positions := if _is_in_bounds p1 then p1 :: acc else acc
            if _is_in_bounds p2 then p2 :: positions else positions) := by
        cases hn : get_name e.2 with
        | K => rfl
        | N => rfl
        | P => rfl
        | Q =>
          show b1._get_queen_squares e.1 ++ acc = b2._get_queen_squares e.1 ++ acc
          rw [Board._get_queen_squares, Board._get_queen_squares, hq]
        | B =>
          show b1._get_bishop_squares e.1 ++ acc = b2._get_bishop_squares e.1 ++ acc
          rw [Board._get_bishop_squares, Board._get_bishop_squares, hbp]
        | R =>
          show b1._get_rook_squares e.1 ++ acc = b2._get_rook_squares e.1 ++ acc
          rw [Board._get_rook_squares, Board._get_rook_squares, hr]
      rw [hstep]
      exact ih _
  exact key _ _

/-- clearEp keeps occupancy. -/
theorem clearEp_occ {b : Board} (hwf : wf b = true) (c : Bool) :
    ∀ p, (gridGet (b.clearEp c).board p).isSome = (gridGet b.board p).isSome := by
  intro p
  rw [clearEp_spec c hwf]
  rw [show (epCleared b c).board
    = b.board.map (fun row => row.map (Option.map (pieceFix c))) from rfl,
    gridGet_mapGrid]
  cases gridGet b.board p <;> rfl

/-- clearEp does not change the squares the opponent attacks. -/
theorem clearEp_attacked {b : Board} (hwf : wf b = true) (c : Bool) :
    (b.clearEp c)._get_squares_attacked_by (!c)
      = b._get_squares_attacked_by (!c) := by
  refine attacked_congr ?_ (clearEp_occ hwf c)
  rw [clearEp_spec c hwf]
  cases c with
  | true => rfl
  | false => rfl

theorem inb_bounds {p : Pos} (h : _is_in_bounds p = true) :
    0 ≤ p.1 ∧ p.1 ≤ 7 ∧ 0 ≤ p.2 ∧ p.2 ≤ 7 := by
  obtain ⟨h1, h2, hp1, hp2⟩ := inb_coords h
  rw [Int.ofNat_eq_natCast] at hp1 hp2
  omega

theorem rook_sub_queen : ∀ d ∈ ROOK_DELTAS, d ∈ QUEEN_DELTAS := by decide

theorem bishop_sub_queen : ∀ d ∈ BISHOP_DELTAS, d ∈ QUEEN_DELTAS := by decide

theorem castleKApplyF_grid {bc : Board} (hsh : gridShape bc.board = true) (c : Bool)
    {q : Pos} (hq : _is_in_bounds q = true) :
    gridGet (castleKApplyF c bc).board q =
      (if q = (rankOf c, 5) then some (make_piece PName.R c true false)
       else if q = (rankOf c, 7) then none
       else if q = (rankOf c, 6) then some (make_piece PName.K c true false)
       else if q = (rankOf c, 4) then none
       else gridGet bc.board q) := by
  have hi4 : _is_in_bounds (rankOf c, 4) = true := inb_rank c 4 (by decide)
  have hi5 : _is_in_bounds (rankOf c, 5) = true := inb_rank c 5 (by decide)
  have hi6 : _is_in_bounds (rankOf c, 6) = true := inb_rank c 6 (by decide)
  have hi7 : _is_in_bounds (rankOf c, 7) = true := inb_rank c 7 (by decide)
  have hb1s : gridShape (bc._make_move (make_piece PName.K c true false)
      (rankOf c, 4) (rankOf c, 6)).board = true := by
    rw [mm_board]
    exact gridShape_set (gridShape_set hsh _ _) _ _
  show gridGet ((bc._make_move (make_piece PName.K c true false) (rankOf c, 4)
    (rankOf c, 6))._make_move (make_piece PName.R c true false) (rankOf c, 7)
    (rankOf c, 5)).board q = _
  rw [mm_board, gridGet_set_eq (gridShape_set hb1s _ none) hi5 hq,
    gridGet_set_eq hb1s hi7 hq, mm_board,
    gridGet_set_eq (gridShape_set hsh _ none) hi6 hq,
    gridGet_set_eq hsh hi4 hq]

theorem castleQApplyF_grid {bc : Board} (hsh : gridShape bc.board = true) (c : Bool)
    {q : Pos} (hq : _is_in_bounds q = true) :
    gridGet (castleQApplyF c bc).board q =
      (if q = (rankOf c, 3) then some (make_piece PName.R c true false)
       else if q = (rankOf c, 0) then none
       else if q = (rankOf c, 2) then some (make_piece PName.K c true false)
       else if q = (rankOf c, 4) then none
       else gridGet bc.board q) := by
  have hi4 : _is_in_bounds (rankOf c, 4) = true := inb_rank c 4 (by decide)
  have hi0 : _is_in_bounds (rankOf c, 0) = true := inb_rank c 0 (by decide)
  have hi2 : _is_in_bounds (rankOf c, 2) = true := inb_rank c 2 (by decide)
  have hi3 : _is_in_bounds (rankOf c, 3) = true := inb_rank c 3 (by decide)
  have hb1s : gridShape (bc._make_move (make_piece PName.K c true false)
      (rankOf c, 4) (rankOf c, 2)).board = true := by
    rw [mm_board]
    exact gridShape_set (gridShape_set hsh _ _) _ _
  show gridGet ((bc._make_move (make_piece PName.K c true false) (rankOf c, 4)
    (rankOf c, 2))._make_move (make_piece PName.R c true false) (rankOf c, 0)
    (rankOf c, 3)).board q = _
  rw [mm_board, gridGet_set_eq (gridShape_set hb1s _ none) hi3 hq,
    gridGet_set_eq hb1s hi0 hq, mm_board,
    gridGet_set_eq (gridShape_set hsh _ none) hi2 hq,
    gridGet_set_eq hsh hi4 hq]

/-- Any sliding attack on the king destination g-file square after a
kingside castle was already an attack before it: the only squares the
castle vacates cannot lie on an unblocked ray to that square. -/
theorem slide_transfer_castleK {bc : Board} {c : Bool}
    (hsh : gridShape bc.board = true) {A : Pos} (hA : _is_in_bounds A = true)
    {d : Pos} (hd : d ∈ QUEEN_DELTAS)
    (ht : (rankOf c, 6) ∈ (castleKApplyF c bc)._get_slide_squares A d) :
    (rankOf c, 6) ∈ bc._get_slide_squares A d := by
  rw [mem_slide_iff] at ht ⊢
  obtain ⟨k, hk1, hk8, hpt, hbnd, hemp⟩ := ht
  refine ⟨k, hk1, hk8, hpt, hbnd, ?_⟩
  intro j hj1 hjk
  have hj := hemp j hj1 hjk
  have hjb := hbnd j hj1 (by omega)
  rw [castleKApplyF_grid hsh c hjb] at hj
  have hptf := congrArg Prod.fst hpt
  have hpts := congrArg Prod.snd hpt
  dsimp only [rayPoint] at hptf hpts
  obtain ⟨hA1, hA2, hA3, hA4⟩ := inb_bounds hA
  have hd8 : d = ((1 : Int), (0 : Int)) ∨ d = (1, 1) ∨ d = (0, 1) ∨ d = (-1, 1) ∨
      d = (-1, 0) ∨ d = (-1, -1) ∨ d = (0, -1) ∨ d = (1, -1) := by
    simpa [QUEEN_DELTAS] using hd
  by_cases e5 : rayPoint A d j = (rankOf c, 5)
  · rw [if_pos e5] at hj
    cases hj
  · rw [if_neg e5] at hj
    by_cases e7 : rayPoint A d j = (rankOf c, 7)
    · exfalso
      have e7f := congrArg Prod.fst e7
      have e7s := congrArg Prod.snd e7
      dsimp only [rayPoint] at e7f e7s
      rcases hd8 with h|h|h|h|h|h|h|h <;> subst h <;>
        dsimp only at e7f e7s hptf hpts <;> omega
    · rw [if_neg e7] at hj
      by_cases e6 : rayPoint A d j = (rankOf c, 6)
      · rw [if_pos e6] at hj
        cases hj
      · rw [if_neg e6] at hj
        by_cases e4 : rayPoint A d j = (rankOf c, 4)
        · exfalso
          have e4f := congrArg Prod.fst e4
          have e4s := congrArg Prod.snd e4
          dsimp only [rayPoint] at e4f e4s
          rcases hd8 with h|h|h|h|h|h|h|h <;> subst h <;>
            dsimp only at e4f e4s hptf hpts <;>
            first
            | omega
            | (have e51 : rayPoint A ((0 : Int), (1 : Int)) (j + 1) = (rankOf c, 5) := by
                refine Prod.ext ?_ ?_ <;> (dsimp only [rayPoint]; push_cast; omega)
               have h51 := hemp (j + 1) (by omega) (by omega)
               rw [castleKApplyF_grid hsh c
                 (hbnd (j + 1) (by omega) (by omega))] at h51
               rw [if_pos e51] at h51
               cases h51)
        · rw [if_neg e4] at hj
          exact hj

/-- The queenside analogue for the king destination c-file square. -/
theorem slide_transfer_castleQ {bc : Board} {c : Bool}
    (hsh : gridShape bc.board = true) {A : Pos} (hA : _is_in_bounds A = true)
    {d : Pos} (hd : d ∈ QUEEN_DELTAS)
    (ht : (rankOf c, 2) ∈ (castleQApplyF c bc)._get_slide_squares A d) :
    (rankOf c, 2) ∈ bc._get_slide_squares A d := by
  rw [mem_slide_iff] at ht ⊢
  obtain ⟨k, hk1, hk8, hpt, hbnd, hemp⟩ := ht
  refine ⟨k, hk1, hk8, hpt, hbnd, ?_⟩
  intro j hj1 hjk
  have hj := hemp j hj1 hjk
  have hjb := hbnd j hj1 (by omega)
  rw [castleQApplyF_grid hsh c hjb] at hj
  have hptf := congrArg Prod.fst hpt
  have hpts := congrArg Prod.snd hpt
  dsimp only [rayPoint] at hptf hpts
  obtain ⟨hA1, hA2, hA3, hA4⟩ := inb_bounds hA
  have hd8 : d = ((1 : Int), (0 : Int)) ∨ d = (1, 1) ∨ d = (0, 1) ∨ d = (-1, 1) ∨
      d = (-1, 0) ∨ d = (-1, -1) ∨ d = (0, -1) ∨ d = (1, -1) := by
    simpa [QUEEN_DELTAS] using hd
  by_cases e3 : rayPoint A d j = (rankOf c, 3)
  · rw [if_pos e3] at hj
    cases hj
  · rw [if_neg e3] at hj
    by_cases e0 : rayPoint A d j = (rankOf c, 0)
    · exfalso
      have e0f := congrArg Prod.fst e0
      have e0s := congrArg Prod.snd e0
      dsimp only [rayPoint] at e0f e0s
      rcases hd8 with h|h|h|h|h|h|h|h <;> subst h <;>
        dsimp only at e0f e0s hptf hpts <;> omega
    · rw [if_neg e0] at hj
      by_cases e2 : rayPoint A d j = (rankOf c, 2)
      · rw [if_pos e2] at hj
        cases hj
      · rw [if_neg e2] at hj
        by_cases e4 : rayPoint A d j = (rankOf c, 4)
        · exfalso
          have e4f := congrArg Prod.fst e4
          have e4s := congrArg Prod.snd e4
          dsimp only [rayPoint] at e4f e4s
          rcases hd8 with h|h|h|h|h|h|h|h <;> subst h <;>
            dsimp only at e4f e4s hptf hpts <;>
            first
            | omega
            | (have e31 : rayPoint A ((0 : Int), (-1 : Int)) (j + 1) = (rankOf c, 3) := by
                refine Prod.ext ?_ ?_ <;> (dsimp only [rayPoint]; push_cast; omega)
               have h31 := hemp (j + 1) (by omega) (by omega)
               rw [castleQApplyF_grid hsh c
                 (hbnd (j + 1) (by omega) (by omega))] at h31
               rw [if_pos e31] at h31
               cases h31)
        · rw [if_neg e4] at hj
          exact hj

theorem castleK_opp_pieces {bc : Board} (hwf : wf bc = true) {c : Bool}
    (h5 : gridGet bc.board (rankOf c, 5) = none)
    (h6 : gridGet bc.board (rankOf c, 6) = none) :
    omap c (castleKApplyF c bc) = omap c bc := by
  show omap c ((bc._make_move (make_piece PName.K c true false) (rankOf c, 4)
    (rankOf c, 6))._make_move (make_piece PName.R c true false) (rankOf c, 7)
    (rankOf c, 5)) = _
  rw [mm_omap _ (make_piece PName.R c true false) (rankOf c, 7) (rankOf c, 5)
      (show is_white (make_piece PName.R c true false) = c from rfl),
    mm_omap bc (make_piece PName.K c true false) (rankOf c, 4) (rankOf c, 6)
      (show is_white (make_piece PName.K c true false) = c from rfl),
    dictPop_absent (omap_none hwf (fun v hv => by rw [h6] at hv; cases hv)),
    dictPop_absent (omap_none hwf (fun v hv => by rw [h5] at hv; cases hv))]

theorem castleQ_opp_pieces {bc : Board} (hwf : wf bc = true) {c : Bool}
    (h2 : gridGet bc.board (rankOf c, 2) = none)
    (h3 : gridGet bc.board (rankOf c, 3) = none) :
    omap c (castleQApplyF c bc) = omap c bc := by
  show omap c ((bc._make_move (make_piece PName.K c true false) (rankOf c, 4)
    (rankOf c, 2))._make_move (make_piece PName.R c true false) (rankOf c, 0)
    (rankOf c, 3)) = _
  rw [mm_omap _ (make_piece PName.R c true false) (rankOf c, 0) (rankOf c, 3)
      (show is_white (make_piece PName.R c true false) = c from rfl),
    mm_omap bc (make_piece PName.K c true false) (rankOf c, 4) (rankOf c, 2)
      (show is_white (make_piece PName.K c true false) = c from rfl),
    dictPop_absent (omap_none hwf (fun v hv => by rw [h2] at hv; cases hv)),
    dictPop_absent (omap_none hwf (fun v hv => by rw [h3] at hv; cases hv))]

theorem castleK_kcache {bc : Board} (c : Bool) :
    kcache c (castleKApplyF c bc) = (rankOf c, 6) := by
  show kcache c ((bc._make_move (make_piece PName.K c true false) (rankOf c, 4)
    (rankOf c, 6))._make_move (make_piece PName.R c true false) (rankOf c, 7)
    (rankOf c, 5)) = _
  rw [mm_kc _ (make_piece PName.R c true false) (rankOf c, 7) (rankOf c, 5)
      (show is_white (make_piece PName.R c true false) = c from rfl),
    show ((get_name (make_piece PName.R c true false) == PName.K)) = false from rfl,
    if_neg Bool.false_ne_true,
    mm_kc bc (make_piece PName.K c true false) (rankOf c, 4) (rankOf c, 6)
      (show is_white (make_piece PName.K c true false) = c from rfl),
    show ((get_name (make_piece PName.K c true false) == PName.K)) = true from rfl,
    if_pos rfl]

theorem castleQ_kcache {bc : Board} (c : Bool) :
    kcache c (castleQApplyF c bc) = (rankOf c, 2) := by
  show kcache c ((bc._make_move (make_piece PName.K c true false) (rankOf c, 4)
    (rankOf c, 2))._make_move (make_piece PName.R c true false) (rankOf c, 0)
    (rankOf c, 3)) = _
  rw [mm_kc _ (make_piece PName.R c true false) (rankOf c, 0) (rankOf c, 3)
      (show is_white (make_piece PName.R c true false) = c from rfl),
    show ((get_name (make_piece PName.R c true false) == PName.K)) = false from rfl,
    if_neg Bool.false_ne_true,
    mm_kc bc (make_piece PName.K c true false) (rankOf c, 4) (rankOf c, 2)
      (show is_white (make_piece PName.K c true false) = c from rfl),
    show ((get_name (make_piece PName.K c true false) == PName.K)) = true from rfl,
    if_pos rfl]

/-- Any attack on the kingside castle destination after the castle was an
attack on it before the castle. -/
theorem attacked_castleK {bc : Board} {c : Bool} (hwf : wf bc = true)
    (h5 : gridGet bc.board (rankOf c, 5) = none)
    (h6 : gridGet bc.board (rankOf c, 6) = none)
    (hmem : (rankOf c, 6) ∈ (castleKApplyF c bc)._get_squares_attacked_by (!c)) :
    (rankOf c, 6) ∈ bc._get_squares_attacked_by (!c) := by
  have hsh := (wf_parts hwf).1
  obtain ⟨pp, hpp, hatt⟩ := mem_attacked_iff.mp hmem
  have hlist : (if (!c) then (castleKApplyF c bc).white_pieces
      else (castleKApplyF c bc).black_pieces)
      = (if (!c) then bc.white_pieces else bc.black_pieces) := by
    have homp := castleK_opp_pieces hwf h5 h6
    cases c with
    | true => exact homp
    | false => exact homp
  rw [hlist] at hpp
  have hppm : pp ∈ omap c bc := by
    cases c with
    | true => exact hpp
    | false => exact hpp
  obtain ⟨hAin, _, _⟩ := omap_get hwf (mem_dictGet (omap_chain hwf) hppm)
  refine mem_attacked_iff.mpr ⟨pp, hpp, ?_⟩
  cases hn : get_name pp.2 with
  | K =>
    rw [attackSquares, hn] at hatt ⊢
    exact hatt
  | N =>
    rw [attackSquares, hn] at hatt ⊢
    exact hatt
  | P =>
    rw [attackSquares, hn] at hatt ⊢
    exact hatt
  | R =>
    rw [attackSquares, hn] at hatt ⊢
    rw [Board._get_rook_squares, mem_appendFold_iff] at hatt ⊢
    rcases hatt with h | ⟨d, hd, hs⟩
    · cases h
    · exact Or.inr ⟨d, hd, slide_transfer_castleK hsh hAin (rook_sub_queen d hd) hs⟩
  | B =>
    rw [attackSquares, hn] at hatt ⊢
    rw [Board._get_bishop_squares, mem_appendFold_iff] at hatt ⊢
    rcases hatt with h | ⟨d, hd, hs⟩
    · cases h
    · exact Or.inr ⟨d, hd, slide_transfer_castleK hsh hAin (bishop_sub_queen d hd) hs⟩
  | Q =>
    rw [attackSquares, hn] at hatt ⊢
    rw [Board._get_queen_squares, mem_appendFold_iff] at hatt ⊢
    rcases hatt with h | ⟨d, hd, hs⟩
    · cases h
    · exact Or.inr ⟨d, hd, slide_transfer_castleK hsh hAin hd hs⟩

theorem attacked_castleQ {bc : Board} {c : Bool} (hwf : wf bc = true)
    (h2 : gridGet bc.board (rankOf c, 2) = none)
    (h3 : gridGet bc.board (rankOf c, 3) = none)
    (hmem : (rankOf c, 2) ∈ (castleQApplyF c bc)._get_squares_attacked_by (!c)) :
    (rankOf c, 2) ∈ bc._get_squares_attacked_by (!c) := by
  have hsh := (wf_parts hwf).1
  obtain ⟨pp, hpp, hatt⟩ := mem_attacked_iff.mp hmem
  have hlist : (if (!c) then (castleQApplyF c bc).white_pieces
      else (castleQApplyF c bc).black_pieces)
      = (if (!c) then bc.white_pieces else bc.black_pieces) := by
    have homp := castleQ_opp_pieces hwf h2 h3
    cases c with
    | true => exact homp
    | false => exact homp
  rw [hlist] at hpp
  have hppm : pp ∈ omap c bc := by
    cases c with
    | true => exact hpp
    | false => exact hpp
  obtain ⟨hAin, _, _⟩ := omap_get hwf (mem_dictGet (omap_chain hwf) hppm)
  refine mem_attacked_iff.mpr ⟨pp, hpp, ?_⟩
  cases hn : get_name pp.2 with
  | K =>
    rw [attackSquares, hn] at hatt ⊢
    exact hatt
  | N =>
    rw [attackSquares, hn] at hatt ⊢
    exact hatt
  | P =>
    rw [attackSquares, hn] at hatt ⊢
    exact hatt
  | R =>
    rw [attackSquares, hn] at hatt ⊢
    rw [Board._get_rook_squares, mem_appendFold_iff] at hatt ⊢
    rcases hatt with h | ⟨d, hd, hs⟩
    · cases h
    · exact Or.inr ⟨d, hd, slide_transfer_castleQ hsh hAin (rook_sub_queen d hd) hs⟩
  | B =>
    rw [attackSquares, hn] at hatt ⊢
    rw [Board._get_bishop_squares, mem_appendFold_iff] at hatt ⊢
    rcases hatt with h | ⟨d, hd, hs⟩
    · cases h
    · exact Or.inr ⟨d, hd, slide_transfer_castleQ hsh hAin (bishop_sub_queen d hd) hs⟩
  | Q =>
    rw [attackSquares, hn] at hatt ⊢
    rw [Board._get_queen_squares, mem_appendFold_iff] at hatt ⊢
    rcases hatt with h | ⟨d, hd, hs⟩
    · cases h
    · exact Or.inr ⟨d, hd, slide_transfer_castleQ hsh hAin hd hs⟩

/-- If the kingside castle destination is unattacked before the castle, the
castled position does not leave the mover checked. -/
theorem castleK_checked {bc : Board} {c : Bool} (hwf : wf bc = true)
    (h5 : gridGet bc.board (rankOf c, 5) = none)
    (h6 : gridGet bc.board (rankOf c, 6) = none)
    (hpre : posMem (rankOf c, 6) (bc._get_squares_attacked_by (!c)) = false) :
    (castleKApplyF c bc).is_checked c = false := by
  rw [Board.is_checked]
  have hkc : (if c then (castleKApplyF c bc).white_king
      else (castleKApplyF c bc).black_king) = (rankOf c, 6) := castleK_kcache c
  rw [hkc]
  cases hm : posMem (rankOf c, 6)
      ((castleKApplyF c bc)._get_squares_attacked_by (!c)) with
  | false => rfl
  | true =>
    have hmem := posMem_iff.mp hm
    have hbc := attacked_castleK hwf h5 h6 hmem
    rw [posMem_iff.mpr hbc] at hpre
    cases hpre

theorem castleQ_checked {bc : Board} {c : Bool} (hwf : wf bc = true)
    (h2 : gridGet bc.board (rankOf c, 2) = none)
    (h3 : gridGet bc.board (rankOf c, 3) = none)
    (hpre : posMem (rankOf c, 2) (bc._get_squares_attacked_by (!c)) = false) :
    (castleQApplyF c bc).is_checked c = false := by
  rw [Board.is_checked]
  have hkc : (if c then (castleQApplyF c bc).white_king
      else (castleQApplyF c bc).black_king) = (rankOf c, 2) := castleQ_kcache c
  rw [hkc]
  cases hm : posMem (rankOf c, 2)
      ((castleQApplyF c bc)._get_squares_attacked_by (!c)) with
  | false => rfl
  | true =>
    have hmem := posMem_iff.mp hm
    have hbc := attacked_castleQ hwf h2 h3 hmem
    rw [posMem_iff.mpr hbc] at hpre
    cases hpre

theorem pieceFix_moved (c : Bool) (v : Piece) :
    has_moved (pieceFix c v) = has_moved v := by
  rw [pieceFix]
  by_cases h : (get_name v == PName.P && (is_white v == c) && can_ep v) = true
  · rw [if_pos h]
    rfl
  · rw [if_neg h]

theorem clearEp_grid {b : Board} (hwf : wf b = true) (c : Bool) (q : Pos) :
    gridGet (b.clearEp c).board q = (gridGet b.board q).map (pieceFix c) := by
  rw [clearEp_spec c hwf]
  rw [show (epCleared b c).board
    = b.board.map (fun row => row.map (Option.map (pieceFix c))) from rfl,
    gridGet_mapGrid]

theorem mem_addMove_self (s : List Move) (m : Move) : m ∈ addMove s m := by
  rw [addMove]
  by_cases h : s.contains m = true
  · rw [if_pos h]
    exact move_contains_iff.mp h
  · rw [if_neg h]
    exact List.mem_cons_self _ _

theorem mem_if_match_addMove {cnd : Bool} {g : Option Piece} {acc : List Move}
    {m : Move} (f : Piece → Move) (h : m ∈ acc) :
    m ∈ (if cnd then
      (match g with
       | some pawn => addMove acc (f pawn)
       | none => acc)
      else acc) := by
  cases cnd with
  | true =>
    rw [if_pos rfl]
    cases g with
    | some pawn => exact mem_addMove_of_mem _ h
    | none => exact h
  | false =>
    rw [if_neg Bool.false_ne_true]
    exact h

theorem mem_matchArm {g : Option Piece} {acc : List Move} {m : Move}
    (cnd : Piece → Bool) (f : Piece → Move) (h : m ∈ acc) :
    m ∈ (match g with
      | some r => if cnd r then addMove acc (f r) else acc
      | none => acc) := by
  cases g with
  | none => exact h
  | some r =>
    show m ∈ (if cnd r = true then addMove acc (f r) else acc)
    by_cases hc : cnd r = true
    · rw [if_pos hc]
      exact mem_addMove_of_mem _ h
    · rw [if_neg hc]
      exact h

/-- Membership survives the en-passant fold of the pseudo-move generator. -/
theorem epFold_pres {b : Board} {c : Bool} {eps : List Pos} {m : Move} :
    ∀ {ps : List Pos} {acc : List Move}, m ∈ acc →
      m ∈ ps.foldl (epStep b c eps) acc := by
  intro ps
  induction ps with
  | nil =>
    intro acc h
    exact h
  | cons p rest ih =>
    intro acc h
    rw [List.foldl_cons]
    refine ih ?_
    rw [epStep]
    exact mem_if_match_addMove _ (mem_if_match_addMove _ h)

/-- The castle section emits the kingside castle when its source
conditions hold. -/
theorem castleK_mem_pseudo {bc : Board} {c : Bool} {kg rk : Piece}
    (hkg : gridGet bc.board (rankOf c, 4) = some kg) (hkgN : get_name kg = PName.K)
    (hkgW : is_white kg = c) (hkgM : has_moved kg = false)
    (hrk : gridGet bc.board (rankOf c, 7) = some rk) (hrkN : get_name rk = PName.R)
    (hrkW : is_white rk = c) (hrkM : has_moved rk = false)
    (h5 : gridGet bc.board (rankOf c, 5) = none)
    (h6 : gridGet bc.board (rankOf c, 6) = none) :
    Move.castleK c ∈ bc._get_psuedo_moves c := by
  rw [psuedo_eq]
  refine epFold_pres ?_
  rw [pseudoCastle]
  dsimp only
  rw [show ((if c then (0 : Int) else 7) : Int) = rankOf c from rfl]
  rw [hkg]
  dsimp only
  rw [show (get_name kg == PName.K && !has_moved kg && (is_white kg == c)) = true
    from by rw [hkgN, hkgW, hkgM]; simp]
  rw [if_pos rfl]
  rw [hrk]
  dsimp only
  rw [show (get_name rk == PName.R && !has_moved rk && (is_white rk == c) &&
      ([gridGet bc.board (rankOf c, 5), gridGet bc.board (rankOf c, 6)].all
        (fun s => s.isNone))) = true
    from by rw [hrkN, hrkW, hrkM, h5, h6]; simp]
  rw [if_pos rfl]
  exact mem_addMove_self _ _

/-- The castle section emits the queenside castle when its source
conditions hold. -/
theorem castleQ_mem_pseudo {bc : Board} {c : Bool} {kg rk : Piece}
    (hkg : gridGet bc.board (rankOf c, 4) = some kg) (hkgN : get_name kg = PName.K)
    (hkgW : is_white kg = c) (hkgM : has_moved kg = false)
    (hrk : gridGet bc.board (rankOf c, 0) = some rk) (hrkN : get_name rk = PName.R)
    (hrkW : is_white rk = c) (hrkM : has_moved rk = false)
    (h1 : gridGet bc.board (rankOf c, 1) = none)
    (h2 : gridGet bc.board (rankOf c, 2) = none)
    (h3 : gridGet bc.board (rankOf c, 3) = none) :
    Move.castleQ c ∈ bc._get_psuedo_moves c := by
  rw [psuedo_eq]
  refine epFold_pres ?_
  rw [pseudoCastle]
  dsimp only
  rw [show ((if c then (0 : Int) else 7) : Int) = rankOf c from rfl]
  rw [hkg]
  dsimp only
  rw [show (get_name kg == PName.K && !has_moved kg && (is_white kg == c)) = true
    from by rw [hkgN, hkgW, hkgM]; simp]
  rw [if_pos rfl]
  rw [hrk]
  dsimp only
  rw [show (get_name rk == PName.R && !has_moved rk && (is_white rk == c) &&
      ([gridGet bc.board (rankOf c, 1), gridGet bc.board (rankOf c, 2),
        gridGet bc.board (rankOf c, 3)].all (fun s => s.isNone))) = true
    from by rw [hrkN, hrkW, hrkM, h1, h2, h3]; simp]
  rw [if_pos rfl]
  exact mem_matchArm _ _ (mem_addMove_self _ _)

theorem castleK_mem_pruned {bc : Board} {c : Bool}
    (hp : Move.castleK c ∈ bc._get_psuedo_moves c)
    (h4 : posMem (rankOf c, 4) (bc._get_squares_attacked_by (!c)) = false)
    (h5 : posMem (rankOf c, 5) (bc._get_squares_attacked_by (!c)) = false)
    (h6 : posMem (rankOf c, 6) (bc._get_squares_attacked_by (!c)) = false) :
    Move.castleK c ∈ castlePruned bc c := by
  rw [castlePruned]
  rw [show ((if c then (0 : Int) else 7) : Int) = rankOf c from rfl]
  rw [show ([((rankOf c, 4) : Pos), (rankOf c, 5), (rankOf c, 6)].any
      (fun s => posMem s (bc._get_squares_attacked_by (!c)))) = false
    from by rw [List.any_cons, List.any_cons, List.any_cons, List.any_nil,
      h4, h5, h6]; rfl]
  rw [if_neg Bool.false_ne_true]
  by_cases hq : ([((rankOf c, 4) : Pos), (rankOf c, 3), (rankOf c, 2)].any
      (fun s => posMem s (bc._get_squares_attacked_by (!c)))) = true
  · rw [if_pos hq]
    refine mem_removeMove_of_ne hp ?_
    intro hcon
    cases hcon
  · rw [if_neg hq]
    exact hp

theorem castleQ_mem_pruned {bc : Board} {c : Bool}
    (hp : Move.castleQ c ∈ bc._get_psuedo_moves c)
    (h4 : posMem (rankOf c, 4) (bc._get_squares_attacked_by (!c)) = false)
    (h3 : posMem (rankOf c, 3) (bc._get_squares_attacked_by (!c)) = false)
    (h2 : posMem (rankOf c, 2) (bc._get_squares_attacked_by (!c)) = false) :
    Move.castleQ c ∈ castlePruned bc c := by
  rw [castlePruned]
  rw [show ((if c then (0 : Int) else 7) : Int) = rankOf c from rfl]
  rw [show ([((rankOf c, 4) : Pos), (rankOf c, 3), (rankOf c, 2)].any
      (fun s => posMem s (bc._get_squares_attacked_by (!c)))) = false
    from by rw [List.any_cons, List.any_cons, List.any_cons, List.any_nil,
      h4, h3, h2]; rfl]
  rw [if_neg Bool.false_ne_true]
  by_cases hk : ([((rankOf c, 4) : Pos), (rankOf c, 5), (rankOf c, 6)].any
      (fun s => posMem s (bc._get_squares_attacked_by (!c)))) = true
  · rw [if_pos hk]
    refine mem_removeMove_of_ne hp ?_
    intro hcon
    cases hcon
  · rw [if_neg hk]
    exact hp

theorem castleK_pruned_attacks {bc : Board} {c : Bool}
    (h : Move.castleK c ∈ castlePruned bc c) :
    posMem (rankOf c, 4) (bc._get_squares_attacked_by (!c)) = false ∧
    posMem (rankOf c, 5) (bc._get_squares_attacked_by (!c)) = false ∧
    posMem (rankOf c, 6) (bc._get_squares_attacked_by (!c)) = false := by
  rw [castlePruned] at h
  rw [show ((if c then (0 : Int) else 7) : Int) = rankOf c from rfl] at h
  have h1 := mem_if_removeMove h
  cases hq2 : ([((rankOf c, 4) : Pos), (rankOf c, 5), (rankOf c, 6)].any
      (fun s => posMem s (bc._get_squares_attacked_by (!c)))) with
  | true =>
    rw [hq2, if_pos rfl] at h1
    exact absurd rfl (mem_removeMove h1).2
  | false =>
    refine ⟨?_, ?_, ?_⟩
    · cases hx : posMem (rankOf c, 4) (bc._get_squares_attacked_by (!c)) with
      | false => rfl
      | true =>
        rw [List.any_eq_true.mpr ⟨(rankOf c, 4), by simp, hx⟩] at hq2
        cases hq2
    · cases hx : posMem (rankOf c, 5) (bc._get_squares_attacked_by (!c)) with
      | false => rfl
      | true =>
        rw [List.any_eq_true.mpr ⟨(rankOf c, 5), by simp, hx⟩] at hq2
        cases hq2
    · cases hx : posMem (rankOf c, 6) (bc._get_squares_attacked_by (!c)) with
      | false => rfl
      | true =>
        rw [List.any_eq_true.mpr ⟨(rankOf c, 6), by simp, hx⟩] at hq2
        cases hq2

theorem castleQ_pruned_attacks {bc : Board} {c : Bool}
    (h : Move.castleQ c ∈ castlePruned bc c) :
    posMem (rankOf c, 4) (bc._get_squares_attacked_by (!c)) = false ∧
    posMem (rankOf c, 3) (bc._get_squares_attacked_by (!c)) = false ∧
    posMem (rankOf c, 2) (bc._get_squares_attacked_by (!c)) = false := by
  rw [castlePruned] at h
  rw [show ((if c then (0 : Int) else 7) : Int) = rankOf c from rfl] at h
  cases hq2 : ([((rankOf c, 4) : Pos), (rankOf c, 3), (rankOf c, 2)].any
      (fun s => posMem s (bc._get_squares_attacked_by (!c)))) with
  | true =>
    rw [hq2, if_pos rfl] at h
    exact absurd rfl (mem_removeMove h).2
  | false =>
    refine ⟨?_, ?_, ?_⟩
    · cases hx : posMem (rankOf c, 4) (bc._get_squares_attacked_by (!c)) with
      | false => rfl
      | true =>
        rw [List.any_eq_true.mpr ⟨(rankOf c, 4), by simp, hx⟩] at hq2
        cases hq2
    · cases hx : posMem (rankOf c, 3) (bc._get_squares_attacked_by (!c)) with
      | false => rfl
      | true =>
        rw [List.any_eq_true.mpr ⟨(rankOf c, 3), by simp, hx⟩] at hq2
        cases hq2
    · cases hx : posMem (rankOf c, 2) (bc._get_squares_attacked_by (!c)) with
      | false => rfl
      | true =>
        rw [List.any_eq_true.mpr ⟨(rankOf c, 2), by simp, hx⟩] at hq2
        cases hq2

theorem grid_some_fwd {b : Board} (hwf : wf b = true) (c : Bool) {q : Pos}
    {v : Piece} (h : gridGet b.board q = some v) :
    gridGet (b.clearEp c).board q = some (pieceFix c v) := by
  rw [clearEp_grid hwf c, h]
  rfl

theorem grid_none_fwd {b : Board} (hwf : wf b = true) (c : Bool) {q : Pos}
    (h : gridGet b.board q = none) : gridGet (b.clearEp c).board q = none := by
  rw [clearEp_grid hwf c, h]
  rfl

theorem grid_some_back {b : Board} (hwf : wf b = true) (c : Bool) {q : Pos}
    {v2 : Piece} (h : gridGet (b.clearEp c).board q = some v2) :
    ∃ v, gridGet b.board q = some v ∧ get_name v = get_name v2 ∧
      is_white v = is_white v2 ∧ has_moved v = has_moved v2 := by
  rw [clearEp_grid hwf c] at h
  cases hg : gridGet b.board q with
  | none =>
    rw [hg] at h
    cases h
  | some v =>
    rw [hg] at h
    injection h with h
    refine ⟨v, rfl, ?_, ?_, ?_⟩
    · rw [← h, pieceFix_name]
    · rw [← h, pieceFix_white]
    · rw [← h, pieceFix_moved]

theorem grid_none_back {b : Board} (hwf : wf b = true) (c : Bool) {q : Pos}
    (h : gridGet (b.clearEp c).board q = none) : gridGet b.board q = none := by
  rw [clearEp_grid hwf c] at h
  cases hg : gridGet b.board q with
  | none => rfl
  | some v =>
    rw [hg] at h
    cases h

/-- C3: for every legal move of the side to move in a reachable position,
the undo command run after the apply command restores the board the
commands were created from, exactly. -/
theorem apply_undo_restores {g : Game} (hr : Reachable g) {m : Move}
    (hm : m ∈ (g.get_moves).1) :
    ((g.get_moves).2.board.get_move_command m).2
      (((g.get_moves).2.board.get_move_command m).1 (g.get_moves).2.board)
      = (g.get_moves).2.board := by
  have hwf := wf_reachable hr
  have hm2 : m ∈ (g.board.get_moves g.is_white_turn).1 := hm
  show ((g.board.get_moves g.is_white_turn).2.get_move_command m).2
    (((g.board.get_moves g.is_white_turn).2.get_move_command m).1
      (g.board.get_moves g.is_white_turn).2) = (g.board.get_moves g.is_white_turn).2
  rw [get_moves_board hwf]
  exact command_roundtrip (wf_clearEp _ hwf) (get_moves_moveok hwf hm2)

theorem apply_undo_restores_witness :
    staleKnightMove ∈ (Game.init.get_moves).1 ∧
    ((Game.init.get_moves).2.board.get_move_command staleKnightMove).2
      (((Game.init.get_moves).2.board.get_move_command staleKnightMove).1
        (Game.init.get_moves).2.board) = (Game.init.get_moves).2.board :=
  ⟨by decide, apply_undo_restores Reachable.init (by decide)⟩

/-- C6: no returned move leaves the mover checked: applying any move of
get_moves to the board it returned leaves is_checked false for the mover. -/
theorem legal_moves_keep_king_safe {b : Board} {c : Bool} {m : Move}
    (hwf : wf b = true) (hm : m ∈ (b.get_moves c).1) :
    (((b.get_moves c).2.get_move_command m).1 (b.get_moves c).2).is_checked c
      = false := by
  rw [get_moves_board hwf]
  exact (get_moves_mem hwf hm).2

theorem legal_moves_keep_king_safe_witness :
    wf Board.initial = true ∧ staleKnightMove ∈ (Board.initial.get_moves true).1 ∧
    (((Board.initial.get_moves true).2.get_move_command staleKnightMove).1
      (Board.initial.get_moves true).2).is_checked true = false :=
  ⟨wf_initial, by decide, legal_moves_keep_king_safe wf_initial (by decide)⟩

/-- C10: get_moves hands back the board with the mover's en-passant flags
cleared in grid and index and everything else unchanged. -/
theorem get_moves_frame_effect {b : Board} (c : Bool) (hwf : wf b = true) :
    (b.get_moves c).2 = epCleared b c := by
  rw [get_moves_board hwf]
  exact clearEp_spec c hwf

theorem get_moves_frame_effect_witness :
    wf Board.initial = true ∧
      (Board.initial.get_moves true).2 = epCleared Board.initial true :=
  ⟨wf_initial, get_moves_frame_effect true wf_initial⟩

/-- C7: an en-passant capture offered by the generator right after a move
always targets the landing square of that move, which was a double pawn
step: the flag is readable for exactly the one following opponent turn. -/
theorem ep_offer_only_immediate {g : Game} (hr : Reachable g) {m : Move} {d : Bool}
    {g2 : Game} (hmk : g.make_move m d = Except.ok g2) {n : PName} {ini fin : Pos}
    {cap : Option PName} {promo : Option PName}
    (hx : Move.normal n ini fin cap true promo ∈ (g2.get_moves).1) :
    (ini.1, fin.2) = get_final_position m ∧ get_piece m = PName.P ∧
      ((get_final_position m).1 - (get_initial_position m).1).natAbs = 2 := by
  obtain ⟨hmem, hg2⟩ := make_move_ok hmk
  subst hg2
  have hw0 := wf_reachable hr
  have hep0 := epPawn_reachable hr
  have hmem2 : m ∈ (g.board.get_moves g.is_white_turn).1 := hmem
  have hwf2 : wf (mmNext g m d).board = true := wf_mmNext hw0 hmem
  have hx2 : Move.normal n ini fin cap true promo ∈
      ((mmNext g m d).board.get_moves (mmNext g m d).is_white_turn).1 := hx
  have hokx := get_moves_moveok hwf2 hx2
  simp only [MoveOK] at hokx
  obtain ⟨pwn, cp, hgi, hpN, hwn, hnm2, hpr2, hgf, hgc, hcw, hce, hi, hf, hsq⟩ := hokx
  have hcw2 : is_white cp = g.is_white_turn := by
    rw [hcw]
    show (!(!g.is_white_turn)) = g.is_white_turn
    exact Bool.not_not _
  have hcwn : is_white cp = !(!g.is_white_turn) := by
    rw [Bool.not_not]
    exact hcw2
  have hgc2 : gridGet (mmNext g m d).board.board (ini.1, fin.2) = some cp :=
    clearEp_other_grid hwf2 ((mmNext g m d).is_white_turn) hgc hcw
  rw [mmNext_board] at hgc2
  dsimp only at hgc2
  have h0w : wf (mmBoard1 g m) = true := by
    rw [mmBoard1, get_moves_board hw0]
    exact wf_command_apply (wf_clearEp _ hw0) (get_moves_moveok hw0 hmem2)
  have hs2 := flagged_stage2 (wf_if_get_moves h0w) hgc2 hcwn
  have hs1 := flagged_stage h0w hs2 hcwn
  rw [mmBoard1, get_moves_board hw0] at hs1
  rcases apply_grid (wf_clearEp _ hw0) (get_moves_moveok hw0 hmem2) hsq hs1
    with h | h | h
  · have := clearEp_own_clean hw0 g.is_white_turn hep0 _ cp hsq h hcw2
    rw [hce] at this
    cases this
  · rw [h] at hce
    cases hce
  · exact ⟨h.2.1, h.2.2.2.1, h.2.2.2.2⟩

set_option maxRecDepth 10000 in
theorem ep_offer_only_immediate_witness :
    gEp3.make_move bD5 false = Except.ok gEp4 ∧
    epX ∈ (gEp4.get_moves).1 ∧
    ((((4 : Int), (4 : Int)) : Pos).1, (((5 : Int), (3 : Int)) : Pos).2)
        = get_final_position bD5 ∧
      get_piece bD5 = PName.P ∧
      ((get_final_position bD5).1 - (get_initial_position bD5).1).natAbs = 2 :=
  ⟨rfl, by decide,
    ep_offer_only_immediate
      (Reachable.step (Reachable.step (Reachable.step Reachable.init
        (rfl : Game.init.make_move wE4 false = Except.ok gEp1))
        (rfl : gEp1.make_move bA6 false = Except.ok gEp2))
        (rfl : gEp2.make_move wE5 false = Except.ok gEp3))
      (rfl : gEp3.make_move bD5 false = Except.ok gEp4)
      (by decide : Move.normal PName.P (4, 4) (5, 3) (some PName.P) true none
        ∈ (gEp4.get_moves).1)⟩

theorem castleK_in_get_moves {b : Board} {c : Bool} (hwf : wf b = true)
    (hc : CastleCondK b c) : Move.castleK c ∈ (b.get_moves c).1 := by
  obtain ⟨⟨kg, hkg, hkN, hkW, hkM⟩, ⟨rk, hrk, hrN, hrW, hrM⟩,
    h5, h6, ha4, ha5, ha6⟩ := hc
  have hkg' := grid_some_fwd hwf c hkg
  have hrk' := grid_some_fwd hwf c hrk
  have h5' := grid_none_fwd hwf c h5
  have h6' := grid_none_fwd hwf c h6
  have hatt := clearEp_attacked hwf c
  have hps := castleK_mem_pseudo hkg' (by rw [pieceFix_name, hkN])
    (by rw [pieceFix_white, hkW]) (by rw [pieceFix_moved, hkM])
    hrk' (by rw [pieceFix_name, hrN]) (by rw [pieceFix_white, hrW])
    (by rw [pieceFix_moved, hrM]) h5' h6'
  have ha4' : posMem (rankOf c, 4)
      ((b.clearEp c)._get_squares_attacked_by (!c)) = false := by
    rw [hatt]; exact ha4
  have ha5' : posMem (rankOf c, 5)
      ((b.clearEp c)._get_squares_attacked_by (!c)) = false := by
    rw [hatt]; exact ha5
  have ha6' : posMem (rankOf c, 6)
      ((b.clearEp c)._get_squares_attacked_by (!c)) = false := by
    rw [hatt]; exact ha6
  have hpr := castleK_mem_pruned hps ha4' ha5' ha6'
  have hchk : (((b.clearEp c).get_move_command (Move.castleK c)).1
      (b.clearEp c)).is_checked c = false := by
    rw [command_castleK_apply hkg' hrk' (b.clearEp c)]
    exact castleK_checked (wf_clearEp c hwf) h5' h6' ha6'
  rw [get_moves_eq]
  refine List.mem_filter.mpr ⟨hpr, ?_⟩
  show (!((b.clearEp c).checkFilter c
    (castlePruned (b.clearEp c) c)).1.contains (Move.castleK c)) = true
  cases hcon : ((b.clearEp c).checkFilter c
      (castlePruned (b.clearEp c) c)).1.contains (Move.castleK c) with
  | false => rfl
  | true =>
    have hbad := ((checkFilter_spec (wf_clearEp c hwf) (gm_ok hwf)).2
      (Move.castleK c)).mp (move_contains_iff.mp hcon)
    rw [hchk] at hbad
    exact absurd hbad.2 Bool.false_ne_true

theorem castleQ_in_get_moves {b : Board} {c : Bool} (hwf : wf b = true)
    (hc : CastleCondQ b c) : Move.castleQ c ∈ (b.get_moves c).1 := by
  obtain ⟨⟨kg, hkg, hkN, hkW, hkM⟩, ⟨rk, hrk, hrN, hrW, hrM⟩,
    h1, h2, h3, ha4, ha3, ha2⟩ := hc
  have hkg' := grid_some_fwd hwf c hkg
  have hrk' := grid_some_fwd hwf c hrk
  have h1' := grid_none_fwd hwf c h1
  have h2' := grid_none_fwd hwf c h2
  have h3' := grid_none_fwd hwf c h3
  have hatt := clearEp_attacked hwf c
  have hps := castleQ_mem_pseudo hkg' (by rw [pieceFix_name, hkN])
    (by rw [pieceFix_white, hkW]) (by rw [pieceFix_moved, hkM])
    hrk' (by rw [pieceFix_name, hrN]) (by rw [pieceFix_white, hrW])
    (by rw [pieceFix_moved, hrM]) h1' h2' h3'
  have ha4' : posMem (rankOf c, 4)
      ((b.clearEp c)._get_squares_attacked_by (!c)) = false := by
    rw [hatt]; exact ha4
  have ha3' : posMem (rankOf c, 3)
      ((b.clearEp c)._get_squares_attacked_by (!c)) = false := by
    rw [hatt]; exact ha3
  have ha2' : posMem (rankOf c, 2)
      ((b.clearEp c)._get_squares_attacked_by (!c)) = false := by
    rw [hatt]; exact ha2
  have hpr := castleQ_mem_pruned hps ha4' ha3' ha2'
  have hchk : (((b.clearEp c).get_move_command (Move.castleQ c)).1
      (b.clearEp c)).is_checked c = false := by
    rw [command_castleQ_apply hkg' hrk' (b.clearEp c)]
    exact castleQ_checked (wf_clearEp c hwf) h2' h3' ha2'
  rw [get_moves_eq]
  refine List.mem_filter.mpr ⟨hpr, ?_⟩
  show (!((b.clearEp c).checkFilter c
    (castlePruned (b.clearEp c) c)).1.contains (Move.castleQ c)) = true
  cases hcon : ((b.clearEp c).checkFilter c
      (castlePruned (b.clearEp c) c)).1.contains (Move.castleQ c) with
  | false => rfl
  | true =>
    have hbad := ((checkFilter_spec (wf_clearEp c hwf) (gm_ok hwf)).2
      (Move.castleQ c)).mp (move_contains_iff.mp hcon)
    rw [hchk] at hbad
    exact absurd hbad.2 Bool.false_ne_true

theorem castleK_conds {b : Board} {c : Bool} (hwf : wf b = true)
    (hm : Move.castleK c ∈ (b.get_moves c).1) : CastleCondK b c := by
  obtain ⟨hpr, hchk⟩ := get_moves_mem hwf hm
  have hok := psuedo_sound (wf_clearEp c hwf) (mem_castlePruned hpr)
  simp only [MoveOK] at hok
  obtain ⟨_, ⟨kg, hkg, hkN, hkW, hkM⟩, ⟨rk, hrk, hrN, hrW, hrM⟩, h5, h6⟩ := hok
  obtain ⟨ha4, ha5, ha6⟩ := castleK_pruned_attacks hpr
  have hatt := clearEp_attacked hwf c
  rw [hatt] at ha4 ha5 ha6
  obtain ⟨kg0, hkg0, hkg0N, hkg0W, hkg0M⟩ := grid_some_back hwf c hkg
  obtain ⟨rk0, hrk0, hrk0N, hrk0W, hrk0M⟩ := grid_some_back hwf c hrk
  exact ⟨⟨kg0, hkg0, hkg0N.trans hkN, hkg0W.trans hkW, hkg0M.trans hkM⟩,
    ⟨rk0, hrk0, hrk0N.trans hrN, hrk0W.trans hrW, hrk0M.trans hrM⟩,
    grid_none_back hwf c h5, grid_none_back hwf c h6, ha4, ha5, ha6⟩

theorem castleQ_conds {b : Board} {c : Bool} (hwf : wf b = true)
    (hm : Move.castleQ c ∈ (b.get_moves c).1) : CastleCondQ b c := by
  obtain ⟨hpr, hchk⟩ := get_moves_mem hwf hm
  have hok := psuedo_sound (wf_clearEp c hwf) (mem_castlePruned hpr)
  simp only [MoveOK] at hok
  obtain ⟨_, ⟨kg, hkg, hkN, hkW, hkM⟩, ⟨rk, hrk, hrN, hrW, hrM⟩, h1, h2, h3⟩ := hok
  obtain ⟨ha4, ha3, ha2⟩ := castleQ_pruned_attacks hpr
  have hatt := clearEp_attacked hwf c
  rw [hatt] at ha4 ha3 ha2
  obtain ⟨kg0, hkg0, hkg0N, hkg0W, hkg0M⟩ := grid_some_back hwf c hkg
  obtain ⟨rk0, hrk0, hrk0N, hrk0W, hrk0M⟩ := grid_some_back hwf c hrk
  exact ⟨⟨kg0, hkg0, hkg0N.trans hkN, hkg0W.trans hkW, hkg0M.trans hkM⟩,
    ⟨rk0, hrk0, hrk0N.trans hrN, hrk0W.trans hrW, hrk0M.trans hrM⟩,
    grid_none_back hwf c h1, grid_none_back hwf c h2,
    grid_none_back hwf c h3, ha4, ha3, ha2⟩

/-- C5: for a well-formed board and either color, each castle move is in
the legal-move list exactly when king and rook are unmoved on their home
squares, the squares between them are empty, and none of the king origin,
intermediate and destination squares is attacked by the opponent. -/
theorem castle_legality_iff {b : Board} {c : Bool} (hwf : wf b = true) :
    (Move.castleK c ∈ (b.get_moves c).1 ↔ CastleCondK b c) ∧
    (Move.castleQ c ∈ (b.get_moves c).1 ↔ CastleCondQ b c) :=
  ⟨⟨castleK_conds hwf, castleK_in_get_moves hwf⟩,
   ⟨castleQ_conds hwf, castleQ_in_get_moves hwf⟩⟩

theorem castle_legality_iff_witness :
    wf Board.initial = true ∧
    ((Move.castleK true ∈ (Board.initial.get_moves true).1
        ↔ CastleCondK Board.initial true) ∧
      (Move.castleQ true ∈ (Board.initial.get_moves true).1
        ↔ CastleCondQ Board.initial true)) :=
  ⟨wf_initial, castle_legality_iff wf_initial⟩

end CliChess
